import Mathlib

/-!
# Point-cloud loader: chunk partition, level-of-detail sampling, binary container

A shallow embedding of `point_cloud_loader.cpp` (namespace `Engine`).

Modelling conventions.

* `float` values are rationals (`ℚ`).  Rounding to binary32 is modelled where
  the code takes the integer part of a `float` product, since truncation makes
  the rounding visible there: `intensity * 1000` and `colour * 255` in the two
  exports and the level thresholds `600000 * boundingRadius` etc. of
  `generateLODLevels` (`roundFloat`), and where a value is serialised to its
  four IEEE-754 bytes (`f32Encode`).  All other arithmetic is exact.
* `int`, `size_t` are unbounded `Int` / `Nat`; where the source narrows to
  `uint32_t` or `uint8_t` (the header count, the stored intensity and colour)
  the model reduces `% 2 ^ 32` or `% 2 ^ 8` explicitly.
* The read loop of `loadFromBinary` need not end, so it takes `fuel`: `none`
  means that it is still running after `fuel` iterations.
* Library functions that are not part of the repository (`cos`, `sin`, `sqrt`,
  `std::shuffle` seeded from `std::random_device`, `sscanf_s`) are fields of
  `Env`; every theorem quantifies over all of them.
* `exportToXYZ` is modelled by the values it hands to the output stream; the
  stream's formatting (three decimals) is library code and is not modelled.
* OpenGL calls only move data to the GPU.  The data uploaded for a level of
  detail is kept (`lodVBOs`), every other handle is dropped.
* `std::unordered_map` iteration order is unspecified.  The model iterates in
  first-insertion order; the theorems about the chunk list are stated through
  permutations, membership and lengths, so they do not depend on that choice.
* Worker threads are run to completion in launch order, each before the next
  block is read.  In the source the workers merge in completion order and the
  read loop of `loadFromBinary` may read on while workers are pending, so the
  order of the merged points of a file of several blocks, and the number of
  records read from a container that holds more records than its header count,
  depend on the real schedule; a file of one block has one worker.
* `saveScene` and `loadScene` are modelled for one point cloud: the three
  transform entries of the JSON document and the binary file.
-/

namespace Engine

/-! ## Data model (`data.h`) -/

/-- The type `glm::vec3`. -/
structure Vec3 where
  x : ℚ
  y : ℚ
  z : ℚ
deriving DecidableEq

/-- The type `glm::vec4`. -/
structure Vec4 where
  x : ℚ
  y : ℚ
  z : ℚ
  w : ℚ
deriving DecidableEq

/-- The type `glm::ivec3`. -/
structure IVec3 where
  x : Int
  y : Int
  z : Int
deriving DecidableEq

/-- The type `glm::mat4`, stored by columns as in glm (`m[i]` is column `i`). -/
structure Mat4 where
  c0 : Vec4
  c1 : Vec4
  c2 : Vec4
  c3 : Vec4
deriving DecidableEq

/-- The struct `PointCloudPoint`. -/
structure PointCloudPoint where
  position : Vec3
  intensity : ℚ
  color : Vec3
deriving DecidableEq

/-- The struct `PointCloudChunk`.  `lodVBOs[i]` is `none` for the handle `0`
(no buffer) and `some pts` for a buffer that was filled with `pts`. -/
structure PointCloudChunk where
  points : List PointCloudPoint
  centerPosition : Vec3
  boundingRadius : ℚ
  lodVBOs : List (Option (List PointCloudPoint))
  lodPointCounts : List Nat
deriving DecidableEq

/-- The struct `PointCloud` without its name, path and GL handles. -/
structure PointCloud where
  points : List PointCloudPoint
  position : Vec3
  rotation : Vec3
  scale : Vec3
  visible : Bool
  instanceMatrices : List Mat4
  instanceCount : Nat
  chunks : List PointCloudChunk
  chunkSize : ℚ
  newChunkSize : ℚ
  chunkOutlineVertices : List Vec3
deriving DecidableEq

/-- The value-initialised `PointCloud()`: empty containers, zeroed vectors and
the default member initialisers of `data.h`. -/
def PointCloud.empty : PointCloud :=
  { points := [], position := ⟨0, 0, 0⟩, rotation := ⟨0, 0, 0⟩, scale := ⟨0, 0, 0⟩,
    visible := true, instanceMatrices := [], instanceCount := 0, chunks := [],
    chunkSize := 2, newChunkSize := 2, chunkOutlineVertices := [] }

/-! ## Environment: library functions outside the repository -/

/-- One outcome of the `std::shuffle` calls of one `generateLODLevels` run:
`run level cell indices` is the shuffled index vector of that cell. -/
structure Shuffle where
  run : Nat → Nat → List Nat → List Nat
  perm : ∀ level cell xs, (run level cell xs).Perm xs

/-- The seven values `sscanf_s` stores for `"%f %f %f %f %d %d %d"`. -/
structure ScanFields where
  x : ℚ
  y : ℚ
  z : ℚ
  intensity : ℚ
  r : Int
  g : Int
  b : Int
deriving DecidableEq

/-- Library functions used by the loader.  `cosDeg d` and `sinDeg d` stand for
`cos (glm::radians d)` and `sin (glm::radians d)`; `shuffle i` is the outcome of
the random sampling for the `i`-th chunk that is built; `sscanf line` is
`some` exactly when `sscanf_s` returns 7 on `line`.  The laws are those of the
C library at the argument 0. -/
structure Env where
  cosDeg : ℚ → ℚ
  sinDeg : ℚ → ℚ
  cos_zero : cosDeg 0 = 1
  sin_zero : sinDeg 0 = 0
  sqrt : ℚ → ℚ
  sqrt_zero : sqrt 0 = 0
  sqrt_nonneg : ∀ q, 0 ≤ sqrt q
  shuffle : Nat → Shuffle
  sscanf : List Char → Option ScanFields

/-! ## glm helpers -/

def Vec3.add (a b : Vec3) : Vec3 := ⟨a.x + b.x, a.y + b.y, a.z + b.z⟩

def Vec3.sub (a b : Vec3) : Vec3 := ⟨a.x - b.x, a.y - b.y, a.z - b.z⟩

def Vec3.dot (a b : Vec3) : ℚ := a.x * b.x + a.y * b.y + a.z * b.z

/-- The value `glm::vec3(s)`. -/
def Vec3.splat (s : ℚ) : Vec3 := ⟨s, s, s⟩

def Vec3.divScalar (a : Vec3) (s : ℚ) : Vec3 := ⟨a.x / s, a.y / s, a.z / s⟩

def Vec3.mulScalar (a : Vec3) (s : ℚ) : Vec3 := ⟨a.x * s, a.y * s, a.z * s⟩

/-- Component-wise quotient of two vectors. -/
def Vec3.divVec (a b : Vec3) : Vec3 := ⟨a.x / b.x, a.y / b.y, a.z / b.z⟩

/-- The function `glm::min` on vectors. -/
def Vec3.min (a b : Vec3) : Vec3 := ⟨Min.min a.x b.x, Min.min a.y b.y, Min.min a.z b.z⟩

/-- The function `glm::max` on vectors. -/
def Vec3.max (a b : Vec3) : Vec3 := ⟨Max.max a.x b.x, Max.max a.y b.y, Max.max a.z b.z⟩

/-- The conversion `glm::ivec3 (glm::floor v)`. -/
def Vec3.floor (a : Vec3) : IVec3 := ⟨⌊a.x⌋, ⌊a.y⌋, ⌊a.z⌋⟩

def Vec4.add (a b : Vec4) : Vec4 := ⟨a.x + b.x, a.y + b.y, a.z + b.z, a.w + b.w⟩

def Vec4.smul (a : Vec4) (s : ℚ) : Vec4 := ⟨a.x * s, a.y * s, a.z * s, a.w * s⟩

/-- The value `glm::vec4(v, 1.0f)`. -/
def Vec4.ofPoint (v : Vec3) : Vec4 := ⟨v.x, v.y, v.z, 1⟩

/-- The value `glm::vec3(v)`: the first three components. -/
def Vec4.xyz (v : Vec4) : Vec3 := ⟨v.x, v.y, v.z⟩

/-- The matrix `glm::mat4(1.0f)`. -/
def Mat4.identity : Mat4 := ⟨⟨1, 0, 0, 0⟩, ⟨0, 1, 0, 0⟩, ⟨0, 0, 1, 0⟩, ⟨0, 0, 0, 1⟩⟩

/-- The product `m * v` of a matrix and a column vector. -/
def Mat4.mulVec (m : Mat4) (v : Vec4) : Vec4 :=
  ((m.c0.smul v.x).add (m.c1.smul v.y)).add ((m.c2.smul v.z).add (m.c3.smul v.w))

/-- The function `glm::translate (m, v)`. -/
def Mat4.translate (m : Mat4) (v : Vec3) : Mat4 :=
  { m with c3 := (((m.c0.smul v.x).add (m.c1.smul v.y)).add (m.c2.smul v.z)).add m.c3 }

/-- The function `glm::rotate (m, angle, axis)` for a unit `axis`, with the
cosine `c` and the sine `s` of the angle already taken. -/
def Mat4.rotate (m : Mat4) (c s : ℚ) (axis : Vec3) : Mat4 :=
  let temp : Vec3 := axis.mulScalar (1 - c)
  let r00 := c + temp.x * axis.x
  let r01 := temp.x * axis.y + s * axis.z
  let r02 := temp.x * axis.z - s * axis.y
  let r10 := temp.y * axis.x - s * axis.z
  let r11 := c + temp.y * axis.y
  let r12 := temp.y * axis.z + s * axis.x
  let r20 := temp.z * axis.x + s * axis.y
  let r21 := temp.z * axis.y - s * axis.x
  let r22 := c + temp.z * axis.z
  { c0 := ((m.c0.smul r00).add (m.c1.smul r01)).add (m.c2.smul r02),
    c1 := ((m.c0.smul r10).add (m.c1.smul r11)).add (m.c2.smul r12),
    c2 := ((m.c0.smul r20).add (m.c1.smul r21)).add (m.c2.smul r22),
    c3 := m.c3 }

/-- The function `glm::scale (m, v)`. -/
def Mat4.scale (m : Mat4) (v : Vec3) : Mat4 :=
  { c0 := m.c0.smul v.x, c1 := m.c1.smul v.y, c2 := m.c2.smul v.z, c3 := m.c3 }

/-- The model matrix built at the start of `generateChunks`, `exportToXYZ` and
`exportToBinary`: translate, rotate about X, Y, Z (degrees), scale. -/
def modelMatrix (env : Env) (position rotation scale : Vec3) : Mat4 :=
  let m := Mat4.identity
  let m := m.translate position
  let m := m.rotate (env.cosDeg rotation.x) (env.sinDeg rotation.x) ⟨1, 0, 0⟩
  let m := m.rotate (env.cosDeg rotation.y) (env.sinDeg rotation.y) ⟨0, 1, 0⟩
  let m := m.rotate (env.cosDeg rotation.z) (env.sinDeg rotation.z) ⟨0, 0, 1⟩
  m.scale scale

/-- The expression `glm::vec3 (modelMatrix * glm::vec4 (p, 1.0f))`. -/
def transformPoint (m : Mat4) (p : Vec3) : Vec3 := (m.mulVec (Vec4.ofPoint p)).xyz

/-- The function `calculateTransformedChunkPosition`. -/
def calculateTransformedChunkPosition (chunkPos : Vec3) (m : Mat4) : Vec3 :=
  (m.mulVec (Vec4.ofPoint chunkPos)).xyz

/-! ## `float` arithmetic -/

/-- Rounding of a non-negative rational to the nearest integer, ties to even. -/
def roundHalfEven (q : ℚ) : Nat :=
  let f := ⌊q⌋.toNat
  if q - f < 1 / 2 then f
  else if 1 / 2 < q - f then f + 1
  else if f % 2 = 0 then f else f + 1

/-- The `float` nearest to `x` (round to nearest, ties to even): the result of
a `float` operation whose exact result is `x`.  Overflow to an infinity is not
modelled: the exponent is unbounded above. -/
def roundFloat (x : ℚ) : ℚ :=
  if x = 0 then 0
  else
    let e : Int := max (Int.log 2 |x|) (-126)
    let m := roundHalfEven (|x| * (2 : ℚ) ^ (23 - e))
    (if x < 0 then -1 else 1) * ((m : ℚ) * (2 : ℚ) ^ (e - 23))

/-! ## `generateLODLevels` -/

/-- The constant `numLODLevels`. -/
def numLODLevels : Nat := 5

/-- The constant `gridSize`. -/
def gridSize : Nat := 8

/-- The constant `gridCells = gridSize * gridSize * gridSize`. -/
def gridCells : Nat := gridSize * gridSize * gridSize

/-- The value `std::numeric_limits<float>::max ()`. -/
def fltMax : ℚ := (2 ^ 24 - 1) * 2 ^ 104

/-- The value `std::numeric_limits<size_t>::max ()`. -/
def sizeMax : Nat := 2 ^ 64 - 1

/-- Conversion of a non-negative `float` to `size_t`: the fractional part is
discarded.  The conversion is undefined from `2 ^ 64` on; the model keeps the
integer part there too. -/
def toSize (q : ℚ) : Nat := ⌊q⌋.toNat

/-- Conversion `int (f)` of a `float`: truncation toward zero. -/
def toInt (q : ℚ) : Int := if 0 ≤ q then ⌊q⌋ else ⌈q⌉

/-- The function `glm::clamp (v, lo, hi)` on `int`. -/
def clampInt (v lo hi : Int) : Int := min (max v lo) hi

/-- The array `thresholds` of `generateLODLevels`: each product is computed as
a `float` and converted to `size_t`. -/
def lodThresholds (boundingRadius : ℚ) : List Nat :=
  [sizeMax, toSize (roundFloat (600000 * boundingRadius)),
    toSize (roundFloat (100000 * boundingRadius)),
    toSize (roundFloat (50000 * boundingRadius)),
    toSize (roundFloat (30000 * boundingRadius))]

/-- The first parallel loop: the bounding box `(chunkMin, chunkMax)` of the
chunk's point positions. -/
def chunkBounds (points : List PointCloudPoint) : Vec3 × Vec3 :=
  points.foldl (fun b p => (b.1.min p.position, b.2.max p.position))
    (Vec3.splat fltMax, Vec3.splat (-fltMax))

/-- The voxel index `idx` of a point in the 8 x 8 x 8 grid. -/
def gridIndex (chunkMin chunkMax : Vec3) (p : PointCloudPoint) : Nat :=
  let normalized := (p.position.sub chunkMin).divVec (chunkMax.sub chunkMin)
  (clampInt (toInt (normalized.x * gridSize)) 0 (gridSize - 1)
    + clampInt (toInt (normalized.y * gridSize)) 0 (gridSize - 1) * gridSize
    + clampInt (toInt (normalized.z * gridSize)) 0 (gridSize - 1) * gridSize * gridSize).toNat

/-- The statement `v[idx].push_back (p)` on a vector of vectors. -/
def pushAt {α : Type} : List (List α) → Nat → α → List (List α)
  | [], _, _ => []
  | c :: cs, 0, p => (c ++ [p]) :: cs
  | c :: cs, i + 1, p => c :: pushAt cs i p

/-- The second parallel loop: every point is appended to its voxel cell. -/
def buildGrid (points : List PointCloudPoint) : List (List PointCloudPoint) :=
  let b := chunkBounds points
  points.foldl (fun grid p => pushAt grid (gridIndex b.1 b.2 p) p)
    (List.replicate gridCells [])

/-- The body of the loop over `cell`: the points one voxel cell contributes
to a level whose quota for that cell is `cellTargetCount`. -/
def selectCell (rng : Shuffle) (level cell : Nat) (cellGrid : List PointCloudPoint)
    (cellTargetCount : Nat) : List PointCloudPoint :=
  if cellGrid.length ≤ cellTargetCount then cellGrid
  else
    let indices := rng.run level cell (List.range cellGrid.length)
    (indices.take cellTargetCount).filterMap (fun i => cellGrid[i]?)

/-- The body of the loop over `level`: the point list of level `level`, given
the levels computed so far. -/
def lodLevelPoints (rng : Shuffle) (thresholds : List Nat) (points : List PointCloudPoint)
    (grid : List (List PointCloudPoint)) (lodPoints : List (List PointCloudPoint))
    (level : Nat) : List PointCloudPoint :=
  if points.length ≤ thresholds.getD level 0 then points
  else
    let targetCount := min (thresholds.getD level 0) ((lodPoints.getD (level - 1) []).length / 2)
    let basePointsPerCell := targetCount / gridCells
    let remainder := targetCount % gridCells
    (List.range gridCells).flatMap (fun cell =>
      selectCell rng level cell (grid.getD cell [])
        (basePointsPerCell + (if cell < remainder then 1 else 0)))

/-- The local `lodPoints` of `generateLODLevels` after the loop over levels. -/
def lodPointLists (rng : Shuffle) (chunk : PointCloudChunk) : List (List PointCloudPoint) :=
  let thresholds := lodThresholds chunk.boundingRadius
  let grid := buildGrid chunk.points
  (List.range' 1 (numLODLevels - 1)).foldl
    (fun lodPoints level =>
      lodPoints.set level (lodLevelPoints rng thresholds chunk.points grid lodPoints level))
    (chunk.points :: List.replicate (numLODLevels - 1) [])

/-- The function `generateLODLevels`. -/
def generateLODLevels (rng : Shuffle) (chunk : PointCloudChunk) : PointCloudChunk :=
  let lodPoints := lodPointLists rng chunk
  { chunk with
    lodVBOs := lodPoints.map (fun pts => if pts.isEmpty then none else some pts),
    lodPointCounts := lodPoints.map List.length }

/-! ## `generateChunkOutlineVertices` -/

/-- The 24 vertices pushed for one chunk. -/
def chunkOutline (center : Vec3) (chunkSize : ℚ) : List Vec3 :=
  let minBound := center.sub (Vec3.splat (chunkSize / 2))
  let maxBound := center.add (Vec3.splat (chunkSize / 2))
  [ minBound, ⟨maxBound.x, minBound.y, minBound.z⟩,
    ⟨maxBound.x, minBound.y, minBound.z⟩, ⟨maxBound.x, maxBound.y, minBound.z⟩,
    ⟨maxBound.x, maxBound.y, minBound.z⟩, ⟨minBound.x, maxBound.y, minBound.z⟩,
    ⟨minBound.x, maxBound.y, minBound.z⟩, minBound,
    ⟨minBound.x, minBound.y, maxBound.z⟩, ⟨maxBound.x, minBound.y, maxBound.z⟩,
    ⟨maxBound.x, minBound.y, maxBound.z⟩, maxBound,
    maxBound, ⟨minBound.x, maxBound.y, maxBound.z⟩,
    ⟨minBound.x, maxBound.y, maxBound.z⟩, ⟨minBound.x, minBound.y, maxBound.z⟩,
    minBound, ⟨minBound.x, minBound.y, maxBound.z⟩,
    ⟨maxBound.x, minBound.y, minBound.z⟩, ⟨maxBound.x, minBound.y, maxBound.z⟩,
    ⟨maxBound.x, maxBound.y, minBound.z⟩, maxBound,
    ⟨minBound.x, maxBound.y, minBound.z⟩, ⟨minBound.x, maxBound.y, maxBound.z⟩ ]

/-- The function `generateChunkOutlineVertices`. -/
def generateChunkOutlineVertices (pointCloud : PointCloud) : PointCloud :=
  { pointCloud with
    chunkOutlineVertices :=
      pointCloud.chunks.flatMap (fun chunk => chunkOutline chunk.centerPosition pointCloud.chunkSize) }

/-! ## `generateChunks` -/

/-- The key `chunkIndex` of a point: `floor (transformedPos / chunkSize)`. -/
def chunkIndexOf (m : Mat4) (chunkSize : ℚ) (p : PointCloudPoint) : IVec3 :=
  ((transformPoint m p.position).divScalar chunkSize).floor

/-- The statement `chunkMap[chunkIndex].push_back (point)`. -/
def chunkMapPush : List (IVec3 × List PointCloudPoint) → IVec3 → PointCloudPoint →
    List (IVec3 × List PointCloudPoint)
  | [], k, p => [(k, [p])]
  | (k', ps) :: rest, k, p =>
    if k' = k then (k', ps ++ [p]) :: rest else (k', ps) :: chunkMapPush rest k p

/-- The loop that populates `chunkMap`. -/
def buildChunkMap (m : Mat4) (chunkSize : ℚ) (points : List PointCloudPoint) :
    List (IVec3 × List PointCloudPoint) :=
  points.foldl (fun chunkMap p => chunkMapPush chunkMap (chunkIndexOf m chunkSize p) p) []

/-- The centre `(chunkIndex + 0.5f) * chunkSize` of a grid cell. -/
def chunkCenter (chunkIndex : IVec3) (chunkSize : ℚ) : Vec3 :=
  ⟨(chunkIndex.x + 1 / 2) * chunkSize, (chunkIndex.y + 1 / 2) * chunkSize,
    (chunkIndex.z + 1 / 2) * chunkSize⟩

/-- The loop computing `maxDistSq` for a chunk. -/
def maxDistSq (center : Vec3) (points : List PointCloudPoint) : ℚ :=
  points.foldl (fun acc p => max acc ((p.position.sub center).dot (p.position.sub center))) 0

/-- The body of the loop over `chunkMap`: the chunk built for one entry;
`ordinal` is the number of chunks built before it. -/
def makeChunk (env : Env) (chunkSize : ℚ) (ordinal : Nat)
    (entry : IVec3 × List PointCloudPoint) : PointCloudChunk :=
  let center := chunkCenter entry.1 chunkSize
  generateLODLevels (env.shuffle ordinal)
    { points := entry.2, centerPosition := center,
      boundingRadius := env.sqrt (maxDistSq center entry.2),
      lodVBOs := [], lodPointCounts := [] }

/-- The function `generateChunks`. -/
def generateChunks (env : Env) (pointCloud : PointCloud) (chunkSize : ℚ) : PointCloud :=
  let m := modelMatrix env pointCloud.position pointCloud.rotation pointCloud.scale
  let chunkMap := buildChunkMap m chunkSize pointCloud.points
  generateChunkOutlineVertices
    { pointCloud with
      chunkSize := chunkSize,
      chunks := chunkMap.enum.map (fun e => makeChunk env chunkSize e.1 e.2) }

/-! ## Binary container: `exportToBinary` and `loadFromBinary` -/

/-- The constant `BINARY_MAGIC_NUMBER`: the bytes of `'P', 'C', 'B', '1'`. -/
def BINARY_MAGIC_NUMBER : List Nat := [80, 67, 66, 49]

/-- The four bytes of a 32-bit value in memory order (little endian). -/
def le32 (v : Nat) : List Nat := [v % 256, v / 256 % 256, v / 65536 % 256, v / 16777216 % 256]

/-- The 32-bit value held by four bytes in memory order. -/
def fromLe32 (bytes : List Nat) : Nat :=
  bytes.getD 0 0 + 256 * bytes.getD 1 0 + 65536 * bytes.getD 2 0 + 16777216 * bytes.getD 3 0

/-- The IEEE-754 binary32 bit pattern nearest to `x` (round to nearest, ties to
even; values too large become an infinity). -/
def f32Encode (x : ℚ) : Nat :=
  let sign := if x < 0 then 2 ^ 31 else 0
  if x = 0 then 0
  else
    let e : Int := max (Int.log 2 |x|) (-126)
    let m := roundHalfEven (|x| * (2 : ℚ) ^ (23 - e))
    sign + min ((e + 126).toNat * 2 ^ 23 + m) 2139095040

/-- The value of a binary32 bit pattern.  Infinities and NaNs have no rational
value and are read as 0. -/
def f32Decode (bits : Nat) : ℚ :=
  let e : Nat := bits / 2 ^ 23 % 256
  let m : Nat := bits % 2 ^ 23
  let mag : ℚ :=
    if e = 0 then (m : ℚ) * (2 : ℚ) ^ (-149 : Int)
    else if e = 255 then 0
    else ((2 ^ 23 + m : Nat) : ℚ) * (2 : ℚ) ^ ((e : Int) - 150)
  if bits / 2 ^ 31 % 2 = 1 then -mag else mag

/-- The four bytes of a `float` in memory. -/
def f32Bytes (x : ℚ) : List Nat := le32 (f32Encode x)

/-- The `float` held by four bytes in memory. -/
def f32OfBytes (bytes : List Nat) : ℚ := f32Decode (fromLe32 bytes)

/-- The 12 bytes of a `glm::vec3` in memory. -/
def vec3Bytes (v : Vec3) : List Nat := f32Bytes v.x ++ f32Bytes v.y ++ f32Bytes v.z

/-- The `glm::vec3` that `memcpy` reads from 12 bytes. -/
def vec3OfBytes (bytes : List Nat) : Vec3 :=
  ⟨f32OfBytes (bytes.take 4), f32OfBytes ((bytes.drop 4).take 4), f32OfBytes ((bytes.drop 8).take 4)⟩

/-- The conversion `static_cast<uint32_t> (f)` for `f` in range. -/
def toU32 (q : ℚ) : Nat := toSize q % 2 ^ 32

/-- The conversion of a `float` in range to `glm::u8`. -/
def toU8 (q : ℚ) : Nat := toSize q % 2 ^ 8

/-- The bytes `exportToBinary` writes for one point: transformed position,
intensity, colour.  The products `point.intensity * 1000` and
`point.color * 255.0f` are `float`s; the conversions keep their integer part. -/
def encodePoint (transform : Mat4) (point : PointCloudPoint) : List Nat :=
  let finalPos := transformPoint transform point.position
  let intensity := toU32 (roundFloat (point.intensity * 1000))
  let color : Vec3 :=
    ⟨roundFloat (point.color.x * 255), roundFloat (point.color.y * 255),
      roundFloat (point.color.z * 255)⟩
  vec3Bytes finalPos ++ le32 intensity ++ [toU8 color.x, toU8 color.y, toU8 color.z]

/-- The function `exportToBinary`: the bytes written to the file, or `none`
when the file cannot be opened (the function then returns `false`). -/
def exportToBinary (env : Env) (pointCloud : PointCloud) (opened : Bool) : Option (List Nat) :=
  if !opened then none
  else
    let transform := modelMatrix env pointCloud.position pointCloud.rotation pointCloud.scale
    let numPoints := pointCloud.points.length % 2 ^ 32
    some (BINARY_MAGIC_NUMBER ++ le32 numPoints ++ pointCloud.points.flatMap (encodePoint transform))

/-- The constant `pointSize` of `loadFromBinary`:
`sizeof (glm::vec3) + sizeof (uint32_t) + sizeof (glm::u8vec3)`. -/
def pointSize : Nat := 12 + 4 + 3

/-- The constant `bufferSize` of both loaders: 1 MiB. -/
def bufferSize : Nat := 1024 * 1024

/-- The constant `pointsPerBuffer` of `loadFromBinary`. -/
def pointsPerBuffer : Nat := bufferSize / pointSize

/-- The point one iteration of the binary `processChunk` loop reads at `data`. -/
def decodePoint (data : List Nat) : PointCloudPoint :=
  let position := vec3OfBytes (data.take 12)
  let data := data.drop 12
  let intensity := fromLe32 (data.take 4)
  let data := data.drop 4
  { position := position,
    intensity := (intensity : ℚ) / 1000,
    color := (Vec3.mk (data.getD 0 0) (data.getD 1 0) (data.getD 2 0)).divScalar 255 }

/-- The lambda `processChunk` of `loadFromBinary`: `numPoints` records are read
from `data`, the pointer advancing by one record each time. -/
def processBinaryChunk : Nat → List Nat → List PointCloudPoint
  | 0, _ => []
  | numPoints + 1, data => decodePoint data :: processBinaryChunk numPoints (data.drop pointSize)

/-- The loop `while (totalPointsProcessed < numPoints)` of `loadFromBinary`, on
the unread rest of the file.  The result is `none` when the loop is still
running after `fuel` iterations.  The worker of a block is run to completion
when it is launched: it has merged its points and added its count before the
loop tests `totalPointsProcessed` again. -/
def readLoop : Nat → Nat → List Nat → Nat → List PointCloudPoint → Option (List PointCloudPoint)
  | fuel, numPoints, rest, totalPointsProcessed, points =>
    if totalPointsProcessed < numPoints then
      match fuel with
      | 0 => none
      | fuel + 1 =>
        let remainingPoints := numPoints - totalPointsProcessed
        let pointsToRead := min pointsPerBuffer remainingPoints
        let bytesToRead := pointsToRead * pointSize
        let buffer := rest.take bytesToRead
        let bytesRead := buffer.length
        if 0 < bytesRead then
          let actualPointsRead := bytesRead / pointSize
          readLoop fuel numPoints (rest.drop bytesToRead) (totalPointsProcessed + actualPointsRead)
            (points ++ processBinaryChunk actualPointsRead buffer)
        else readLoop fuel numPoints rest totalPointsProcessed points
    else some points

/-- The instance matrices built after loading: one translation per point. -/
def instanceMatricesOf (points : List PointCloudPoint) : List Mat4 :=
  points.map (fun point => Mat4.identity.translate point.position)

/-- The common tail of both loaders: `generateChunks (pointCloud, 10.0f)` and
the instance matrices. -/
def finishLoad (env : Env) (pointCloud : PointCloud) : PointCloud :=
  let pointCloud := generateChunks env pointCloud 10
  { pointCloud with
    instanceMatrices := instanceMatricesOf pointCloud.points,
    instanceCount := pointCloud.points.length }

/-- The content of a buffer of `n` bytes after `read`: the bytes the file still
has, then whatever the buffer held before (`uninit`). -/
def readInto (uninit : List Nat) (n : Nat) (file : List Nat) : List Nat :=
  file.take n ++ (uninit.drop (file.take n).length).take (n - (file.take n).length)

/-- The function `loadFromBinary`.  `file` is `none` when the file cannot be
opened; `uninit` is the prior content of the two header buffers, seen only
when the file ends inside the header.  The result is `none` when the read
loop is still running after `fuel` iterations. -/
def loadFromBinary (env : Env) (uninit : List Nat) (fuel : Nat) (file : Option (List Nat)) :
    Option PointCloud :=
  match file with
  | none => some PointCloud.empty
  | some bytes =>
    let magic := readInto uninit 4 bytes
    if magic ≠ BINARY_MAGIC_NUMBER then
      some (finishLoad env PointCloud.empty)
    else
      let numPoints := fromLe32 (readInto (uninit.drop 4) 4 (bytes.drop 4))
      match readLoop fuel numPoints (bytes.drop 8) 0 [] with
      | none => none
      | some points =>
        some (finishLoad env
          { PointCloud.empty with
            points := points, position := ⟨0, 0, 0⟩, rotation := ⟨0, 0, 0⟩, scale := ⟨1, 1, 1⟩ })

/-! ## Text ingestion: `loadPointCloudFile` -/

/-- The calls `std::getline (iss, line)` until failure: the lines of a block.
`cur` is the part of the current line already read. -/
def getLinesFrom : List Char → List Char → List (List Char)
  | cur, [] => if cur = [] then [] else [cur]
  | cur, c :: cs => if c = '\n' then cur :: getLinesFrom [] cs else getLinesFrom (cur ++ [c]) cs

/-- The lines `std::getline` yields for a block. -/
def getLines (block : List Char) : List (List Char) := getLinesFrom [] block

/-- The point built from the seven scanned fields: the scanned intensity is
not used. -/
def pointOfFields (f : ScanFields) : PointCloudPoint :=
  { position := ⟨f.x, f.y, f.z⟩, intensity := 1,
    color := ⟨(f.r : ℚ) / 255, (f.g : ℚ) / 255, (f.b : ℚ) / 255⟩ }

/-- The `while (std::getline ...)` loop of the text `processChunk`, started
with `pointCounter` on the remaining lines: the points pushed to `localPoints`. -/
def processLines (env : Env) (downsampleFactor : Nat) : Nat → List (List Char) → List PointCloudPoint
  | _, [] => []
  | pointCounter, line :: rest =>
    (if line ≠ [] ∧ pointCounter % downsampleFactor = 0 then
      match env.sscanf line with
      | some f => [pointOfFields f]
      | none => []
    else []) ++ processLines env downsampleFactor (pointCounter + 1) rest

/-- The lambda `processChunk` of `loadPointCloudFile` on one block. -/
def processChunk (env : Env) (downsampleFactor : Nat) (chunk : List Char) : List PointCloudPoint :=
  processLines env downsampleFactor 0 (getLines chunk)

/-- The blocks the loop `while (file)` hands to workers: the file cut every
`bufferSize` bytes; a read of 0 bytes starts no worker. -/
def readBlocks (file : List Char) : List (List Char) :=
  if file.length < bufferSize then
    if file = [] then [] else [file]
  else file.take bufferSize :: readBlocks (file.drop bufferSize)
termination_by file.length
decreasing_by
  simp only [List.length_drop, bufferSize] at *
  omega

/-- The function `loadPointCloudFile`; `file` is `none` when the file cannot
be opened. -/
def loadPointCloudFile (env : Env) (file : Option (List Char)) (downsampleFactor : Nat) :
    PointCloud :=
  let pointCloud : PointCloud :=
    { PointCloud.empty with position := ⟨0, 0, 0⟩, rotation := ⟨0, 0, 0⟩, scale := ⟨1, 1, 1⟩ }
  match file with
  | none => pointCloud
  | some content =>
    finishLoad env
      { pointCloud with
        points := (readBlocks content).flatMap (processChunk env downsampleFactor) }

/-! ## Text export: `exportToXYZ` -/

/-- One line of `exportToXYZ`: the seven values handed to the output stream,
which prints the three coordinates with three decimals. -/
structure XYZLine where
  x : ℚ
  y : ℚ
  z : ℚ
  intensity : Int
  r : Int
  g : Int
  b : Int
deriving DecidableEq

/-- The values `exportToXYZ` streams for one point. -/
def xyzLine (transform : Mat4) (point : PointCloudPoint) : XYZLine :=
  let transformedPos := transform.mulVec (Vec4.ofPoint point.position)
  { x := transformedPos.x, y := transformedPos.y, z := transformedPos.z,
    intensity := toInt (roundFloat (point.intensity * 1000)),
    r := toInt (roundFloat (point.color.x * 255)), g := toInt (roundFloat (point.color.y * 255)),
    b := toInt (roundFloat (point.color.z * 255)) }

/-- The function `exportToXYZ`: the lines written, or `none` when the file
cannot be opened (the function then returns `false`). -/
def exportToXYZ (env : Env) (pointCloud : PointCloud) (opened : Bool) : Option (List XYZLine) :=
  if !opened then none
  else
    let transform := modelMatrix env pointCloud.position pointCloud.rotation pointCloud.scale
    some (pointCloud.points.map (xyzLine transform))

/-! ## Scene files: `saveScene` and `loadScene` -/

/-- What `saveScene` writes for one point cloud: the entries `position`,
`rotation` and `scale` of the JSON document and the file `exportToBinary`
writes. -/
structure SavedPointCloud where
  position : Vec3
  rotation : Vec3
  scale : Vec3
  data : Option (List Nat)

/-- The body of the loop over `scene.pointClouds` in `saveScene`. -/
def saveScene (env : Env) (pointCloud : PointCloud) : SavedPointCloud :=
  { position := pointCloud.position, rotation := pointCloud.rotation, scale := pointCloud.scale,
    data := exportToBinary env pointCloud true }

/-- The body of the loop over the entry `pointClouds` in `loadScene`: the
cloud is read with `loadFromBinary`, then its transform is set from the JSON
document. -/
def loadScene (env : Env) (uninit : List Nat) (fuel : Nat) (saved : SavedPointCloud) :
    Option PointCloud :=
  (loadFromBinary env uninit fuel saved.data).map (fun pointCloud =>
    { pointCloud with
      position := saved.position, rotation := saved.rotation, scale := saved.scale })

/-! ## A reference environment

A concrete `Env`, used for worked examples: rational approximations of the
trigonometric functions and of the square root, one fixed shuffle outcome,
and `sscanf_s` on plain decimal input. -/

/-- Bhaskara's rational approximation of the sine of an angle in degrees,
exact at the multiples of 90. -/
def refSinDeg (d : ℚ) : ℚ :=
  let r := d - 360 * ⌊d / 360⌋
  if r ≤ 180 then 4 * r * (180 - r) / (40500 - r * (180 - r))
  else -(4 * (r - 180) * (360 - r) / (40500 - (r - 180) * (360 - r)))

/-- The cosine that goes with `refSinDeg`. -/
def refCosDeg (d : ℚ) : ℚ := refSinDeg (d + 90)

/-- A square root with 24 fractional bits, rounded down. -/
def refSqrt (q : ℚ) : ℚ := (Nat.sqrt (⌊q * 2 ^ 48⌋.toNat) : ℚ) / 2 ^ 24

/-- The shuffle outcome that reverses every index vector. -/
def refShuffle : Shuffle :=
  { run := fun _ _ xs => xs.reverse, perm := fun _ _ xs => List.reverse_perm xs }

/-- The value of a string of decimal digits. -/
def digitsValue (ds : List Char) : Nat := ds.foldl (fun n c => 10 * n + (c.toNat - 48)) 0

/-- An optional sign: whether it is a minus, and the rest of the input. -/
def scanSign : List Char → Bool × List Char
  | '-' :: cs => (true, cs)
  | '+' :: cs => (false, cs)
  | cs => (false, cs)

/-- The directive `%d` on decimal input: leading white space, an optional
sign, at least one digit. -/
def scanInt (input : List Char) : Option (Int × List Char) :=
  let (neg, cs) := scanSign (input.dropWhile Char.isWhitespace)
  let ds := cs.takeWhile Char.isDigit
  if ds = [] then none
  else some (if neg then -(digitsValue ds : Int) else digitsValue ds, cs.dropWhile Char.isDigit)

/-- The directive `%f` on plain decimal input (no exponent, no `inf`, `nan` or
hexadecimal form): leading white space, an optional sign, digits with an
optional fractional part, at least one digit in all. -/
def scanFloat (input : List Char) : Option (ℚ × List Char) :=
  let (neg, cs) := scanSign (input.dropWhile Char.isWhitespace)
  let ip := cs.takeWhile Char.isDigit
  let cs := cs.dropWhile Char.isDigit
  let (fp, cs) :=
    match cs with
    | '.' :: rest => (rest.takeWhile Char.isDigit, rest.dropWhile Char.isDigit)
    | _ => ([], cs)
  if ip = [] ∧ fp = [] then none
  else
    let v : ℚ := (digitsValue ip : ℚ) + (digitsValue fp : ℚ) / 10 ^ fp.length
    some (if neg then -v else v, cs)

/-- The call `sscanf_s (line, "%f %f %f %f %d %d %d", ...) == 7` on plain
decimal input. -/
def refSscanf (line : List Char) : Option ScanFields := do
  let (x, cs) ← scanFloat line
  let (y, cs) ← scanFloat cs
  let (z, cs) ← scanFloat cs
  let (intensity, cs) ← scanFloat cs
  let (r, cs) ← scanInt cs
  let (g, cs) ← scanInt cs
  let (b, _) ← scanInt cs
  pure ⟨x, y, z, intensity, r, g, b⟩

/-- The reference environment. -/
def refEnv : Env :=
  { cosDeg := refCosDeg, sinDeg := refSinDeg,
    cos_zero := by norm_num [refCosDeg, refSinDeg],
    sin_zero := by norm_num [refSinDeg],
    sqrt := refSqrt,
    sqrt_zero := by simp [refSqrt],
    sqrt_nonneg := fun q => by unfold refSqrt; positivity,
    shuffle := fun _ => refShuffle,
    sscanf := refSscanf }

/-- The shuffle outcome that leaves every index vector as it is. -/
def identityShuffle : Shuffle :=
  { run := fun _ _ xs => xs, perm := fun _ _ xs => List.Perm.refl xs }

/-! ## Worked inputs -/

/-- A cloud of three points, moved by one unit along X. -/
def exampleCloud : PointCloud :=
  { PointCloud.empty with
    points := [⟨⟨1, 0, 0⟩, 1 / 2, ⟨1, 1 / 2, 0⟩⟩, ⟨⟨0, 2, 5⟩, 1, ⟨0, 0, 1⟩⟩,
      ⟨⟨1, 1 / 2, 0⟩, 0, ⟨1, 1, 1⟩⟩],
    position := ⟨1, 0, 0⟩, scale := ⟨1, 1, 1⟩ }

/-- A chunk whose only point lies on the chunk centre, so that the bounding
radius is 0. -/
def centrePointChunk : PointCloudChunk :=
  { points := [⟨⟨5, 5, 5⟩, 1, ⟨1, 1, 1⟩⟩], centerPosition := ⟨5, 5, 5⟩, boundingRadius := 0,
    lodVBOs := [], lodPointCounts := [] }

/-- A chunk with one point at distance 1 from its centre. -/
def offCentrePointChunk : PointCloudChunk :=
  { points := [⟨⟨5, 5, 6⟩, 1, ⟨1, 1, 1⟩⟩], centerPosition := ⟨5, 5, 5⟩, boundingRadius := 1,
    lodVBOs := [], lodPointCounts := [] }

/-- A cloud with identity transform whose only point is the centre of the
grid cell `[0, 10)` cubed. -/
def centrePointCloud : PointCloud :=
  { PointCloud.empty with points := [⟨⟨5, 5, 5⟩, 1, ⟨1, 1, 1⟩⟩], scale := ⟨1, 1, 1⟩ }

/-- The 8-byte file `PCB1` with header count 1 and no record. -/
def truncatedContainer : List Nat := [80, 67, 66, 49, 1, 0, 0, 0]

/-- A valid seven-field line, without its newline. -/
def validLine : List Char :=
  ['1', '.', '0', ' ', '0', ' ', '0', ' ', '0', ' ', '0', ' ', '0', ' ', '0']

/-- A file of 65537 copies of `validLine`, each ended by a newline: 16 bytes a
line, so the first 65536 lines fill one read block exactly. -/
def stridedFile : List Char := (List.replicate 65537 (validLine ++ ['\n'])).flatten

/-- A second valid line, and a malformed one. -/
def validLine2 : List Char :=
  ['2', '.', '0', ' ', '0', ' ', '0', ' ', '0', ' ', '0', ' ', '0', ' ', '0']

/-- A three-line file: a valid line, a malformed line, another valid line. -/
def mixedFile : List Char := validLine ++ ['\n', 'x', '\n'] ++ validLine2 ++ ['\n']

/-- A file of three valid lines. -/
def threeLineFile : List Char := (List.replicate 3 (validLine ++ ['\n'])).flatten

/-- A cloud that already holds a chunk and an outline, and no point. -/
def staleCloud : PointCloud :=
  { PointCloud.empty with
    scale := ⟨1, 1, 1⟩, chunks := [centrePointChunk],
    chunkOutlineVertices := [⟨0, 0, 0⟩, ⟨1, 1, 1⟩, ⟨2, 2, 2⟩] }

/-- A cloud with identity transform whose only point is one unit above the
centre of its grid cell. -/
def unitOffsetCloud : PointCloud :=
  { PointCloud.empty with points := [⟨⟨5, 5, 6⟩, 1, ⟨1, 1, 1⟩⟩], scale := ⟨1, 1, 1⟩ }

/-- A cloud moved by one unit along X whose only stored point is the centre
of the grid cell `[0, 10)` cubed. -/
def shiftedCentreCloud : PointCloud :=
  { PointCloud.empty with
    points := [⟨⟨5, 5, 5⟩, 1, ⟨1, 1, 1⟩⟩], position := ⟨1, 0, 0⟩, scale := ⟨1, 1, 1⟩ }

/-- A cloud with identity transform and one point of intensity `0.0007f`, the
`float` nearest to 0.0007. -/
def faintCloud : PointCloud :=
  { PointCloud.empty with
    points := [⟨⟨0, 0, 0⟩, 3006477 / 4294967296, ⟨0, 0, 0⟩⟩], scale := ⟨1, 1, 1⟩ }

/-- A cloud with identity transform and one point of intensity `0.005f`, the
`float` nearest to 0.005; it is a little below 0.005. -/
def halfPercentCloud : PointCloud :=
  { PointCloud.empty with
    points := [⟨⟨0, 0, 0⟩, 5368709 / 1073741824, ⟨0, 0, 0⟩⟩], scale := ⟨1, 1, 1⟩ }

/-- A chunk with one point whose bounding radius is `1e-5f`, the `float`
nearest to 0.00001; it is a little below 0.00001. -/
def tinyRadiusChunk : PointCloudChunk :=
  { points := [⟨⟨5, 5, 5⟩, 1, ⟨1, 1, 1⟩⟩], centerPosition := ⟨5, 5, 5⟩,
    boundingRadius := 2748779 / 274877906944, lodVBOs := [], lodPointCounts := [] }

/-- A text line whose red field is 300. -/
def brightLine : List Char :=
  ['0', ' ', '0', ' ', '0', ' ', '0', ' ', '3', '0', '0', ' ', '0', ' ', '0']

/-- A container with one record: position 0, stored intensity 2000, colour 0. -/
def brightContainer : List Nat :=
  [80, 67, 66, 49, 1, 0, 0, 0, 0, 0, 0, 0, 0, 0, 0, 0, 0, 0, 0, 0, 208, 7, 0, 0, 0, 0, 0]

/-- The example cloud with a stale chunk, a stale outline and another
`chunkSize` left from an earlier partition. -/
def exampleCloudStale : PointCloud :=
  { exampleCloud with
    chunks := [centrePointChunk], chunkSize := 7,
    chunkOutlineVertices := [⟨0, 0, 0⟩, ⟨1, 1, 1⟩] }

/-- A chunk of three points whose level-1 threshold `600000 * boundingRadius`
is 2. -/
def threePointChunk : PointCloudChunk :=
  { points := [⟨⟨5, 5, 5⟩, 1, ⟨1, 1, 1⟩⟩, ⟨⟨5 + 1 / 300000, 5, 5⟩, 1, ⟨1, 1, 1⟩⟩,
      ⟨⟨5 - 1 / 300000, 5, 5⟩, 1, ⟨1, 1, 1⟩⟩],
    centerPosition := ⟨5, 5, 5⟩, boundingRadius := 1 / 300000, lodVBOs := [], lodPointCounts := [] }

/-- A valid line whose intensity field is `0.5`: two characters longer than
`validLine`, equal to it in every other field. -/
def halfIntensityLine : List Char :=
  ['1', '.', '0', ' ', '0', ' ', '0', ' ', '0', '.', '5', ' ', '0', ' ', '0', ' ', '0']

/-- The file `stridedFile` with the intensity field of its first line written
as `0.5`: one line `halfIntensityLine`, then 65536 copies of `validLine`. -/
def shiftedFile : List Char :=
  halfIntensityLine ++ ['\n'] ++ (List.replicate 65536 (validLine ++ ['\n'])).flatten

/-- The `float` nearest to `x`, as a rational: what a `float` holding `x`
reads back after a trip through its four bytes. -/
def f32Round (x : ℚ) : ℚ := f32Decode (f32Encode x)

/-- The point `loadFromBinary` decodes from the record `exportToBinary` wrote
for `point` under the model matrix `transform`. -/
def storedPoint (transform : Mat4) (point : PointCloudPoint) : PointCloudPoint :=
  { position :=
      ⟨f32Round (transformPoint transform point.position).x,
        f32Round (transformPoint transform point.position).y,
        f32Round (transformPoint transform point.position).z⟩,
    intensity := (toU32 (roundFloat (point.intensity * 1000)) : ℚ) / 1000,
    color := ⟨(toU8 (roundFloat (point.color.x * 255)) : ℚ) / 255,
      (toU8 (roundFloat (point.color.y * 255)) : ℚ) / 255,
      (toU8 (roundFloat (point.color.z * 255)) : ℚ) / 255⟩ }

/-- The number `ceil (n / k)` for `k >= 1`. -/
def ceilDiv (n k : Nat) : Nat := (n + k - 1) / k

/-- The record a line stands for when it is valid (non-empty and scanned as
seven fields), `none` for an empty or malformed line. -/
def parseLine (env : Env) (line : List Char) : Option PointCloudPoint :=
  if line = [] then none else (env.sscanf line).map pointOfFields

/-- The elements at positions 0, k, 2k, ... of a list. -/
def everyKth {α : Type} (k : Nat) (l : List α) : List α :=
  (l.enum.filter (fun e => e.1 % k = 0)).map Prod.snd

/-- The squared Euclidean distance between two positions. -/
def distSq (a b : Vec3) : ℚ := (a.sub b).dot (a.sub b)

/-- The nearest integer to a non-negative rational (halves go up). -/
def roundNearest (q : ℚ) : Nat := ⌊q + 1 / 2⌋.toNat

/-- The product `a * b` of two matrices. -/
def Mat4.mul (a b : Mat4) : Mat4 := ⟨a.mulVec b.c0, a.mulVec b.c1, a.mulVec b.c2, a.mulVec b.c3⟩

/-- The matrix of the translation by `v`. -/
def translationMatrix (v : Vec3) : Mat4 :=
  ⟨⟨1, 0, 0, 0⟩, ⟨0, 1, 0, 0⟩, ⟨0, 0, 1, 0⟩, ⟨v.x, v.y, v.z, 1⟩⟩

/-- The matrix of the rotation about the X axis with cosine `c` and sine `s`. -/
def rotationXMatrix (c s : ℚ) : Mat4 :=
  ⟨⟨1, 0, 0, 0⟩, ⟨0, c, s, 0⟩, ⟨0, -s, c, 0⟩, ⟨0, 0, 0, 1⟩⟩

/-- The matrix of the rotation about the Y axis with cosine `c` and sine `s`. -/
def rotationYMatrix (c s : ℚ) : Mat4 :=
  ⟨⟨c, 0, -s, 0⟩, ⟨0, 1, 0, 0⟩, ⟨s, 0, c, 0⟩, ⟨0, 0, 0, 1⟩⟩

/-- The matrix of the rotation about the Z axis with cosine `c` and sine `s`. -/
def rotationZMatrix (c s : ℚ) : Mat4 :=
  ⟨⟨c, s, 0, 0⟩, ⟨-s, c, 0, 0⟩, ⟨0, 0, 1, 0⟩, ⟨0, 0, 0, 1⟩⟩

/-- The matrix of the scaling by `v`. -/
def scaleMatrix (v : Vec3) : Mat4 :=
  ⟨⟨v.x, 0, 0, 0⟩, ⟨0, v.y, 0, 0⟩, ⟨0, 0, v.z, 0⟩, ⟨0, 0, 0, 1⟩⟩

/-- The cloud's transform as the specification words it: the product
translate * rotateX * rotateY * rotateZ * scale, in that order. -/
def specTransform (env : Env) (position rotation scale : Vec3) : Mat4 :=
  ((((translationMatrix position).mul
      (rotationXMatrix (env.cosDeg rotation.x) (env.sinDeg rotation.x))).mul
      (rotationYMatrix (env.cosDeg rotation.y) (env.sinDeg rotation.y))).mul
      (rotationZMatrix (env.cosDeg rotation.z) (env.sinDeg rotation.z))).mul
    (scaleMatrix scale)

/-- What the claims compare of a chunk: its points, centre and bounding radius. -/
def chunkData (c : PointCloudChunk) : List PointCloudPoint × Vec3 × ℚ :=
  (c.points, c.centerPosition, c.boundingRadius)

/-- The line segments of a vertex list: consecutive pairs. -/
def segments : List Vec3 → List (Vec3 × Vec3)
  | a :: b :: rest => (a, b) :: segments rest
  | _ => []

/-- The number of coordinates in which two positions differ. -/
def diffCount (a b : Vec3) : Nat :=
  (if a.x = b.x then 0 else 1) + (if a.y = b.y then 0 else 1) + (if a.z = b.z then 0 else 1)

/-- The corner of the cube of side `s` centred at `c` with the given choice of
the upper (`true`) or lower (`false`) face on each axis. -/
def corner (c : Vec3) (s : ℚ) (b : Bool × Bool × Bool) : Vec3 :=
  ⟨if b.1 then c.x + s / 2 else c.x - s / 2, if b.2.1 then c.y + s / 2 else c.y - s / 2,
    if b.2.2 then c.z + s / 2 else c.z - s / 2⟩

/-- The corners `generateChunkOutlineVertices` pushes for a chunk, in order. -/
def outlineCorners : List (Bool × Bool × Bool) :=
  [ (false, false, false), (true, false, false),
    (true, false, false), (true, true, false),
    (true, true, false), (false, true, false),
    (false, true, false), (false, false, false),
    (false, false, true), (true, false, true),
    (true, false, true), (true, true, true),
    (true, true, true), (false, true, true),
    (false, true, true), (false, false, true),
    (false, false, false), (false, false, true),
    (true, false, false), (true, false, true),
    (true, true, false), (true, true, true),
    (false, true, false), (false, true, true) ]

/-- Consecutive pairs of a list of corner choices. -/
def cornerPairs : List (Bool × Bool × Bool) → List ((Bool × Bool × Bool) × (Bool × Bool × Bool))
  | a :: b :: rest => (a, b) :: cornerPairs rest
  | _ => []

/-- The number of axes on which two corner choices differ. -/
def bitDiff (a b : Bool × Bool × Bool) : Nat :=
  (if a.1 = b.1 then 0 else 1) + (if a.2.1 = b.2.1 then 0 else 1)
    + (if a.2.2 = b.2.2 then 0 else 1)

/-- One axis of the voxel index: the bin of coordinate `v` in the interval
`[lo, hi]`, clamped to `0..7`. -/
def axisBin (lo hi v : ℚ) : Int :=
  clampInt (toInt ((v - lo) / (hi - lo) * gridSize)) 0 (gridSize - 1)

/-- The quota of voxel cell `cell` when the level's target count is `target`. -/
def cellQuota (target cell : Nat) : Nat :=
  target / gridCells + (if cell < target % gridCells then 1 else 0)

/-- What a line is to the loader apart from its intensity field: whether it is
empty, and the scanned values with the intensity blanked when it scans as seven
fields. -/
def lineKey (env : Env) (line : List Char) : Bool × Option ScanFields :=
  (line.isEmpty, (env.sscanf line).map (fun f => { f with intensity := 0 }))

/-! ## Theorems -/

/-! ### The chunk map -/

theorem chunkMapPush_keys (m : List (IVec3 × List PointCloudPoint)) (k : IVec3) (p : PointCloudPoint) :
    (chunkMapPush m k p).map Prod.fst =
      if k ∈ m.map Prod.fst then m.map Prod.fst else m.map Prod.fst ++ [k] := by
  induction m with
  | nil => simp [chunkMapPush]
  | cons e rest ih =>
    obtain ⟨k', ps⟩ := e
    by_cases h : k' = k
    · simp [chunkMapPush, h]
    · have h' : ¬ k = k' := fun e => h e.symm
      simp only [chunkMapPush, h, if_false, List.map_cons, ih, List.mem_cons, h', false_or]
      split <;> simp

theorem chunkMapPush_flat (m : List (IVec3 × List PointCloudPoint)) (k : IVec3) (p : PointCloudPoint) :
    ((chunkMapPush m k p).flatMap Prod.snd).Perm (m.flatMap Prod.snd ++ [p]) := by
  induction m with
  | nil => simp [chunkMapPush]
  | cons e rest ih =>
    obtain ⟨k', ps⟩ := e
    by_cases h : k' = k
    · simp only [chunkMapPush, h, if_true, List.flatMap_cons, List.append_assoc]
      exact List.Perm.append_left ps List.perm_append_comm
    · simp only [chunkMapPush, h, if_false, List.flatMap_cons, List.append_assoc]
      exact List.Perm.append_left ps ih

theorem chunkMapPush_mem (m : List (IVec3 × List PointCloudPoint)) (k : IVec3) (p : PointCloudPoint)
    (e : IVec3 × List PointCloudPoint) (he : e ∈ chunkMapPush m k p) :
    e ∈ m ∨ (e.1 = k ∧ ∃ ps, e.2 = ps ++ [p] ∧ (ps = [] ∨ (k, ps) ∈ m)) := by
  induction m with
  | nil =>
    simp only [chunkMapPush, List.mem_singleton] at he
    subst he
    exact Or.inr ⟨rfl, [], rfl, Or.inl rfl⟩
  | cons e' rest ih =>
    obtain ⟨k', ps'⟩ := e'
    by_cases h : k' = k
    · simp only [chunkMapPush, h, if_true, List.mem_cons] at he
      rcases he with he | he
      · subst he
        exact Or.inr ⟨rfl, ps', rfl, Or.inr (by simp [h])⟩
      · exact Or.inl (by simp [he])
    · simp only [chunkMapPush, h, if_false, List.mem_cons] at he
      rcases he with he | he
      · exact Or.inl (by simp [he])
      · rcases ih he with h1 | ⟨h1, ps, h2, h3⟩
        · exact Or.inl (by simp [h1])
        · refine Or.inr ⟨h1, ps, h2, ?_⟩
          rcases h3 with h3 | h3
          · exact Or.inl h3
          · exact Or.inr (by simp [h3])

theorem buildChunkMap_snoc (m : Mat4) (s : ℚ) (pts : List PointCloudPoint) (p : PointCloudPoint) :
    buildChunkMap m s (pts ++ [p]) = chunkMapPush (buildChunkMap m s pts) (chunkIndexOf m s p) p := by
  simp [buildChunkMap, List.foldl_append]

theorem buildChunkMap_flat (m : Mat4) (s : ℚ) (pts : List PointCloudPoint) :
    ((buildChunkMap m s pts).flatMap Prod.snd).Perm pts := by
  induction pts using List.reverseRecOn with
  | nil => simp [buildChunkMap]
  | append_singleton pts p ih =>
    rw [buildChunkMap_snoc]
    exact (chunkMapPush_flat _ _ _).trans (List.Perm.append_right [p] ih)

theorem buildChunkMap_keys_nodup (m : Mat4) (s : ℚ) (pts : List PointCloudPoint) :
    ((buildChunkMap m s pts).map Prod.fst).Nodup := by
  induction pts using List.reverseRecOn with
  | nil => simp [buildChunkMap]
  | append_singleton pts p ih =>
    rw [buildChunkMap_snoc, chunkMapPush_keys]
    split
    · exact ih
    · rename_i h
      exact List.Nodup.append ih (List.nodup_singleton _) (by simpa using h)

theorem buildChunkMap_keys_mem (m : Mat4) (s : ℚ) (pts : List PointCloudPoint) (k : IVec3) :
    k ∈ (buildChunkMap m s pts).map Prod.fst ↔ k ∈ pts.map (chunkIndexOf m s) := by
  induction pts using List.reverseRecOn generalizing k with
  | nil => simp [buildChunkMap]
  | append_singleton pts p ih =>
    rw [buildChunkMap_snoc, chunkMapPush_keys]
    split
    · rename_i h
      rw [ih] at h
      simp only [List.map_append, List.mem_append, List.map_cons, List.map_nil, List.mem_singleton]
      rw [ih]
      constructor
      · exact Or.inl
      · rintro (h1 | h1)
        · exact h1
        · rw [h1]; exact h
    · simp only [List.map_append, List.mem_append, List.map_cons, List.map_nil, List.mem_singleton]
      rw [ih]

theorem buildChunkMap_entry (m : Mat4) (s : ℚ) (pts : List PointCloudPoint)
    (e : IVec3 × List PointCloudPoint) (he : e ∈ buildChunkMap m s pts) :
    e.2 ≠ [] ∧ ∀ p ∈ e.2, chunkIndexOf m s p = e.1 := by
  induction pts using List.reverseRecOn generalizing e with
  | nil => simp [buildChunkMap] at he
  | append_singleton pts p ih =>
    rw [buildChunkMap_snoc] at he
    rcases chunkMapPush_mem _ _ _ _ he with h | ⟨h1, ps, h2, h3⟩
    · exact ih e h
    · refine ⟨by simp [h2], ?_⟩
      intro q hq
      rw [h2, List.mem_append, List.mem_singleton] at hq
      rcases hq with hq | hq
      · rcases h3 with h3 | h3
        · simp [h3] at hq
        · rw [h1]; exact (ih _ h3).2 q hq
      · rw [hq, h1]

/-! ### The chunk list of `generateChunks` -/

theorem generateLODLevels_points (rng : Shuffle) (chunk : PointCloudChunk) :
    (generateLODLevels rng chunk).points = chunk.points := rfl

theorem makeChunk_points (env : Env) (s : ℚ) (i : Nat) (e : IVec3 × List PointCloudPoint) :
    (makeChunk env s i e).points = e.2 := rfl

theorem makeChunk_center (env : Env) (s : ℚ) (i : Nat) (e : IVec3 × List PointCloudPoint) :
    (makeChunk env s i e).centerPosition = chunkCenter e.1 s := rfl

theorem generateChunks_points (env : Env) (pc : PointCloud) (s : ℚ) :
    (generateChunks env pc s).points = pc.points := rfl

theorem generateChunks_chunks (env : Env) (pc : PointCloud) (s : ℚ) :
    (generateChunks env pc s).chunks =
      (buildChunkMap (modelMatrix env pc.position pc.rotation pc.scale) s pc.points).enum.map
        (fun e => makeChunk env s e.1 e.2) := rfl

theorem generateChunks_chunks_points (env : Env) (pc : PointCloud) (s : ℚ) :
    (generateChunks env pc s).chunks.map (fun c => c.points) =
      (buildChunkMap (modelMatrix env pc.position pc.rotation pc.scale) s pc.points).map Prod.snd := by
  rw [generateChunks_chunks, List.map_map]
  conv_rhs => rw [← List.enum_map_snd (buildChunkMap _ s pc.points), List.map_map]
  rfl

theorem generateChunks_chunks_center (env : Env) (pc : PointCloud) (s : ℚ) :
    (generateChunks env pc s).chunks.map (fun c => c.centerPosition) =
      ((buildChunkMap (modelMatrix env pc.position pc.rotation pc.scale) s pc.points).map Prod.fst).map
        (fun k => chunkCenter k s) := by
  rw [generateChunks_chunks, List.map_map, List.map_map]
  conv_rhs => rw [← List.enum_map_snd (buildChunkMap _ s pc.points), List.map_map]
  rfl

theorem generateChunks_chunks_length (env : Env) (pc : PointCloud) (s : ℚ) :
    (generateChunks env pc s).chunks.length =
      ((buildChunkMap (modelMatrix env pc.position pc.rotation pc.scale) s pc.points).map Prod.fst).length := by
  simp [generateChunks_chunks]

theorem generateChunks_chunk_mem (env : Env) (pc : PointCloud) (s : ℚ) (c : PointCloudChunk)
    (hc : c ∈ (generateChunks env pc s).chunks) :
    ∃ e ∈ buildChunkMap (modelMatrix env pc.position pc.rotation pc.scale) s pc.points,
      c.points = e.2 ∧ c.centerPosition = chunkCenter e.1 s := by
  rw [generateChunks_chunks, List.mem_map] at hc
  obtain ⟨⟨i, e⟩, hie, rfl⟩ := hc
  exact ⟨e, List.snd_mem_of_mem_enum hie, rfl, rfl⟩

theorem floor_div_range (x s : ℚ) (n : ℕ) (hs : 0 < s) (h0 : 0 ≤ x) (h1 : x < n * s) :
    ⌊x / s⌋.toNat < n ∧ ((⌊x / s⌋.toNat : ℕ) : Int) = ⌊x / s⌋ := by
  have hnn : 0 ≤ ⌊x / s⌋ := Int.floor_nonneg.mpr (div_nonneg h0 hs.le)
  have hlt : ⌊x / s⌋ < (n : Int) := by
    rw [Int.floor_lt]
    push_cast
    exact (div_lt_iff₀ hs).mpr h1
  omega

/-- A duplicate-free list of grid cells inside an `n x n x n` box has at most
`n ^ 3` entries. -/
theorem keys_in_box_length (keys : List IVec3) (n : ℕ) (hnd : keys.Nodup)
    (hbox : ∀ k ∈ keys, ∃ a b c : ℕ, a < n ∧ b < n ∧ c < n ∧ k = ⟨a, b, c⟩) :
    keys.length ≤ n ^ 3 := by
  classical
  have hsub : keys.toFinset ⊆
      (((Finset.range n) ×ˢ (Finset.range n)) ×ˢ (Finset.range n)).image
        (fun t : (ℕ × ℕ) × ℕ => (⟨t.1.1, t.1.2, t.2⟩ : IVec3)) := by
    intro k hk
    rw [List.mem_toFinset] at hk
    obtain ⟨a, b, c, ha, hb, hc, rfl⟩ := hbox k hk
    rw [Finset.mem_image]
    exact ⟨((a, b), c), by simp [ha, hb, hc], rfl⟩
  calc keys.length = keys.toFinset.card := (List.toFinset_card_of_nodup hnd).symm
    _ ≤ _ := Finset.card_le_card hsub
    _ ≤ (((Finset.range n) ×ˢ (Finset.range n)) ×ˢ (Finset.range n)).card := Finset.card_image_le
    _ = n ^ 3 := by simp [Finset.card_product]; ring

/-- C1: for every point cloud and every `chunkSize > 0`, after
`generateChunks` the concatenation of the chunks' point lists is a permutation
of the cloud's point list (no point dropped or duplicated), so the chunks'
point counts sum to the number of points; and when every transformed point
lies in the box `[0, n * chunkSize)` on each axis there are at most `n ^ 3`
chunks (1000 points in `[0, 10)` cubed with `chunkSize = 2`: at most 125 chunks
holding exactly 1000 points). -/
theorem C1_chunks_partition_points (env : Env) (pc : PointCloud) (chunkSize : ℚ)
    (hs : 0 < chunkSize) :
    ((generateChunks env pc chunkSize).chunks.flatMap (fun c => c.points)).Perm
        (generateChunks env pc chunkSize).points
      ∧ (generateChunks env pc chunkSize).points = pc.points
      ∧ ((generateChunks env pc chunkSize).chunks.map (fun c => c.points.length)).sum
          = pc.points.length
      ∧ ∀ n : ℕ,
          (∀ p ∈ pc.points,
            let t := transformPoint (modelMatrix env pc.position pc.rotation pc.scale) p.position
            (0 ≤ t.x ∧ t.x < n * chunkSize) ∧ (0 ≤ t.y ∧ t.y < n * chunkSize)
              ∧ (0 ≤ t.z ∧ t.z < n * chunkSize)) →
          (generateChunks env pc chunkSize).chunks.length ≤ n ^ 3 := by
  have hperm : ((generateChunks env pc chunkSize).chunks.flatMap (fun c => c.points)).Perm
      pc.points := by
    rw [List.flatMap_def, generateChunks_chunks_points, ← List.flatMap_def]
    exact buildChunkMap_flat _ _ _
  refine ⟨hperm, rfl, ?_, ?_⟩
  · rw [← hperm.length_eq, List.flatMap_def, List.length_flatten, List.map_map]
    rfl
  · intro n hbox
    rw [generateChunks_chunks_length]
    refine keys_in_box_length _ n (buildChunkMap_keys_nodup _ _ _) ?_
    intro k hk
    rw [buildChunkMap_keys_mem, List.mem_map] at hk
    obtain ⟨p, hp, rfl⟩ := hk
    obtain ⟨⟨hx0, hx1⟩, ⟨hy0, hy1⟩, ⟨hz0, hz1⟩⟩ := hbox p hp
    obtain ⟨ax, ex⟩ := floor_div_range _ _ n hs hx0 hx1
    obtain ⟨ay, ey⟩ := floor_div_range _ _ n hs hy0 hy1
    obtain ⟨az, ez⟩ := floor_div_range _ _ n hs hz0 hz1
    refine ⟨_, _, _, ax, ay, az, ?_⟩
    simp only [chunkIndexOf, Vec3.divScalar, Vec3.floor, ex, ey, ez]

theorem exampleCloud_in_box :
    ∀ p ∈ exampleCloud.points,
      let t := transformPoint
        (modelMatrix refEnv exampleCloud.position exampleCloud.rotation exampleCloud.scale) p.position
      (0 ≤ t.x ∧ t.x < (3 : ℕ) * (2 : ℚ)) ∧ (0 ≤ t.y ∧ t.y < (3 : ℕ) * (2 : ℚ))
        ∧ (0 ≤ t.z ∧ t.z < (3 : ℕ) * (2 : ℚ)) := by
  decide!

/-- Witness of C1 at the three-point example cloud with `chunkSize = 2`: its
transformed points lie in `[0, 6)` cubed. -/
theorem C1_chunks_partition_points_witness :
    (0 : ℚ) < 2
      ∧ ((generateChunks refEnv exampleCloud 2).chunks.flatMap (fun c => c.points)).Perm
          (generateChunks refEnv exampleCloud 2).points
      ∧ ((generateChunks refEnv exampleCloud 2).chunks.map (fun c => c.points.length)).sum = 3
      ∧ (generateChunks refEnv exampleCloud 2).chunks.length ≤ 3 ^ 3 :=
  ⟨by norm_num, (C1_chunks_partition_points refEnv exampleCloud 2 (by norm_num)).1,
    (C1_chunks_partition_points refEnv exampleCloud 2 (by norm_num)).2.2.1,
    (C1_chunks_partition_points refEnv exampleCloud 2 (by norm_num)).2.2.2 3 exampleCloud_in_box⟩

/-- C2: after `generateChunks (cloud, s)` with `s > 0`, every chunk has an
integer cell index from which its centre `(index + 0.5) * s` was computed, and
every point `p` stored in the chunk satisfies `floor (T p / s) = index` on each
of the three axes, `T` being the cloud's model transform. -/
theorem C2_chunk_points_in_cell (env : Env) (pc : PointCloud) (s : ℚ) (_hs : 0 < s) :
    ∀ c ∈ (generateChunks env pc s).chunks, ∃ idx : IVec3,
      c.centerPosition = ⟨(idx.x + 1 / 2) * s, (idx.y + 1 / 2) * s, (idx.z + 1 / 2) * s⟩
      ∧ ∀ p ∈ c.points,
          ⌊(transformPoint (modelMatrix env pc.position pc.rotation pc.scale) p.position).x / s⌋
              = idx.x
          ∧ ⌊(transformPoint (modelMatrix env pc.position pc.rotation pc.scale) p.position).y / s⌋
              = idx.y
          ∧ ⌊(transformPoint (modelMatrix env pc.position pc.rotation pc.scale) p.position).z / s⌋
              = idx.z := by
  intro c hc
  obtain ⟨e, he, hpts, hcen⟩ := generateChunks_chunk_mem env pc s c hc
  refine ⟨e.1, hcen, ?_⟩
  intro p hp
  rw [hpts] at hp
  have h := (buildChunkMap_entry _ _ _ e he).2 p hp
  rw [← h]
  exact ⟨rfl, rfl, rfl⟩

/-- Witness of C2 at the three-point example cloud with `s = 2`. -/
theorem C2_chunk_points_in_cell_witness :
    (0 : ℚ) < 2 ∧ ∀ c ∈ (generateChunks refEnv exampleCloud 2).chunks, ∃ idx : IVec3,
      c.centerPosition = ⟨(idx.x + 1 / 2) * 2, (idx.y + 1 / 2) * 2, (idx.z + 1 / 2) * 2⟩
      ∧ ∀ p ∈ c.points,
          ⌊(transformPoint (modelMatrix refEnv exampleCloud.position exampleCloud.rotation
              exampleCloud.scale) p.position).x / 2⌋ = idx.x
          ∧ ⌊(transformPoint (modelMatrix refEnv exampleCloud.position exampleCloud.rotation
              exampleCloud.scale) p.position).y / 2⌋ = idx.y
          ∧ ⌊(transformPoint (modelMatrix refEnv exampleCloud.position exampleCloud.rotation
              exampleCloud.scale) p.position).z / 2⌋ = idx.z :=
  ⟨by norm_num, C2_chunk_points_in_cell refEnv exampleCloud 2 (by norm_num)⟩

theorem chunkCenter_inj (a b : IVec3) (s : ℚ) (hs : s ≠ 0) (h : chunkCenter a s = chunkCenter b s) :
    a = b := by
  simp only [chunkCenter, Vec3.mk.injEq] at h
  obtain ⟨hx, hy, hz⟩ := h
  have hx' := mul_right_cancel₀ hs hx
  have hy' := mul_right_cancel₀ hs hy
  have hz' := mul_right_cancel₀ hs hz
  cases a; cases b
  simp only [add_left_inj, Int.cast_inj] at hx' hy' hz'
  simp [hx', hy', hz']

/-- C3: `generateChunks` creates exactly one chunk per populated grid cell:
every chunk holds at least one point, two different chunks never hold points
of the same cell (so never have the same cell index) and never have the same
centre, and the number of chunks is the number of distinct cell keys
`floor (T p / s)` over the cloud's points, hence at most the number of points. -/
theorem C3_one_chunk_per_cell (env : Env) (pc : PointCloud) (s : ℚ) :
    (∀ c ∈ (generateChunks env pc s).chunks, c.points ≠ [])
      ∧ (generateChunks env pc s).chunks.Pairwise (fun a b =>
          ∀ p ∈ a.points, ∀ q ∈ b.points,
            chunkIndexOf (modelMatrix env pc.position pc.rotation pc.scale) s p ≠
              chunkIndexOf (modelMatrix env pc.position pc.rotation pc.scale) s q)
      ∧ ((generateChunks env pc s).chunks.map (fun c => c.centerPosition)).Nodup
      ∧ (generateChunks env pc s).chunks.length =
          ((pc.points.map
            (chunkIndexOf (modelMatrix env pc.position pc.rotation pc.scale) s)).dedup).length
      ∧ (generateChunks env pc s).chunks.length ≤ pc.points.length := by
  have hnd := buildChunkMap_keys_nodup (modelMatrix env pc.position pc.rotation pc.scale) s pc.points
  have hlen : (generateChunks env pc s).chunks.length =
      ((pc.points.map
        (chunkIndexOf (modelMatrix env pc.position pc.rotation pc.scale) s)).dedup).length := by
    rw [generateChunks_chunks_length, ← List.toFinset_card_of_nodup hnd, ← List.card_toFinset]
    congr 1
    ext k
    simp only [List.mem_toFinset]
    exact buildChunkMap_keys_mem _ _ _ k
  refine ⟨?_, ?_, ?_, hlen, ?_⟩
  · intro c hc
    obtain ⟨e, he, hpts, -⟩ := generateChunks_chunk_mem env pc s c hc
    rw [hpts]
    exact (buildChunkMap_entry _ _ _ e he).1
  · rw [generateChunks_chunks, List.pairwise_map]
    have hpw : (buildChunkMap (modelMatrix env pc.position pc.rotation pc.scale) s pc.points).enum.Pairwise
        (fun a b => a.2.1 ≠ b.2.1) := by
      have h2 := hnd
      rw [List.Nodup, ← List.enum_map_snd (buildChunkMap _ s pc.points), List.map_map,
        List.pairwise_map] at h2
      exact h2
    refine hpw.imp_of_mem ?_
    intro a b ha hb hab p hp q hq hpq
    have ea := (buildChunkMap_entry _ _ _ a.2 (List.snd_mem_of_mem_enum ha)).2 p hp
    have eb := (buildChunkMap_entry _ _ _ b.2 (List.snd_mem_of_mem_enum hb)).2 q hq
    exact hab (ea.symm.trans (hpq.trans eb))
  · rw [generateChunks_chunks_center]
    refine List.Nodup.map_on ?_ hnd
    intro a ha b hb hab
    by_cases hs : s = 0
    · rw [buildChunkMap_keys_mem, List.mem_map] at ha hb
      obtain ⟨p, -, rfl⟩ := ha
      obtain ⟨q, -, rfl⟩ := hb
      simp [chunkIndexOf, Vec3.divScalar, Vec3.floor, hs]
    · exact chunkCenter_inj a b s hs hab
  · rw [hlen]
    exact (List.dedup_sublist _).length_le.trans (by simp)

/-! ### Rounding to `float` -/

theorem toSize_mono (a b : ℚ) (h : a ≤ b) : toSize a ≤ toSize b :=
  Int.toNat_le_toNat (Int.floor_mono h)

theorem roundHalfEven_spec (q : ℚ) (hq : 0 ≤ q) :
    ∃ f : Nat, (f : ℚ) ≤ q ∧ q < f + 1
      ∧ roundHalfEven q =
          if q - f < 1 / 2 then f else if 1 / 2 < q - f then f + 1
          else if f % 2 = 0 then f else f + 1 := by
  have hfl : 0 ≤ ⌊q⌋ := Int.floor_nonneg.mpr hq
  have hcast : ((⌊q⌋.toNat : ℕ) : ℚ) = (⌊q⌋ : ℚ) := by
    rw [← Int.cast_natCast, Int.toNat_of_nonneg hfl]
  refine ⟨⌊q⌋.toNat, ?_, ?_, rfl⟩
  · rw [hcast]; exact Int.floor_le q
  · rw [hcast]; exact Int.lt_floor_add_one q

theorem roundHalfEven_mono (a b : ℚ) (ha : 0 ≤ a) (hab : a ≤ b) :
    roundHalfEven a ≤ roundHalfEven b := by
  obtain ⟨f, hf1, hf2, hf⟩ := roundHalfEven_spec a ha
  obtain ⟨g, hg1, hg2, hg⟩ := roundHalfEven_spec b (ha.trans hab)
  have hfg : f ≤ g := by
    have : (f : ℚ) < (g : ℚ) + 1 := by linarith
    have : f < g + 1 := by exact_mod_cast this
    omega
  rw [hf, hg]
  rcases Nat.lt_or_ge f g with hlt | hge
  · have : f + 1 ≤ g := hlt
    split_ifs <;> omega
  · have hfg' : f = g := by omega
    subst hfg'
    split_ifs <;> first | omega | (exfalso; linarith)

theorem roundHalfEven_natCast (n : Nat) : roundHalfEven (n : ℚ) = n := by
  unfold roundHalfEven
  simp

theorem le_roundHalfEven (n : Nat) (q : ℚ) (h : (n : ℚ) ≤ q) : n ≤ roundHalfEven q := by
  have := roundHalfEven_mono (n : ℚ) q (Nat.cast_nonneg n) h
  rwa [roundHalfEven_natCast] at this

theorem roundHalfEven_le (n : Nat) (q : ℚ) (h0 : 0 ≤ q) (h : q ≤ (n : ℚ)) :
    roundHalfEven q ≤ n := by
  have := roundHalfEven_mono q (n : ℚ) h0 h
  rwa [roundHalfEven_natCast] at this

theorem roundFloat_zero : roundFloat 0 = 0 := by
  unfold roundFloat
  rw [if_pos rfl]

theorem roundFloat_of_pos (x : ℚ) (hx : 0 < x) :
    roundFloat x =
      (roundHalfEven (x * (2 : ℚ) ^ (23 - max (Int.log 2 x) (-126))) : ℚ)
        * (2 : ℚ) ^ (max (Int.log 2 x) (-126) - 23) := by
  unfold roundFloat
  rw [if_neg hx.ne', abs_of_pos hx, if_neg (not_lt.mpr hx.le), one_mul]

theorem roundFloat_nonneg (x : ℚ) (hx : 0 ≤ x) : 0 ≤ roundFloat x := by
  rcases hx.eq_or_lt with h | h
  · rw [← h, roundFloat_zero]
  · rw [roundFloat_of_pos x h]
    positivity

/-- Rounding to `float` is monotone on the non-negative numbers. -/
theorem roundFloat_mono (x y : ℚ) (hx : 0 ≤ x) (hxy : x ≤ y) : roundFloat x ≤ roundFloat y := by
  rcases hx.eq_or_lt with h0 | hpos
  · rw [← h0, roundFloat_zero]
    exact roundFloat_nonneg y (hx.trans hxy)
  have hypos : 0 < y := hpos.trans_le hxy
  rw [roundFloat_of_pos x hpos, roundFloat_of_pos y hypos]
  have hlog : Int.log 2 x ≤ Int.log 2 y := Int.log_mono_right hpos hxy
  have h2 : (0 : ℚ) < 2 := by norm_num
  rcases (max_le_max hlog (le_refl (-126 : Int))).eq_or_lt with he | he
  · rw [he]
    refine mul_le_mul_of_nonneg_right ?_ (by positivity)
    exact_mod_cast roundHalfEven_mono _ _ (by positivity)
      (mul_le_mul_of_nonneg_right hxy (by positivity))
  · have hey : max (Int.log 2 y) (-126) = Int.log 2 y := by
      rcases le_total (Int.log 2 y) (-126) with h | h
      · exfalso
        rw [max_eq_right h] at he
        exact absurd he (not_lt.mpr (le_max_right _ _))
      · exact max_eq_left h
    rw [hey] at he ⊢
    have hle : Int.log 2 x ≤ max (Int.log 2 x) (-126) := le_max_left _ _
    generalize max (Int.log 2 x) (-126) = ex at he hle ⊢
    have hxlt : x < (2 : ℚ) ^ (ex + 1) := by
      have h1 : x < ((2 : ℕ) : ℚ) ^ (Int.log 2 x + 1) := Int.lt_zpow_succ_log_self (by norm_num) x
      have h3 : ((2 : ℕ) : ℚ) ^ (Int.log 2 x + 1) ≤ ((2 : ℕ) : ℚ) ^ (ex + 1) :=
        zpow_le_zpow_right₀ (by norm_num) (by omega)
      exact_mod_cast h1.trans_le h3
    have hyge : (2 : ℚ) ^ Int.log 2 y ≤ y := by
      have h1 : ((2 : ℕ) : ℚ) ^ Int.log 2 y ≤ y := Int.zpow_log_le_self (by norm_num) hypos
      exact_mod_cast h1
    have hxs : x * (2 : ℚ) ^ (23 - ex) ≤ ((2 ^ 24 : ℕ) : ℚ) := by
      have h1 : x * (2 : ℚ) ^ (23 - ex) ≤ (2 : ℚ) ^ (ex + 1) * (2 : ℚ) ^ (23 - ex) :=
        mul_le_mul_of_nonneg_right hxlt.le (by positivity)
      rw [← zpow_add₀ (by norm_num : (2 : ℚ) ≠ 0)] at h1
      have h3 : ex + 1 + (23 - ex) = 24 := by ring
      rw [h3] at h1
      exact h1.trans (by norm_num)
    have hys : ((2 ^ 23 : ℕ) : ℚ) ≤ y * (2 : ℚ) ^ (23 - Int.log 2 y) := by
      have h1 : (2 : ℚ) ^ Int.log 2 y * (2 : ℚ) ^ (23 - Int.log 2 y)
          ≤ y * (2 : ℚ) ^ (23 - Int.log 2 y) :=
        mul_le_mul_of_nonneg_right hyge (by positivity)
      rw [← zpow_add₀ (by norm_num : (2 : ℚ) ≠ 0)] at h1
      have h3 : Int.log 2 y + (23 - Int.log 2 y) = 23 := by ring
      rw [h3] at h1
      exact le_trans (by norm_num) h1
    have hmx := roundHalfEven_le (2 ^ 24) _ (by positivity) hxs
    have hmy := le_roundHalfEven (2 ^ 23) _ hys
    have hmx' : (roundHalfEven (x * (2 : ℚ) ^ (23 - ex)) : ℚ) ≤ (2 : ℚ) ^ (24 : Int) := by
      have : (roundHalfEven (x * (2 : ℚ) ^ (23 - ex)) : ℚ) ≤ ((2 ^ 24 : ℕ) : ℚ) := by
        exact_mod_cast hmx
      exact this.trans (by norm_num)
    have hmy' : (2 : ℚ) ^ (23 : Int) ≤ (roundHalfEven (y * (2 : ℚ) ^ (23 - Int.log 2 y)) : ℚ) := by
      have : ((2 ^ 23 : ℕ) : ℚ) ≤ (roundHalfEven (y * (2 : ℚ) ^ (23 - Int.log 2 y)) : ℚ) := by
        exact_mod_cast hmy
      exact le_trans (by norm_num) this
    calc (roundHalfEven (x * (2 : ℚ) ^ (23 - ex)) : ℚ) * (2 : ℚ) ^ (ex - 23)
        ≤ (2 : ℚ) ^ (24 : Int) * (2 : ℚ) ^ (ex - 23) :=
          mul_le_mul_of_nonneg_right hmx' (by positivity)
      _ = (2 : ℚ) ^ (ex + 1) := by
          rw [← zpow_add₀ (by norm_num : (2 : ℚ) ≠ 0)]
          congr 1
          ring
      _ ≤ (2 : ℚ) ^ Int.log 2 y := zpow_le_zpow_right₀ (by norm_num) (by omega)
      _ = (2 : ℚ) ^ (23 : Int) * (2 : ℚ) ^ (Int.log 2 y - 23) := by
          rw [← zpow_add₀ (by norm_num : (2 : ℚ) ≠ 0)]
          congr 1
          ring
      _ ≤ _ := mul_le_mul_of_nonneg_right hmy' (by positivity)

/-- The natural numbers below `2 ^ 24` are `float`s. -/
theorem roundFloat_natCast (n : Nat) (hn : n < 2 ^ 24) : roundFloat (n : ℚ) = n := by
  rcases Nat.eq_zero_or_pos n with h0 | hpos
  · subst h0
    simpa using roundFloat_zero
  have hq : (0 : ℚ) < n := by exact_mod_cast hpos
  rw [roundFloat_of_pos _ hq, Int.log_natCast]
  have hk : Nat.log 2 n < 24 := Nat.log_lt_of_lt_pow hpos.ne' hn
  have hmax : max ((Nat.log 2 n : ℕ) : Int) (-126) = (Nat.log 2 n : ℕ) := max_eq_left (by omega)
  rw [hmax]
  have hexp : (23 : Int) - (Nat.log 2 n : ℕ) = ((23 - Nat.log 2 n : ℕ) : Int) := by omega
  have hscaled : (n : ℚ) * (2 : ℚ) ^ ((23 : Int) - (Nat.log 2 n : ℕ))
      = ((n * 2 ^ (23 - Nat.log 2 n) : ℕ) : ℚ) := by
    rw [hexp, zpow_natCast]
    push_cast
    ring
  rw [hscaled, roundHalfEven_natCast, ← hscaled, mul_assoc,
    ← zpow_add₀ (by norm_num : (2 : ℚ) ≠ 0)]
  have h0 : (23 : Int) - (Nat.log 2 n : ℕ) + ((Nat.log 2 n : ℕ) - 23) = 0 := by ring
  rw [h0, zpow_zero, mul_one]

theorem toSize_natCast (n : Nat) : toSize (n : ℚ) = n := by
  unfold toSize
  simp

/-- Truncating the `float` nearest to `x` gives the integer part of `x` or, when
the rounding reaches the next integer, one more. -/
theorem toSize_roundFloat (x : ℚ) (h0 : 0 ≤ x) (h1 : x < 2 ^ 23) :
    toSize x ≤ toSize (roundFloat x) ∧ toSize (roundFloat x) ≤ toSize x + 1 := by
  have hfl : 0 ≤ ⌊x⌋ := Int.floor_nonneg.mpr h0
  have hcast : ((toSize x : ℕ) : ℚ) = (⌊x⌋ : ℚ) := by
    unfold toSize
    rw [← Int.cast_natCast, Int.toNat_of_nonneg hfl]
  have hle : ((toSize x : ℕ) : ℚ) ≤ x := by rw [hcast]; exact Int.floor_le x
  have hlt : x < ((toSize x : ℕ) : ℚ) + 1 := by rw [hcast]; exact Int.lt_floor_add_one x
  have hsmall : toSize x < 2 ^ 23 := by
    have : ((toSize x : ℕ) : ℚ) < ((2 ^ 23 : ℕ) : ℚ) := by push_cast; linarith
    exact_mod_cast this
  have hlo := roundFloat_mono _ _ (Nat.cast_nonneg (toSize x)) hle
  rw [roundFloat_natCast _ (by omega)] at hlo
  have hhi := roundFloat_mono x ((toSize x + 1 : ℕ) : ℚ) h0 (by push_cast; exact hlt.le)
  rw [roundFloat_natCast _ (by omega)] at hhi
  constructor
  · have := toSize_mono _ _ hlo
    rwa [toSize_natCast] at this
  · have := toSize_mono _ _ hhi
    rwa [toSize_natCast] at this

theorem one_le_roundFloat (x : ℚ) (h : 1 ≤ x) : 1 ≤ roundFloat x := by
  have h1 := roundFloat_mono 1 x (by norm_num) h
  have h2 := roundFloat_natCast 1 (by norm_num)
  rw [Nat.cast_one] at h2
  rwa [h2] at h1

theorem shuffle_index_lt (rng : Shuffle) (level cell n i : Nat)
    (hi : i ∈ rng.run level cell (List.range n)) : i < n :=
  List.mem_range.mp ((rng.perm level cell (List.range n)).mem_iff.mp hi)

theorem filterMap_getElem?_length (g : List PointCloudPoint) (idx : List Nat)
    (h : ∀ i ∈ idx, i < g.length) : (idx.filterMap (fun i => g[i]?)).length = idx.length := by
  induction idx with
  | nil => rfl
  | cons a rest ih =>
    have ha : a < g.length := h a (List.mem_cons_self _ _)
    have hr : ∀ i ∈ rest, i < g.length := fun i hi => h i (List.mem_cons_of_mem _ hi)
    simp [List.filterMap_cons, List.getElem?_eq_getElem ha, ih hr]

theorem selectCell_length (rng : Shuffle) (level cell : Nat) (g : List PointCloudPoint) (q : Nat) :
    (selectCell rng level cell g q).length = min g.length q := by
  unfold selectCell
  split
  · rename_i h
    exact (Nat.min_eq_left h).symm
  · rename_i h
    have hq : q ≤ g.length := by omega
    rw [filterMap_getElem?_length]
    · rw [List.length_take, (rng.perm level cell _).length_eq, List.length_range]
      exact (Nat.min_comm _ _)
    · intro i hi
      exact shuffle_index_lt rng level cell _ i (List.mem_of_mem_take hi)

theorem sum_quota (base rem : Nat) (n : Nat) :
    ((List.range n).map (fun cell => base + (if cell < rem then 1 else 0))).sum
      = n * base + min rem n := by
  induction n with
  | zero => simp
  | succ n ih =>
    rw [List.range_succ, List.map_append, List.sum_append, ih]
    simp only [List.map_cons, List.map_nil, List.sum_cons, List.sum_nil]
    split <;> rename_i h
    · rw [Nat.min_eq_right (by omega : n ≤ rem), Nat.min_eq_right (by omega : n + 1 ≤ rem)]
      ring
    · rw [Nat.min_eq_left (by omega : rem ≤ n), Nat.min_eq_left (by omega : rem ≤ n + 1)]
      ring

/-- The quotas of the 512 voxel cells add up to the target count. -/
theorem sum_quota_target (target : Nat) :
    ((List.range gridCells).map
      (fun cell => target / gridCells + (if cell < target % gridCells then 1 else 0))).sum
      = target := by
  rw [sum_quota]
  have h : target % gridCells < gridCells := Nat.mod_lt _ (by decide)
  rw [Nat.min_eq_left h.le]
  exact Nat.div_add_mod target gridCells

theorem list_sum_map_le {α : Type} (l : List α) (f g : α → Nat) (h : ∀ a ∈ l, f a ≤ g a) :
    (l.map f).sum ≤ (l.map g).sum := by
  induction l with
  | nil => simp
  | cons a rest ih =>
    simp only [List.map_cons, List.sum_cons]
    exact Nat.add_le_add (h a (List.mem_cons_self _ _))
      (ih (fun b hb => h b (List.mem_cons_of_mem _ hb)))

/-- The size of one level: the whole chunk when it is within the threshold,
otherwise the sum over the voxel cells of `min (cell size, quota)`. -/
theorem lodLevelPoints_length (rng : Shuffle) (thresholds : List Nat)
    (points : List PointCloudPoint) (grid lodPoints : List (List PointCloudPoint)) (level : Nat) :
    (lodLevelPoints rng thresholds points grid lodPoints level).length =
      if points.length ≤ thresholds.getD level 0 then points.length
      else
        ((List.range gridCells).map (fun cell =>
          min (grid.getD cell []).length
            (min (thresholds.getD level 0) ((lodPoints.getD (level - 1) []).length / 2) / gridCells
              + (if cell < min (thresholds.getD level 0)
                    ((lodPoints.getD (level - 1) []).length / 2) % gridCells then 1 else 0)))).sum := by
  unfold lodLevelPoints
  split
  · rfl
  · simp only [List.length_flatMap, Function.comp_def, selectCell_length]

theorem lodLevelPoints_length_le (rng : Shuffle) (thresholds : List Nat)
    (points : List PointCloudPoint) (grid lodPoints : List (List PointCloudPoint)) (level : Nat)
    (h : ¬ points.length ≤ thresholds.getD level 0) :
    (lodLevelPoints rng thresholds points grid lodPoints level).length ≤
      min (thresholds.getD level 0) ((lodPoints.getD (level - 1) []).length / 2) := by
  rw [lodLevelPoints_length, if_neg h]
  refine (list_sum_map_le _ _ _ (fun cell _ => Nat.min_le_right _ _)).trans ?_
  exact (sum_quota_target _).le

theorem lodLevelPoints_of_le (rng : Shuffle) (thresholds : List Nat)
    (points : List PointCloudPoint) (grid lodPoints : List (List PointCloudPoint)) (level : Nat)
    (h : points.length ≤ thresholds.getD level 0) :
    lodLevelPoints rng thresholds points grid lodPoints level = points := by
  unfold lodLevelPoints
  rw [if_pos h]

/-- The five point lists of `generateLODLevels`, level by level. -/
theorem lodPointLists_eq (rng : Shuffle) (chunk : PointCloudChunk) :
    ∃ l1 l2 l3 l4 : List PointCloudPoint,
      lodPointLists rng chunk = [chunk.points, l1, l2, l3, l4]
      ∧ l1 = lodLevelPoints rng (lodThresholds chunk.boundingRadius) chunk.points
              (buildGrid chunk.points) [chunk.points, [], [], [], []] 1
      ∧ l2 = lodLevelPoints rng (lodThresholds chunk.boundingRadius) chunk.points
              (buildGrid chunk.points) [chunk.points, l1, [], [], []] 2
      ∧ l3 = lodLevelPoints rng (lodThresholds chunk.boundingRadius) chunk.points
              (buildGrid chunk.points) [chunk.points, l1, l2, [], []] 3
      ∧ l4 = lodLevelPoints rng (lodThresholds chunk.boundingRadius) chunk.points
              (buildGrid chunk.points) [chunk.points, l1, l2, l3, []] 4 :=
  ⟨_, _, _, _, rfl, rfl, rfl, rfl, rfl⟩


/-- C4: for every chunk with `boundingRadius >= 0` and every outcome of the
random sampling, `generateLODLevels` produces exactly 5 levels, level 0 has as
many points as the chunk, and no level has more points than the level before. -/
theorem C4_lod_counts_monotone (rng : Shuffle) (chunk : PointCloudChunk)
    (hr : 0 ≤ chunk.boundingRadius) :
    (generateLODLevels rng chunk).lodPointCounts.length = 5
      ∧ (generateLODLevels rng chunk).lodVBOs.length = 5
      ∧ (generateLODLevels rng chunk).lodPointCounts[0]? = some chunk.points.length
      ∧ ∀ i, 1 ≤ i → i ≤ 4 →
          (generateLODLevels rng chunk).lodPointCounts.getD i 0
            ≤ (generateLODLevels rng chunk).lodPointCounts.getD (i - 1) 0 := by
  obtain ⟨l1, l2, l3, l4, hl, h1, h2, h3, h4⟩ := lodPointLists_eq rng chunk
  have t12 : toSize (roundFloat (100000 * chunk.boundingRadius))
      ≤ toSize (roundFloat (600000 * chunk.boundingRadius)) :=
    toSize_mono _ _ (roundFloat_mono _ _ (mul_nonneg (by norm_num) hr) (by nlinarith))
  have t23 : toSize (roundFloat (50000 * chunk.boundingRadius))
      ≤ toSize (roundFloat (100000 * chunk.boundingRadius)) :=
    toSize_mono _ _ (roundFloat_mono _ _ (mul_nonneg (by norm_num) hr) (by nlinarith))
  have t34 : toSize (roundFloat (30000 * chunk.boundingRadius))
      ≤ toSize (roundFloat (50000 * chunk.boundingRadius)) :=
    toSize_mono _ _ (roundFloat_mono _ _ (mul_nonneg (by norm_num) hr) (by nlinarith))
  have b1 : l1.length ≤ chunk.points.length := by
    rw [h1]
    by_cases h : chunk.points.length ≤ (lodThresholds chunk.boundingRadius).getD 1 0
    · rw [lodLevelPoints_of_le _ _ _ _ _ _ h]
    · refine (lodLevelPoints_length_le _ _ _ _ _ _ h).trans ?_
      simp only [List.getD_cons_zero, Nat.sub_self]
      omega
  have b2 : l2.length ≤ l1.length := by
    rw [h2]
    by_cases h : chunk.points.length ≤ (lodThresholds chunk.boundingRadius).getD 2 0
    · rw [lodLevelPoints_of_le _ _ _ _ _ _ h, h1, lodLevelPoints_of_le]
      simp only [lodThresholds, List.getD_cons_succ, List.getD_cons_zero] at h ⊢
      omega
    · refine (lodLevelPoints_length_le _ _ _ _ _ _ h).trans ?_
      simp only [List.getD_cons_succ, List.getD_cons_zero, Nat.add_one_sub_one]
      omega
  have b3 : l3.length ≤ l2.length := by
    rw [h3]
    by_cases h : chunk.points.length ≤ (lodThresholds chunk.boundingRadius).getD 3 0
    · rw [lodLevelPoints_of_le _ _ _ _ _ _ h, h2, lodLevelPoints_of_le]
      simp only [lodThresholds, List.getD_cons_succ, List.getD_cons_zero] at h ⊢
      omega
    · refine (lodLevelPoints_length_le _ _ _ _ _ _ h).trans ?_
      simp only [List.getD_cons_succ, List.getD_cons_zero, Nat.add_one_sub_one]
      omega
  have b4 : l4.length ≤ l3.length := by
    rw [h4]
    by_cases h : chunk.points.length ≤ (lodThresholds chunk.boundingRadius).getD 4 0
    · rw [lodLevelPoints_of_le _ _ _ _ _ _ h, h3, lodLevelPoints_of_le]
      simp only [lodThresholds, List.getD_cons_succ, List.getD_cons_zero] at h ⊢
      omega
    · refine (lodLevelPoints_length_le _ _ _ _ _ _ h).trans ?_
      simp only [List.getD_cons_succ, List.getD_cons_zero, Nat.add_one_sub_one]
      omega
  simp only [generateLODLevels, hl]
  refine ⟨rfl, rfl, rfl, ?_⟩
  intro i hi1 hi4
  have hcases : i = 1 ∨ i = 2 ∨ i = 3 ∨ i = 4 := by omega
  rcases hcases with rfl | rfl | rfl | rfl
  · simpa using b1
  · simpa using b2
  · simpa using b3
  · simpa using b4

theorem selectCell_zero (rng : Shuffle) (level cell : Nat) (g : List PointCloudPoint) :
    selectCell rng level cell g 0 = [] := by
  unfold selectCell
  split
  · rename_i h
    exact List.length_eq_zero.mp (Nat.le_zero.mp h)
  · simp

theorem lodLevelPoints_zero_threshold (rng : Shuffle) (thresholds : List Nat)
    (points : List PointCloudPoint) (grid lodPoints : List (List PointCloudPoint)) (level : Nat)
    (h0 : thresholds.getD level 0 = 0) (hne : points ≠ []) :
    lodLevelPoints rng thresholds points grid lodPoints level = [] := by
  unfold lodLevelPoints
  have hlen : ¬ points.length ≤ 0 := by
    intro h
    exact hne (List.length_eq_zero.mp (Nat.le_zero.mp h))
  rw [h0, if_neg hlen]
  simp [selectCell_zero]

theorem one_le_toSize (q : ℚ) : 1 ≤ toSize q ↔ 1 ≤ q := by
  unfold toSize
  rw [show (1 : ℚ) = ((1 : Int) : ℚ) by norm_num, ← Int.le_floor]
  omega

/-- A level of a one-point chunk: the point when the threshold is at least 1,
nothing otherwise. -/
theorem lodLevelPoints_single (rng : Shuffle) (thresholds : List Nat) (p : PointCloudPoint)
    (grid lodPoints : List (List PointCloudPoint)) (level : Nat) :
    lodLevelPoints rng thresholds [p] grid lodPoints level =
      if 1 ≤ thresholds.getD level 0 then [p] else [] := by
  split
  · rename_i h
    exact lodLevelPoints_of_le rng thresholds [p] grid lodPoints level h
  · rename_i h
    exact lodLevelPoints_zero_threshold rng thresholds [p] grid lodPoints level (by omega) (by simp)

theorem lodPointLists_single (rng : Shuffle) (chunk : PointCloudChunk) (p : PointCloudPoint)
    (h : chunk.points = [p]) :
    lodPointLists rng chunk =
      [[p], if 1 ≤ roundFloat (600000 * chunk.boundingRadius) then [p] else [],
        if 1 ≤ roundFloat (100000 * chunk.boundingRadius) then [p] else [],
        if 1 ≤ roundFloat (50000 * chunk.boundingRadius) then [p] else [],
        if 1 ≤ roundFloat (30000 * chunk.boundingRadius) then [p] else []] := by
  obtain ⟨l1, l2, l3, l4, hl, h1, h2, h3, h4⟩ := lodPointLists_eq rng chunk
  rw [h, lodLevelPoints_single] at h1 h2 h3 h4
  simp only [lodThresholds, List.getD_cons_succ, List.getD_cons_zero, one_le_toSize] at h1 h2 h3 h4
  rw [hl, h, h1, h2, h3, h4]

/-- Witness of C4 at a one-point chunk of bounding radius 1. -/
theorem C4_lod_counts_monotone_witness :
    (0 : ℚ) ≤ offCentrePointChunk.boundingRadius
      ∧ (generateLODLevels refShuffle offCentrePointChunk).lodPointCounts.length = 5
      ∧ (generateLODLevels refShuffle offCentrePointChunk).lodPointCounts[0]? = some 1 :=
  ⟨by norm_num [offCentrePointChunk],
    (C4_lod_counts_monotone refShuffle offCentrePointChunk
      (by norm_num [offCentrePointChunk])).1,
    (C4_lod_counts_monotone refShuffle offCentrePointChunk
      (by norm_num [offCentrePointChunk])).2.2.1⟩

theorem generateLODLevels_counts_single (rng : Shuffle) (chunk : PointCloudChunk)
    (p : PointCloudPoint) (h : chunk.points = [p]) :
    (generateLODLevels rng chunk).lodPointCounts =
      [1, if 1 ≤ roundFloat (600000 * chunk.boundingRadius) then 1 else 0,
        if 1 ≤ roundFloat (100000 * chunk.boundingRadius) then 1 else 0,
        if 1 ≤ roundFloat (50000 * chunk.boundingRadius) then 1 else 0,
        if 1 ≤ roundFloat (30000 * chunk.boundingRadius) then 1 else 0] := by
  simp only [generateLODLevels, lodPointLists_single rng chunk p h, List.map_cons, List.map_nil,
    List.length_singleton, apply_ite List.length, List.length_nil]

theorem centrePointCloud_chunkMap :
    buildChunkMap (modelMatrix refEnv centrePointCloud.position centrePointCloud.rotation
      centrePointCloud.scale) 10 centrePointCloud.points = [(⟨0, 0, 0⟩, centrePointCloud.points)] := by
  decide!

theorem centrePointCloud_radius :
    refEnv.sqrt (maxDistSq (chunkCenter ⟨0, 0, 0⟩ 10) centrePointCloud.points) = 0 := by
  have h : maxDistSq (chunkCenter ⟨0, 0, 0⟩ 10) centrePointCloud.points = 0 := by decide!
  rw [h]
  exact refEnv.sqrt_zero

/-- C5 fails: a chunk whose single point lies on the chunk centre has bounding
radius 0, all four thresholds are 0, and levels 1 to 4 are empty; the same
happens through `generateChunks` for the cloud whose only point is the centre
of its grid cell. -/
theorem C5_single_point_counterexample :
    (generateLODLevels refShuffle centrePointChunk).lodPointCounts = [1, 0, 0, 0, 0]
      ∧ (generateChunks refEnv centrePointCloud 10).chunks.map (fun c => c.lodPointCounts)
          = [[1, 0, 0, 0, 0]]
      ∧ (generateChunks refEnv centrePointCloud 10).chunks.map (fun c => c.boundingRadius) = [0] := by
  refine ⟨?_, ?_, ?_⟩
  · rw [generateLODLevels_counts_single refShuffle centrePointChunk _ rfl]
    norm_num [centrePointChunk, roundFloat_zero]
  · rw [generateChunks_chunks, centrePointCloud_chunkMap]
    simp only [List.enum_cons, List.enum_nil, List.enumFrom_cons, List.enumFrom_nil,
      List.map_cons, List.map_nil, makeChunk]
    rw [generateLODLevels_counts_single _ _ _ rfl]
    simp only [centrePointCloud_radius]
    norm_num [roundFloat_zero]
  · rw [generateChunks_chunks, centrePointCloud_chunkMap]
    simp only [List.enum_cons, List.enum_nil, List.enumFrom_cons, List.enumFrom_nil,
      List.map_cons, List.map_nil, makeChunk, generateLODLevels, centrePointCloud_radius]

/-- C5 as amended: for a chunk with exactly one point, level 0 is that point
and level `L` in 1..4 is that point when the `float` product
`multiplier L * boundingRadius` is at least 1, and empty otherwise; so all five
levels consist of exactly that point, with `lodPointCounts = [1, 1, 1, 1, 1]`,
when `boundingRadius >= 1 / 30000`, and levels 1 to 4 are empty when
`boundingRadius = 0`. -/
theorem C5_single_point_levels (rng : Shuffle) (chunk : PointCloudChunk) (p : PointCloudPoint)
    (h : chunk.points = [p]) :
    (generateLODLevels rng chunk).lodPointCounts =
        [1, if 1 ≤ roundFloat (600000 * chunk.boundingRadius) then 1 else 0,
          if 1 ≤ roundFloat (100000 * chunk.boundingRadius) then 1 else 0,
          if 1 ≤ roundFloat (50000 * chunk.boundingRadius) then 1 else 0,
          if 1 ≤ roundFloat (30000 * chunk.boundingRadius) then 1 else 0]
      ∧ (1 / 30000 ≤ chunk.boundingRadius →
          (generateLODLevels rng chunk).lodPointCounts = [1, 1, 1, 1, 1]
            ∧ (generateLODLevels rng chunk).lodVBOs = List.replicate 5 (some [p]))
      ∧ (chunk.boundingRadius = 0 →
          (generateLODLevels rng chunk).lodPointCounts = [1, 0, 0, 0, 0]) := by
  refine ⟨generateLODLevels_counts_single rng chunk p h, ?_, ?_⟩
  · intro hr
    have h1 : (1 : ℚ) ≤ roundFloat (600000 * chunk.boundingRadius) :=
      one_le_roundFloat _ (by linarith)
    have h2 : (1 : ℚ) ≤ roundFloat (100000 * chunk.boundingRadius) :=
      one_le_roundFloat _ (by linarith)
    have h3 : (1 : ℚ) ≤ roundFloat (50000 * chunk.boundingRadius) :=
      one_le_roundFloat _ (by linarith)
    have h4 : (1 : ℚ) ≤ roundFloat (30000 * chunk.boundingRadius) :=
      one_le_roundFloat _ (by linarith)
    simp [generateLODLevels, lodPointLists_single rng chunk p h, h1, h2, h3, h4]
  · intro hr
    rw [generateLODLevels_counts_single rng chunk p h, hr]
    norm_num [roundFloat_zero]

theorem tinyRadiusChunk_products :
    (1 : ℚ) ≤ roundFloat (600000 * tinyRadiusChunk.boundingRadius)
      ∧ (1 : ℚ) ≤ roundFloat (100000 * tinyRadiusChunk.boundingRadius)
      ∧ ¬ (1 : ℚ) ≤ roundFloat (50000 * tinyRadiusChunk.boundingRadius)
      ∧ ¬ (1 : ℚ) ≤ roundFloat (30000 * tinyRadiusChunk.boundingRadius) := by
  decide!

/-- Witness of the amended C5: a one-point chunk of bounding radius 1, and a
one-point chunk whose bounding radius is the `float` `1e-5f`: the exact product
`100000 * boundingRadius` is below 1, the `float` product is 1, and the levels
are `[1, 1, 1, 0, 0]`. -/
theorem C5_single_point_levels_witness :
    offCentrePointChunk.points = [⟨⟨5, 5, 6⟩, 1, ⟨1, 1, 1⟩⟩]
      ∧ (1 : ℚ) / 30000 ≤ offCentrePointChunk.boundingRadius
      ∧ (generateLODLevels refShuffle offCentrePointChunk).lodPointCounts = [1, 1, 1, 1, 1]
      ∧ (generateLODLevels refShuffle offCentrePointChunk).lodVBOs
          = List.replicate 5 (some [⟨⟨5, 5, 6⟩, 1, ⟨1, 1, 1⟩⟩])
      ∧ tinyRadiusChunk.points = [⟨⟨5, 5, 5⟩, 1, ⟨1, 1, 1⟩⟩]
      ∧ (100000 : ℚ) * tinyRadiusChunk.boundingRadius < 1
      ∧ (generateLODLevels refShuffle tinyRadiusChunk).lodPointCounts = [1, 1, 1, 0, 0] := by
  obtain ⟨t1, t2, t3, t4⟩ := tinyRadiusChunk_products
  have hoff := (C5_single_point_levels refShuffle offCentrePointChunk _ rfl).2.1
    (by norm_num [offCentrePointChunk])
  have htiny := (C5_single_point_levels refShuffle tinyRadiusChunk _ rfl).1
  rw [if_pos t1, if_pos t2, if_neg t3, if_neg t4] at htiny
  exact ⟨rfl, by norm_num [offCentrePointChunk], hoff.1, hoff.2, rfl,
    by norm_num [tinyRadiusChunk], htiny⟩

/-! ### Binary container -/

theorem fromLe32_le32 (v : Nat) (h : v < 2 ^ 32) : fromLe32 (le32 v) = v := by
  simp only [fromLe32, le32, List.getD_cons_zero, List.getD_cons_succ]
  omega

theorem f32Encode_lt (x : ℚ) : f32Encode x < 2 ^ 32 := by
  unfold f32Encode
  by_cases h0 : x = 0
  · simp [h0]
  · have hm := Nat.min_le_right ((max (Int.log 2 |x|) (-126) + 126).toNat * 2 ^ 23
      + roundHalfEven (|x| * 2 ^ (23 - max (Int.log 2 |x|) (-126)))) 2139095040
    simp only [h0, if_false]
    split <;> omega

theorem f32OfBytes_f32Bytes (x : ℚ) : f32OfBytes (f32Bytes x) = f32Round x := by
  unfold f32OfBytes f32Bytes f32Round
  rw [fromLe32_le32 _ (f32Encode_lt x)]

theorem encodePoint_length (transform : Mat4) (point : PointCloudPoint) :
    (encodePoint transform point).length = 19 := by
  simp [encodePoint, vec3Bytes, f32Bytes, le32]

theorem toU32_lt (q : ℚ) : toU32 q < 2 ^ 32 := Nat.mod_lt _ (by norm_num)

theorem decodePoint_encodePoint (transform : Mat4) (point : PointCloudPoint) (rest : List Nat) :
    decodePoint (encodePoint transform point ++ rest) = storedPoint transform point := by
  have hx := f32OfBytes_f32Bytes (transformPoint transform point.position).x
  have hy := f32OfBytes_f32Bytes (transformPoint transform point.position).y
  have hz := f32OfBytes_f32Bytes (transformPoint transform point.position).z
  have hi := fromLe32_le32 _ (toU32_lt (roundFloat (point.intensity * 1000)))
  simp only [f32Bytes, le32] at hx hy hz hi
  simp only [decodePoint, encodePoint, vec3Bytes, f32Bytes, le32, vec3OfBytes, storedPoint,
    Vec3.mulScalar, Vec3.divScalar, List.cons_append, List.nil_append, List.take_succ_cons,
    List.take_zero, List.drop_succ_cons, List.drop_zero, List.getD_cons_zero, List.getD_cons_succ,
    hx, hy, hz, hi]


theorem pointSize_eq : pointSize = 19 := rfl

theorem records_length (transform : Mat4) (pts : List PointCloudPoint) :
    (pts.flatMap (encodePoint transform)).length = 19 * pts.length := by
  induction pts with
  | nil => rfl
  | cons p rest ih =>
    rw [List.flatMap_cons, List.length_append, encodePoint_length, ih, List.length_cons]
    ring

theorem records_take (transform : Mat4) (pts : List PointCloudPoint) (k : Nat) :
    (pts.flatMap (encodePoint transform)).take (k * 19) = (pts.take k).flatMap (encodePoint transform) := by
  induction k generalizing pts with
  | zero => simp
  | succ k ih =>
    cases pts with
    | nil => simp
    | cons p rest =>
      have h19 : (encodePoint transform p).take ((k + 1) * 19) = encodePoint transform p :=
        List.take_of_length_le (by rw [encodePoint_length]; omega)
      rw [List.flatMap_cons, List.take_succ_cons, List.flatMap_cons, ← ih rest,
        List.take_append_eq_append_take, encodePoint_length, h19]
      congr 2
      omega

theorem records_drop (transform : Mat4) (pts : List PointCloudPoint) (k : Nat) :
    (pts.flatMap (encodePoint transform)).drop (k * 19) = (pts.drop k).flatMap (encodePoint transform) := by
  induction k generalizing pts with
  | zero => simp
  | succ k ih =>
    cases pts with
    | nil => simp
    | cons p rest =>
      have h19 : (encodePoint transform p).drop ((k + 1) * 19) = [] :=
        List.drop_of_length_le (by rw [encodePoint_length]; omega)
      rw [List.flatMap_cons, List.drop_succ_cons, ← ih rest,
        List.drop_append_eq_append_drop, encodePoint_length, h19, List.nil_append]
      congr 1
      omega

theorem processBinaryChunk_records (transform : Mat4) (pts : List PointCloudPoint)
    (rest : List Nat) :
    processBinaryChunk pts.length (pts.flatMap (encodePoint transform) ++ rest) =
      pts.map (storedPoint transform) := by
  induction pts with
  | nil => rfl
  | cons p tail ih =>
    rw [List.length_cons, processBinaryChunk, List.flatMap_cons, List.append_assoc,
      decodePoint_encodePoint, List.map_cons]
    exact congrArg _ ih

theorem pointsPerBuffer_pos : 0 < pointsPerBuffer := by decide

/-- On the records written for `pts`, the read loop returns the decoded points
as soon as it may run once per point. -/
theorem readLoop_records (transform : Mat4) (fuel : Nat) (pts : List PointCloudPoint)
    (total : Nat) (acc : List PointCloudPoint) (hfuel : pts.length ≤ fuel) :
    readLoop fuel (total + pts.length) (pts.flatMap (encodePoint transform)) total acc =
      some (acc ++ pts.map (storedPoint transform)) := by
  induction fuel generalizing pts total acc with
  | zero =>
    have h0 : pts = [] := List.length_eq_zero.mp (Nat.le_zero.mp hfuel)
    subst h0
    simp [readLoop]
  | succ fuel ih =>
    by_cases hnil : pts = []
    · subst hnil
      simp [readLoop]
    · have hpos : 0 < pts.length := List.length_pos.mpr hnil
      have hpb := pointsPerBuffer_pos
      rw [readLoop, if_pos (by omega)]
      have hk : 0 < min pointsPerBuffer pts.length := by
        rw [Nat.lt_min]; exact ⟨hpb, hpos⟩
      have hkle : min pointsPerBuffer pts.length ≤ pts.length := Nat.min_le_right _ _
      have hbuf : ((pts.flatMap (encodePoint transform)).take
          (min pointsPerBuffer pts.length * 19)).length = min pointsPerBuffer pts.length * 19 := by
        rw [List.length_take, records_length]
        omega
      simp only [Nat.add_sub_cancel_left, pointSize_eq, hbuf]
      rw [if_pos (by omega), Nat.mul_div_cancel _ (by norm_num : 0 < 19), records_take, records_drop]
      have hlen : (pts.take (min pointsPerBuffer pts.length)).length = min pointsPerBuffer pts.length := by
        rw [List.length_take]; omega
      have hproc := processBinaryChunk_records transform (pts.take (min pointsPerBuffer pts.length)) []
      rw [hlen, List.append_nil] at hproc
      rw [hproc]
      have hrec := ih (pts.drop (min pointsPerBuffer pts.length))
        (total + min pointsPerBuffer pts.length)
        (acc ++ (pts.take (min pointsPerBuffer pts.length)).map (storedPoint transform))
        (by rw [List.length_drop]; omega)
      have htot : total + min pointsPerBuffer pts.length
          + (pts.drop (min pointsPerBuffer pts.length)).length = total + pts.length := by
        rw [List.length_drop]
        have := Nat.min_le_right pointsPerBuffer pts.length
        omega
      rw [htot] at hrec
      rw [hrec, List.append_assoc, ← List.map_append, List.take_append_drop]


theorem exportToBinary_eq (env : Env) (pc : PointCloud) :
    exportToBinary env pc true = some (BINARY_MAGIC_NUMBER ++ le32 (pc.points.length % 2 ^ 32)
      ++ pc.points.flatMap (encodePoint (modelMatrix env pc.position pc.rotation pc.scale))) := rfl

theorem finishLoad_points (env : Env) (pc : PointCloud) : (finishLoad env pc).points = pc.points := rfl

/-- Loading what `exportToBinary` wrote: the read loop ends and the points are
the decoded records, in order. -/
theorem loadFromBinary_export (env : Env) (uninit : List Nat) (fuel : Nat) (pc : PointCloud)
    (hn : pc.points.length < 2 ^ 32) (hfuel : pc.points.length ≤ fuel) :
    loadFromBinary env uninit fuel (exportToBinary env pc true) =
      some (finishLoad env
        { PointCloud.empty with
          points := pc.points.map (storedPoint (modelMatrix env pc.position pc.rotation pc.scale)),
          position := ⟨0, 0, 0⟩, rotation := ⟨0, 0, 0⟩, scale := ⟨1, 1, 1⟩ }) := by
  have hcount := fromLe32_le32 (pc.points.length % 2 ^ 32) (Nat.mod_lt _ (by norm_num))
  rw [Nat.mod_eq_of_lt hn] at hcount
  have hloop := readLoop_records (modelMatrix env pc.position pc.rotation pc.scale) fuel pc.points 0 []
    hfuel
  rw [Nat.zero_add, List.nil_append] at hloop
  rw [exportToBinary_eq, Nat.mod_eq_of_lt hn]
  simp only [le32] at hcount
  simp only [loadFromBinary, readInto, BINARY_MAGIC_NUMBER, le32, List.cons_append,
    List.nil_append, List.take_succ_cons, List.take_zero, List.drop_succ_cons, List.drop_zero,
    List.length_cons, List.length_nil, Nat.sub_self, List.append_nil, ne_eq, not_true_eq_false,
    if_false, hcount, hloop]

theorem modelMatrix_identity (env : Env) :
    modelMatrix env ⟨0, 0, 0⟩ ⟨0, 0, 0⟩ ⟨1, 1, 1⟩ = Mat4.identity := by
  simp [modelMatrix, Mat4.translate, Mat4.rotate, Mat4.scale, Mat4.identity, Vec4.smul, Vec4.add,
    Vec3.mulScalar, env.cos_zero, env.sin_zero]

theorem transformPoint_identity (p : Vec3) : transformPoint Mat4.identity p = p := by
  simp [transformPoint, Mat4.mulVec, Mat4.identity, Vec4.smul, Vec4.add, Vec4.ofPoint, Vec4.xyz]


theorem exampleCloud_stored_positions :
    (exampleCloud.points.map
        (storedPoint (modelMatrix refEnv exampleCloud.position exampleCloud.rotation
          exampleCloud.scale))).map (fun p => p.position)
      = [⟨2, 0, 0⟩, ⟨1, 2, 5⟩, ⟨2, 1 / 2, 0⟩] := by
  decide!

theorem exampleCloud_world_positions :
    ([⟨1, 0, 0⟩, ⟨0, 2, 5⟩, ⟨1, 1 / 2, 0⟩] : List Vec3).map
        (transformPoint (modelMatrix refEnv ⟨1, 0, 0⟩ ⟨0, 0, 0⟩ ⟨1, 1, 1⟩))
      = [⟨2, 0, 0⟩, ⟨1, 2, 5⟩, ⟨2, 1 / 2, 0⟩]
      ∧ ([⟨2, 0, 0⟩, ⟨1, 2, 5⟩, ⟨2, 1 / 2, 0⟩] : List Vec3).map
          (transformPoint (modelMatrix refEnv ⟨1, 0, 0⟩ ⟨0, 0, 0⟩ ⟨1, 1, 1⟩))
        = [⟨3, 0, 0⟩, ⟨2, 2, 5⟩, ⟨3, 1 / 2, 0⟩] := by
  decide!

/-- C6, at the failing input: the example cloud is moved by one unit along X
(its three records fill one read block, so one worker decodes them).  The
positions read back from its exported bytes are the moved ones, not the stored
ones, and the loaded cloud has the identity transform.  `saveScene` stores the
transform
next to the exported bytes and `loadScene` sets it again on the loaded cloud,
so after a scene is saved and loaded the cloud has its old transform and the
already moved positions: the transform of the cloud applied to its points gave
`(2, 0, 0)`, `(1, 2, 5)`, `(2, 1/2, 0)` before and gives `(3, 0, 0)`,
`(2, 2, 5)`, `(3, 1/2, 0)` after. -/
theorem C6_roundtrip_transform_applied_twice :
    (∃ loaded, loadFromBinary refEnv [] 3 (exportToBinary refEnv exampleCloud true) = some loaded
      ∧ loaded.points.map (fun p => p.position) = [⟨2, 0, 0⟩, ⟨1, 2, 5⟩, ⟨2, 1 / 2, 0⟩]
      ∧ loaded.position = ⟨0, 0, 0⟩ ∧ loaded.rotation = ⟨0, 0, 0⟩ ∧ loaded.scale = ⟨1, 1, 1⟩)
      ∧ exampleCloud.points.map (fun p => p.position) = [⟨1, 0, 0⟩, ⟨0, 2, 5⟩, ⟨1, 1 / 2, 0⟩]
      ∧ (exampleCloud.position = ⟨1, 0, 0⟩ ∧ exampleCloud.rotation = ⟨0, 0, 0⟩
          ∧ exampleCloud.scale = ⟨1, 1, 1⟩)
      ∧ (exampleCloud.points.map (fun p => p.position)).map
            (transformPoint (modelMatrix refEnv exampleCloud.position exampleCloud.rotation
              exampleCloud.scale))
          = [⟨2, 0, 0⟩, ⟨1, 2, 5⟩, ⟨2, 1 / 2, 0⟩]
      ∧ ∃ reloaded, loadScene refEnv [] 3 (saveScene refEnv exampleCloud) = some reloaded
          ∧ (reloaded.position = ⟨1, 0, 0⟩ ∧ reloaded.rotation = ⟨0, 0, 0⟩
              ∧ reloaded.scale = ⟨1, 1, 1⟩)
          ∧ reloaded.points.map (fun p => p.position) = [⟨2, 0, 0⟩, ⟨1, 2, 5⟩, ⟨2, 1 / 2, 0⟩]
          ∧ (reloaded.points.map (fun p => p.position)).map
                (transformPoint (modelMatrix refEnv reloaded.position reloaded.rotation
                  reloaded.scale))
              = [⟨3, 0, 0⟩, ⟨2, 2, 5⟩, ⟨3, 1 / 2, 0⟩] := by
  have hload := loadFromBinary_export refEnv [] 3 exampleCloud (by decide) (by decide)
  have hpts := exampleCloud_stored_positions
  have hscene : loadScene refEnv [] 3 (saveScene refEnv exampleCloud) =
      some { finishLoad refEnv
          { PointCloud.empty with
            points := exampleCloud.points.map
              (storedPoint (modelMatrix refEnv exampleCloud.position exampleCloud.rotation
                exampleCloud.scale)),
            position := ⟨0, 0, 0⟩, rotation := ⟨0, 0, 0⟩, scale := ⟨1, 1, 1⟩ } with
        position := ⟨1, 0, 0⟩, rotation := ⟨0, 0, 0⟩, scale := ⟨1, 1, 1⟩ } := by
    show (loadFromBinary refEnv [] 3 (exportToBinary refEnv exampleCloud true)).map _ = _
    rw [hload]
    rfl
  refine ⟨⟨_, hload, ?_, ?_⟩, rfl, ⟨rfl, rfl, rfl⟩, exampleCloud_world_positions.1,
    _, hscene, ⟨rfl, rfl, rfl⟩, ?_, ?_⟩
  · rw [finishLoad_points]
    exact hpts
  · exact ⟨rfl, rfl, rfl⟩
  · show (finishLoad refEnv _).points.map (fun p => p.position) = _
    rw [finishLoad_points]
    exact hpts
  · show ((finishLoad refEnv _).points.map (fun p => p.position)).map
      (transformPoint (modelMatrix refEnv ⟨1, 0, 0⟩ ⟨0, 0, 0⟩ ⟨1, 1, 1⟩)) = _
    rw [finishLoad_points, hpts]
    exact exampleCloud_world_positions.2


theorem processBinaryChunk_stride (n : Nat) (data : List Nat) :
    processBinaryChunk n data = (List.range n).map (fun i => decodePoint (data.drop (19 * i))) := by
  induction n generalizing data with
  | zero => rfl
  | succ n ih =>
    rw [processBinaryChunk, ih, List.range_succ_eq_map, List.map_cons, List.map_map]
    congr 1
    apply List.map_congr_left
    intro i _
    simp only [Function.comp, pointSize_eq, List.drop_drop]
    congr 2
    omega

/-- C7: for a cloud of `n` points `exportToBinary` writes the 4 bytes
`'P', 'C', 'B', '1'`, then `n mod 2 ^ 32` as a 32-bit little-endian count, then
`n` records of 19 bytes each (12 bytes position, 4 bytes intensity, 3 bytes
colour) back to back, `8 + 19 * n` bytes in all; `loadFromBinary` uses the
same record size and reads record `i` of a block at offset `19 * i`. -/
theorem C7_container_layout (env : Env) (pc : PointCloud) :
    ∃ bytes, exportToBinary env pc true = some bytes
      ∧ bytes.take 4 = [80, 67, 66, 49]
      ∧ (bytes.drop 4).take 4 = le32 (pc.points.length % 2 ^ 32)
      ∧ fromLe32 ((bytes.drop 4).take 4) = pc.points.length % 2 ^ 32
      ∧ bytes.length = 8 + 19 * pc.points.length
      ∧ (∀ i, ∀ h : i < pc.points.length,
          (bytes.drop (8 + 19 * i)).take 19 =
            vec3Bytes (transformPoint (modelMatrix env pc.position pc.rotation pc.scale)
                (pc.points.get ⟨i, h⟩).position)
              ++ le32 (toU32 (roundFloat ((pc.points.get ⟨i, h⟩).intensity * 1000)))
              ++ [toU8 (roundFloat ((pc.points.get ⟨i, h⟩).color.x * 255)),
                  toU8 (roundFloat ((pc.points.get ⟨i, h⟩).color.y * 255)),
                  toU8 (roundFloat ((pc.points.get ⟨i, h⟩).color.z * 255))])
      ∧ (∀ v : Vec3, (vec3Bytes v).length = 12) ∧ (∀ v : Nat, (le32 v).length = 4)
      ∧ pointSize = 19
      ∧ ∀ n data, processBinaryChunk n data =
          (List.range n).map (fun i => decodePoint (data.drop (19 * i))) := by
  refine ⟨_, exportToBinary_eq env pc, rfl, rfl, ?_, ?_, ?_, ?_, ?_, rfl, processBinaryChunk_stride⟩
  · exact fromLe32_le32 _ (Nat.mod_lt _ (by norm_num))
  · simp only [List.length_append, records_length, BINARY_MAGIC_NUMBER, le32, List.length_cons,
      List.length_nil]
  · intro i h
    have hdrop : (BINARY_MAGIC_NUMBER ++ le32 (pc.points.length % 2 ^ 32)
        ++ pc.points.flatMap (encodePoint (modelMatrix env pc.position pc.rotation pc.scale))).drop
          (8 + 19 * i)
        = (pc.points.drop i).flatMap
            (encodePoint (modelMatrix env pc.position pc.rotation pc.scale)) := by
      rw [← records_drop, Nat.mul_comm i 19, ← List.drop_drop]
      rfl
    rw [hdrop, List.drop_eq_getElem_cons h, List.flatMap_cons, List.take_append_eq_append_take,
      encodePoint_length, Nat.sub_self, List.take_zero, List.append_nil,
      List.take_of_length_le (encodePoint_length _ _).le]
    rfl
  · intro v
    simp [vec3Bytes, f32Bytes, le32]
  · intro v
    rfl

theorem readInto_of_length_le (uninit : List Nat) (n : Nat) (file : List Nat)
    (h : n ≤ file.length) : readInto uninit n file = file.take n := by
  unfold readInto
  rw [List.length_take, Nat.min_eq_left h, Nat.sub_self, List.take_zero, List.append_nil]

theorem finishLoad_empty (env : Env) :
    (finishLoad env PointCloud.empty).points = []
      ∧ (finishLoad env PointCloud.empty).chunks = []
      ∧ (finishLoad env PointCloud.empty).chunkOutlineVertices = []
      ∧ (finishLoad env PointCloud.empty).instanceMatrices = [] :=
  ⟨rfl, rfl, rfl, rfl⟩

/-- C8: for every input file whose first 4 bytes are not `PCB1`,
`loadFromBinary` returns (whatever the fuel) a cloud with 0 points, 0 chunks
and an empty outline, whatever bytes follow the bad magic. -/
theorem C8_bad_magic_empty_cloud (env : Env) (uninit : List Nat) (fuel : Nat) (bytes : List Nat)
    (hlen : 4 ≤ bytes.length) (hmagic : bytes.take 4 ≠ BINARY_MAGIC_NUMBER) :
    ∃ loaded, loadFromBinary env uninit fuel (some bytes) = some loaded
      ∧ loaded.points = [] ∧ loaded.chunks = [] ∧ loaded.chunkOutlineVertices = []
      ∧ loaded.instanceMatrices = [] := by
  refine ⟨finishLoad env PointCloud.empty, ?_, finishLoad_empty env⟩
  simp only [loadFromBinary, readInto_of_length_le uninit 4 bytes hlen]
  rw [if_pos hmagic]

/-- Witness of C8 at an 8-byte file that starts with `PCB0`. -/
theorem C8_bad_magic_empty_cloud_witness :
    4 ≤ [80, 67, 66, 48, 1, 0, 0, 0].length
      ∧ [80, 67, 66, 48, 1, 0, 0, 0].take 4 ≠ BINARY_MAGIC_NUMBER
      ∧ ∃ loaded, loadFromBinary refEnv [] 0 (some [80, 67, 66, 48, 1, 0, 0, 0]) = some loaded
          ∧ loaded.points = [] ∧ loaded.chunks = [] ∧ loaded.chunkOutlineVertices = []
          ∧ loaded.instanceMatrices = [] :=
  ⟨by decide, by decide,
    C8_bad_magic_empty_cloud refEnv [] 0 [80, 67, 66, 48, 1, 0, 0, 0] (by decide) (by decide)⟩

/-- The read loop never ends while fewer bytes are left than the header count
still asks for. -/
theorem readLoop_truncated (fuel numPoints : Nat) (rest : List Nat) (total : Nat)
    (acc : List PointCloudPoint) (h : rest.length < 19 * (numPoints - total)) :
    readLoop fuel numPoints rest total acc = none := by
  induction fuel generalizing rest total acc with
  | zero =>
    rw [readLoop, if_pos (by omega)]
  | succ fuel ih =>
    have hpb := pointsPerBuffer_pos
    rw [readLoop, if_pos (by omega)]
    simp only [pointSize_eq, List.length_take]
    split
    · rename_i hpos
      apply ih
      rw [List.length_drop]
      have hk : min pointsPerBuffer (numPoints - total) ≤ numPoints - total := Nat.min_le_right _ _
      rcases Nat.le_total (min pointsPerBuffer (numPoints - total) * 19) rest.length with hc | hc
      · rw [Nat.min_eq_left hc, Nat.mul_div_cancel _ (by norm_num : 0 < 19)]
        omega
      · rw [Nat.min_eq_right hc]
        have hdiv : rest.length / 19 * 19 ≤ rest.length := Nat.div_mul_le_self _ _
        omega
    · exact ih rest total acc h

/-- Every truncated container (valid magic, fewer record bytes than the header
count asks for) keeps `loadFromBinary` in its read loop for ever. -/
theorem loadFromBinary_truncated (env : Env) (uninit : List Nat) (fuel : Nat) (bytes : List Nat)
    (hmagic : bytes.take 4 = BINARY_MAGIC_NUMBER) (hlen : 8 ≤ bytes.length)
    (htrunc : bytes.length - 8 < 19 * fromLe32 ((bytes.drop 4).take 4)) :
    loadFromBinary env uninit fuel (some bytes) = none := by
  have hloop := readLoop_truncated fuel (fromLe32 ((bytes.drop 4).take 4)) (bytes.drop 8) 0 []
    (by rw [List.length_drop, Nat.sub_zero]; exact htrunc)
  have h4 : 4 ≤ (bytes.drop 4).length := by rw [List.length_drop]; omega
  simp only [loadFromBinary, readInto_of_length_le uninit 4 bytes (by omega), hmagic,
    readInto_of_length_le (uninit.drop 4) 4 (bytes.drop 4) h4, ne_eq, not_true_eq_false,
    if_false, hloop]

/-- C9, at the failing input: on the container that announces one point and
holds none, `loadFromBinary` is still in its read loop after any number of
iterations, so it never returns. -/
theorem C9_truncated_container_never_returns :
    ∀ fuel, loadFromBinary refEnv [] fuel (some truncatedContainer) = none :=
  fun fuel => loadFromBinary_truncated refEnv [] fuel truncatedContainer (by decide) (by decide)
    (by decide)

theorem ceilDiv_succ (c k : Nat) (hk : 1 ≤ k) :
    ceilDiv (c + 1) k = ceilDiv c k + (if c % k = 0 then 1 else 0) := by
  unfold ceilDiv
  obtain ⟨q, r, hr, rfl⟩ : ∃ q r, r < k ∧ c = r + k * q :=
    ⟨c / k, c % k, Nat.mod_lt c hk, by rw [Nat.add_comm]; exact (Nat.div_add_mod c k).symm⟩
  have hmod : (r + k * q) % k = r := by
    rw [Nat.add_mul_mod_self_left, Nat.mod_eq_of_lt hr]
  rw [hmod]
  generalize hm : k * q = m
  have e1 : r + m + 1 + k - 1 = r + k + m := by omega
  have e2 : r + m + k - 1 = r + k - 1 + m := by omega
  rw [e1, e2, ← hm, Nat.add_mul_div_left _ _ hk, Nat.add_mul_div_left _ _ hk,
    Nat.add_div_right _ hk, Nat.div_eq_of_lt hr]
  split
  · rename_i h0
    rw [h0, Nat.zero_add, Nat.div_eq_of_lt (by omega)]
    omega
  · rename_i h0
    rw [show r + k - 1 = r - 1 + k by omega, Nat.add_div_right _ hk, Nat.div_eq_of_lt (by omega)]
    omega

theorem ceilDiv_zero (k : Nat) (hk : 1 ≤ k) : ceilDiv 0 k = 0 := by
  unfold ceilDiv
  exact Nat.div_eq_of_lt (by omega)

theorem processLines_length (env : Env) (k : Nat) (hk : 1 ≤ k) (c : Nat) (lines : List (List Char)) :
    ceilDiv c k + (processLines env k c lines).length ≤ ceilDiv (c + lines.length) k := by
  induction lines generalizing c with
  | nil => simp [processLines]
  | cons line rest ih =>
    have hrec := ih (c + 1)
    rw [ceilDiv_succ c k hk] at hrec
    rw [processLines, List.length_append, List.length_cons,
      show c + (rest.length + 1) = c + 1 + rest.length by omega]
    by_cases h0 : c % k = 0
    · rw [if_pos h0] at hrec
      by_cases hl : line = []
      · simp only [hl, ne_eq, not_true_eq_false, false_and, if_false, List.length_nil]
        omega
      · simp only [ne_eq, hl, not_false_eq_true, h0, and_self, if_true]
        cases env.sscanf line
        · simp only [List.length_nil]
          omega
        · simp only [List.length_singleton]
          omega
    · rw [if_neg h0] at hrec
      simp only [h0, and_false, if_false, List.length_nil]
      omega

theorem processChunk_length (env : Env) (k : Nat) (hk : 1 ≤ k) (chunk : List Char) :
    (processChunk env k chunk).length ≤ ceilDiv (getLines chunk).length k := by
  have h := processLines_length env k hk 0 (getLines chunk)
  rw [ceilDiv_zero k hk, Nat.zero_add, Nat.zero_add] at h
  exact h

theorem readBlocks_single (content : List Char) (h : content.length ≤ bufferSize) :
    readBlocks content = if content = [] then [] else [content] := by
  rw [readBlocks]
  by_cases hlt : content.length < bufferSize
  · rw [if_pos hlt]
  · have heq : content.length = bufferSize := by omega
    have hne : content ≠ [] := by
      intro hc
      rw [hc] at heq
      exact absurd heq (by decide)
    rw [if_neg hlt, if_neg hne, List.take_of_length_le h,
      List.drop_of_length_le h, readBlocks, if_pos (by decide)]
    rfl

theorem loadPointCloudFile_points (env : Env) (content : List Char) (k : Nat) :
    (loadPointCloudFile env (some content) k).points =
      (readBlocks content).flatMap (processChunk env k) := rfl


theorem flatMap_length_le {α β : Type} (l : List α) (f : α → List β) (g : α → Nat)
    (h : ∀ a ∈ l, (f a).length ≤ g a) : (l.flatMap f).length ≤ (l.map g).sum := by
  induction l with
  | nil => simp
  | cons a rest ih =>
    rw [List.flatMap_cons, List.length_append, List.map_cons, List.sum_cons]
    exact Nat.add_le_add (h a (List.mem_cons_self _ _))
      (ih (fun b hb => h b (List.mem_cons_of_mem _ hb)))

/-- C10 as amended: for every stride `k >= 1`, each read block of `L` lines
contributes at most `ceil (L / k)` points, so `loadPointCloudFile (path, k)`
yields at most the sum of `ceil (L / k)` over its read blocks; for a source
that fits in one read block (at most 1 MiB) and has `N` lines this is at most
`ceil (N / k)` points. -/
theorem C10_stride_bound_per_block (env : Env) (content : List Char) (k : Nat) (hk : 1 ≤ k) :
    (loadPointCloudFile env (some content) k).points.length
        ≤ ((readBlocks content).map (fun block => ceilDiv (getLines block).length k)).sum
      ∧ (content.length ≤ bufferSize →
          (loadPointCloudFile env (some content) k).points.length
            ≤ ceilDiv (getLines content).length k) := by
  rw [loadPointCloudFile_points]
  refine ⟨flatMap_length_le _ _ _ (fun b _ => processChunk_length env k hk b), ?_⟩
  intro hlen
  rw [readBlocks_single content hlen]
  split
  · simp
  · simpa using processChunk_length env k hk content


theorem getLinesFrom_line (cur line rest : List Char) (h : '\n' ∉ line) :
    getLinesFrom cur (line ++ '\n' :: rest) = (cur ++ line) :: getLinesFrom [] rest := by
  induction line generalizing cur with
  | nil => simp [getLinesFrom]
  | cons c cs ih =>
    have hc : c ≠ '\n' := fun e => h (by simp [e])
    have hcs : '\n' ∉ cs := fun e => h (List.mem_cons_of_mem _ e)
    rw [List.cons_append, getLinesFrom, if_neg hc, ih _ hcs, List.append_assoc]
    rfl

theorem getLines_replicate (line : List Char) (h : '\n' ∉ line) (n : Nat) :
    getLines (List.replicate n (line ++ ['\n'])).flatten = List.replicate n line := by
  unfold getLines
  induction n with
  | zero => simp [getLinesFrom]
  | succ n ih =>
    rw [List.replicate_succ, List.flatten_cons, List.append_assoc, List.singleton_append,
      getLinesFrom_line _ _ _ h, ih, List.nil_append, List.replicate_succ]

theorem length_flatten_replicate (line : List Char) (n : Nat) :
    (List.replicate n line).flatten.length = n * line.length := by
  induction n with
  | zero => simp
  | succ n ih =>
    rw [List.replicate_succ, List.flatten_cons, List.length_append, ih]
    ring

theorem processLines_skip (env : Env) (k c : Nat) (lines : List (List Char)) (hc : 1 ≤ c)
    (h : c + lines.length ≤ k) : processLines env k c lines = [] := by
  induction lines generalizing c with
  | nil => rfl
  | cons line rest ih =>
    rw [List.length_cons] at h
    have hmod : c % k ≠ 0 := by
      rw [Nat.mod_eq_of_lt (by omega)]
      omega
    rw [processLines, ih (c + 1) (by omega) (by omega)]
    simp [hmod]

/-- A block of `n + 1 <= k` copies of a valid line yields one point. -/
theorem processChunk_replicate (env : Env) (k n : Nat) (line : List Char) (f : ScanFields)
    (hnl : '\n' ∉ line) (hne : line ≠ []) (hscan : env.sscanf line = some f) (hn : n + 1 ≤ k) :
    processChunk env k (List.replicate (n + 1) (line ++ ['\n'])).flatten = [pointOfFields f] := by
  unfold processChunk
  rw [getLines_replicate line hnl, List.replicate_succ, processLines,
    processLines_skip env k 1 _ (by omega) (by rw [List.length_replicate]; omega)]
  simp [hne, hscan]

theorem readBlocks_two (a b : List Char) (ha : a.length = bufferSize) (hb : b ≠ [])
    (hb' : b.length < bufferSize) : readBlocks (a ++ b) = [a, b] := by
  rw [readBlocks, if_neg (by rw [List.length_append]; omega), List.take_left' ha,
    List.drop_left' ha, readBlocks, if_pos hb', if_neg hb]

theorem validLine_scan : refEnv.sscanf validLine = some ⟨1, 0, 0, 0, 0, 0, 0⟩ := by
  decide!

/-- C10 fails: the file of 65537 valid 16-byte lines spans two read blocks
(65536 lines, then 1 line); with stride 65537 each block keeps its first line,
so 2 points are loaded where `ceil (65537 / 65537) = 1`. -/
theorem C10_stride_counterexample :
    getLines stridedFile = List.replicate 65537 validLine
      ∧ refEnv.sscanf validLine = some ⟨1, 0, 0, 0, 0, 0, 0⟩
      ∧ (loadPointCloudFile refEnv (some stridedFile) 65537).points.length = 2
      ∧ ceilDiv 65537 65537 = 1 := by
  have hnl : '\n' ∉ validLine := by decide
  have hne : validLine ≠ [] := by decide
  refine ⟨getLines_replicate validLine hnl 65537, validLine_scan, ?_, by decide⟩
  have hsplit : stridedFile =
      (List.replicate (65535 + 1) (validLine ++ ['\n'])).flatten
        ++ (List.replicate (0 + 1) (validLine ++ ['\n'])).flatten := by
    unfold stridedFile
    rw [show (65537 : Nat) = 65535 + 1 + (0 + 1) by norm_num, List.replicate_add,
      List.flatten_append]
  have hlen : (List.replicate (65535 + 1) (validLine ++ ['\n'])).flatten.length = bufferSize := by
    rw [length_flatten_replicate]
    decide
  have hblocks := readBlocks_two _ (List.replicate (0 + 1) (validLine ++ ['\n'])).flatten hlen
    (by decide) (by decide)
  rw [loadPointCloudFile_points, hsplit, hblocks, List.flatMap_cons, List.flatMap_cons,
    List.flatMap_nil, List.append_nil,
    processChunk_replicate refEnv 65537 65535 validLine _ hnl hne validLine_scan (by norm_num),
    processChunk_replicate refEnv 65537 0 validLine _ hnl hne validLine_scan (by norm_num)]
  rfl

/-- Witness of the amended C10: stride 2 on a file of three valid lines. -/
theorem C10_stride_bound_per_block_witness :
    1 ≤ 2
      ∧ (List.replicate 3 (validLine ++ ['\n'])).flatten.length ≤ bufferSize
      ∧ (loadPointCloudFile refEnv (some (List.replicate 3 (validLine ++ ['\n'])).flatten) 2).points.length
          ≤ ((readBlocks (List.replicate 3 (validLine ++ ['\n'])).flatten).map
              (fun block => ceilDiv (getLines block).length 2)).sum
      ∧ (loadPointCloudFile refEnv (some (List.replicate 3 (validLine ++ ['\n'])).flatten) 2).points.length
          ≤ ceilDiv (getLines (List.replicate 3 (validLine ++ ['\n'])).flatten).length 2 :=
  ⟨by decide, by decide,
    (C10_stride_bound_per_block refEnv (List.replicate 3 (validLine ++ ['\n'])).flatten 2
      (by decide)).1,
    (C10_stride_bound_per_block refEnv (List.replicate 3 (validLine ++ ['\n'])).flatten 2
      (by decide)).2 (by decide)⟩

/-! ### Stride filter, line by line -/

/-- The loop of the text worker keeps, in order, the records of the lines
whose counter is a multiple of the stride. -/
theorem processLines_eq (env : Env) (k c : Nat) (lines : List (List Char)) :
    processLines env k c lines =
      ((lines.enumFrom c).filter (fun e => e.1 % k = 0)).filterMap (fun e => parseLine env e.2) := by
  induction lines generalizing c with
  | nil => rfl
  | cons line rest ih =>
    rw [processLines, ih (c + 1), List.enumFrom_cons]
    by_cases h0 : c % k = 0
    · rw [List.filter_cons_of_pos (by simpa using h0), List.filterMap_cons]
      by_cases hl : line = []
      · simp [hl, parseLine]
      · simp only [ne_eq, hl, not_false_eq_true, h0, and_self, if_true, parseLine, if_false]
        cases env.sscanf line <;> simp
    · rw [List.filter_cons_of_neg (by simpa using h0)]
      simp [h0]

theorem processChunk_eq (env : Env) (k : Nat) (chunk : List Char) :
    processChunk env k chunk = (everyKth k (getLines chunk)).filterMap (parseLine env) := by
  unfold processChunk everyKth
  rw [processLines_eq, List.filterMap_map]
  rfl

theorem loadPointCloudFile_single_block (env : Env) (content : List Char) (k : Nat)
    (hlen : content.length ≤ bufferSize) :
    (loadPointCloudFile env (some content) k).points = processChunk env k content := by
  rw [loadPointCloudFile_points, readBlocks_single content hlen]
  split
  · rename_i h
    subst h
    rfl
  · simp

theorem processLines_length_valid (env : Env) (k : Nat) (hk : 1 ≤ k) (c : Nat)
    (lines : List (List Char)) (hvalid : ∀ line ∈ lines, line ≠ [] ∧ (env.sscanf line).isSome) :
    ceilDiv c k + (processLines env k c lines).length = ceilDiv (c + lines.length) k := by
  induction lines generalizing c with
  | nil => simp [processLines]
  | cons line rest ih =>
    have hrec := ih (c + 1) (fun l hl => hvalid l (List.mem_cons_of_mem _ hl))
    rw [ceilDiv_succ c k hk] at hrec
    obtain ⟨hne, hsome⟩ := hvalid line (List.mem_cons_self _ _)
    obtain ⟨f, hf⟩ := Option.isSome_iff_exists.mp hsome
    rw [processLines, List.length_append, List.length_cons,
      show c + (rest.length + 1) = c + 1 + rest.length by omega]
    by_cases h0 : c % k = 0
    · rw [if_pos h0] at hrec
      simp only [ne_eq, hne, not_false_eq_true, h0, and_self, if_true, hf, List.length_singleton]
      omega
    · rw [if_neg h0] at hrec
      simp only [h0, and_false, if_false, List.length_nil]
      omega

theorem everyKth_filterMap_of_valid {α β : Type} (f : α → Option β) (k c : Nat) (l : List α)
    (h : ∀ a ∈ l, (f a).isSome) :
    (((l.filterMap f).enumFrom c).filter (fun e => e.1 % k = 0)).map Prod.snd =
      (((l.enumFrom c).filter (fun e => e.1 % k = 0)).map Prod.snd).filterMap f := by
  induction l generalizing c with
  | nil => rfl
  | cons a rest ih =>
    obtain ⟨b, hb⟩ := Option.isSome_iff_exists.mp (h a (List.mem_cons_self _ _))
    have hrest := ih (c + 1) (fun x hx => h x (List.mem_cons_of_mem _ hx))
    rw [List.filterMap_cons_some hb, List.enumFrom_cons, List.enumFrom_cons]
    by_cases h0 : c % k = 0
    · rw [List.filter_cons_of_pos (by simpa using h0), List.filter_cons_of_pos (by simpa using h0),
        List.map_cons, List.map_cons, List.filterMap_cons_some hb, hrest]
    · rw [List.filter_cons_of_neg (by simpa using h0), List.filter_cons_of_neg (by simpa using h0),
        hrest]

/-- C11: for every stride `k >= 1` and every source that fits in one read
block (at most 1 MiB) and consists of `N` valid seven-field lines,
`loadPointCloudFile (path, k)` yields exactly `ceil (N / k)` points. -/
theorem C11_single_block_exact_count (env : Env) (content : List Char) (k : Nat) (hk : 1 ≤ k)
    (hlen : content.length ≤ bufferSize)
    (hvalid : ∀ line ∈ getLines content, line ≠ [] ∧ (env.sscanf line).isSome) :
    (loadPointCloudFile env (some content) k).points.length
      = ceilDiv (getLines content).length k := by
  rw [loadPointCloudFile_single_block env content k hlen]
  have h := processLines_length_valid env k hk 0 (getLines content) hvalid
  rw [ceilDiv_zero k hk, Nat.zero_add, Nat.zero_add] at h
  exact h

theorem threeLineFile_valid :
    ∀ line ∈ getLines threeLineFile, line ≠ [] ∧ (refEnv.sscanf line).isSome := by
  intro line hline
  have hlines : getLines threeLineFile = List.replicate 3 validLine :=
    getLines_replicate validLine (by decide) 3
  rw [hlines] at hline
  rw [List.eq_of_mem_replicate hline, validLine_scan]
  exact ⟨by decide, rfl⟩

/-- Witness of C11: three valid lines, stride 2, two points. -/
theorem C11_single_block_exact_count_witness :
    1 ≤ 2 ∧ threeLineFile.length ≤ bufferSize
      ∧ (loadPointCloudFile refEnv (some threeLineFile) 2).points.length
          = ceilDiv (getLines threeLineFile).length 2 :=
  ⟨by decide, by decide,
    C11_single_block_exact_count refEnv threeLineFile 2 (by decide) (by decide)
      threeLineFile_valid⟩

theorem mixedFile_points :
    processChunk refEnv 2 mixedFile
      = [pointOfFields ⟨1, 0, 0, 0, 0, 0, 0⟩, pointOfFields ⟨2, 0, 0, 0, 0, 0, 0⟩] := by
  decide!

theorem mixedFile_records :
    (getLines mixedFile).filterMap (parseLine refEnv)
      = [pointOfFields ⟨1, 0, 0, 0, 0, 0, 0⟩, pointOfFields ⟨2, 0, 0, 0, 0, 0, 0⟩] := by
  decide!

/-- C12 fails: in the file `valid, malformed, valid` with stride 2 the
malformed line takes position 1, so the second valid record sits at position
2 and is loaded, although it is record 1 of the valid records. -/
theorem C12_stride_counterexample :
    mixedFile.length ≤ bufferSize
      ∧ (getLines mixedFile).filterMap (parseLine refEnv)
          = [pointOfFields ⟨1, 0, 0, 0, 0, 0, 0⟩, pointOfFields ⟨2, 0, 0, 0, 0, 0, 0⟩]
      ∧ (loadPointCloudFile refEnv (some mixedFile) 2).points
          = [pointOfFields ⟨1, 0, 0, 0, 0, 0, 0⟩, pointOfFields ⟨2, 0, 0, 0, 0, 0, 0⟩]
      ∧ everyKth 2 ((getLines mixedFile).filterMap (parseLine refEnv))
          = [pointOfFields ⟨1, 0, 0, 0, 0, 0, 0⟩]
      ∧ (loadPointCloudFile refEnv (some mixedFile) 2).points
          ≠ everyKth 2 ((getLines mixedFile).filterMap (parseLine refEnv)) := by
  have hpts := loadPointCloudFile_single_block refEnv mixedFile 2 (by decide)
  rw [mixedFile_points] at hpts
  refine ⟨by decide, mixedFile_records, hpts, ?_, ?_⟩
  · rw [mixedFile_records]
    rfl
  · rw [hpts, mixedFile_records]
    decide!

/-- C12 as amended: for every stride `k >= 1` and every single-block source,
the points loaded are, in order, the records of the lines at positions
0, k, 2k, ... in the sequence of all lines of the source that are valid;
empty and malformed lines keep their position, so they do shift the stride.
When every line is valid these are the records at positions 0, k, 2k, ... of
the valid records. -/
theorem C12_every_kth_line (env : Env) (content : List Char) (k : Nat) (_hk : 1 ≤ k)
    (hlen : content.length ≤ bufferSize) :
    (loadPointCloudFile env (some content) k).points
        = (everyKth k (getLines content)).filterMap (parseLine env)
      ∧ ((∀ line ∈ getLines content, (parseLine env line).isSome) →
          (loadPointCloudFile env (some content) k).points
            = everyKth k ((getLines content).filterMap (parseLine env))) := by
  rw [loadPointCloudFile_single_block env content k hlen, processChunk_eq]
  refine ⟨rfl, ?_⟩
  intro hvalid
  exact (everyKth_filterMap_of_valid (parseLine env) k 0 (getLines content) hvalid).symm

/-- Witness of the amended C12: the mixed file with stride 2. -/
theorem C12_every_kth_line_witness :
    1 ≤ 2 ∧ mixedFile.length ≤ bufferSize
      ∧ (loadPointCloudFile refEnv (some mixedFile) 2).points
          = (everyKth 2 (getLines mixedFile)).filterMap (parseLine refEnv) :=
  ⟨by decide, by decide,
    (C12_every_kth_line refEnv mixedFile 2 (by decide) (by decide)).1⟩

/-! ### Outline and empty clouds -/

theorem chunkOutline_length (center : Vec3) (chunkSize : ℚ) :
    (chunkOutline center chunkSize).length = 24 := rfl

theorem generateChunkOutlineVertices_chunks (pc : PointCloud) :
    (generateChunkOutlineVertices pc).chunks = pc.chunks := rfl

theorem outline_length (chunks : List PointCloudChunk) (chunkSize : ℚ) :
    (chunks.flatMap (fun chunk => chunkOutline chunk.centerPosition chunkSize)).length
      = 24 * chunks.length := by
  induction chunks with
  | nil => rfl
  | cons c rest ih =>
    rw [List.flatMap_cons, List.length_append, ih, chunkOutline_length, List.length_cons]
    ring

/-- C13: for every cloud, after `generateChunkOutlineVertices` (and so after
`generateChunks`) `chunkOutlineVertices` has exactly 24 entries per chunk,
whatever the outline held before the call. -/
theorem C13_outline_length (env : Env) (pc : PointCloud) (chunkSize : ℚ) :
    (generateChunkOutlineVertices pc).chunkOutlineVertices.length
        = 24 * (generateChunkOutlineVertices pc).chunks.length
      ∧ (generateChunkOutlineVertices pc).chunks = pc.chunks
      ∧ (∀ outline : List Vec3,
          (generateChunkOutlineVertices { pc with chunkOutlineVertices := outline }).chunkOutlineVertices
            = (generateChunkOutlineVertices pc).chunkOutlineVertices)
      ∧ (generateChunks env pc chunkSize).chunkOutlineVertices.length
          = 24 * (generateChunks env pc chunkSize).chunks.length :=
  ⟨outline_length _ _, rfl, fun _ => rfl, outline_length _ _⟩

theorem generateChunks_nil (env : Env) (pc : PointCloud) (chunkSize : ℚ) (h : pc.points = []) :
    (generateChunks env pc chunkSize).chunks = []
      ∧ (generateChunks env pc chunkSize).chunkOutlineVertices = [] := by
  have hc : (generateChunks env pc chunkSize).chunks = [] := by
    rw [generateChunks_chunks, h]
    rfl
  refine ⟨hc, ?_⟩
  have ho : (generateChunks env pc chunkSize).chunkOutlineVertices
      = (generateChunks env pc chunkSize).chunks.flatMap
          (fun chunk => chunkOutline chunk.centerPosition chunkSize) := rfl
  rw [ho, hc]
  rfl

/-- C14: a cloud with zero points yields zero chunks and an empty outline:
`generateChunks` on a cloud whose point list is empty leaves `chunks` and
`chunkOutlineVertices` empty for every `chunkSize`, whatever they held before,
and `loadPointCloudFile` on an empty file returns a cloud with 0 points,
0 chunks, an empty outline and 0 instance matrices. -/
theorem C14_empty_cloud (env : Env) (pc : PointCloud) (chunkSize : ℚ) (k : Nat)
    (h : pc.points = []) :
    (generateChunks env pc chunkSize).chunks = []
      ∧ (generateChunks env pc chunkSize).chunkOutlineVertices = []
      ∧ (loadPointCloudFile env (some []) k).points = []
      ∧ (loadPointCloudFile env (some []) k).chunks = []
      ∧ (loadPointCloudFile env (some []) k).chunkOutlineVertices = []
      ∧ (loadPointCloudFile env (some []) k).instanceMatrices = []
      ∧ (loadPointCloudFile env (some []) k).instanceCount = 0 := by
  have hblocks : readBlocks [] = [] := by
    rw [readBlocks, if_pos (by decide)]
    rfl
  have hpts : (loadPointCloudFile env (some []) k).points = [] := by
    rw [loadPointCloudFile_points, hblocks]
    rfl
  have hload : loadPointCloudFile env (some []) k =
      finishLoad env
        { PointCloud.empty with
          position := ⟨0, 0, 0⟩, rotation := ⟨0, 0, 0⟩, scale := ⟨1, 1, 1⟩,
          points := (readBlocks []).flatMap (processChunk env k) } := rfl
  refine ⟨(generateChunks_nil env pc chunkSize h).1, (generateChunks_nil env pc chunkSize h).2,
    hpts, ?_, ?_, ?_, ?_⟩
  all_goals rw [hload, hblocks]; rfl

/-- Witness of C14 at a cloud without points that still holds one chunk and
three outline vertices. -/
theorem C14_empty_cloud_witness :
    staleCloud.points = [] ∧ staleCloud.chunks ≠ [] ∧ staleCloud.chunkOutlineVertices ≠ []
      ∧ (generateChunks refEnv staleCloud 10).chunks = []
      ∧ (generateChunks refEnv staleCloud 10).chunkOutlineVertices = [] :=
  ⟨rfl, by decide, by simp [staleCloud], (C14_empty_cloud refEnv staleCloud 10 1 rfl).1,
    (C14_empty_cloud refEnv staleCloud 10 1 rfl).2.1⟩

theorem floor_cell (x s : ℚ) (i : Int) (hs : 0 < s) (h : ⌊x / s⌋ = i) :
    (i + 1 / 2) * s - s / 2 ≤ x ∧ x < (i + 1 / 2) * s + s / 2 := by
  have h1 : (i : ℚ) ≤ x / s := by rw [← h]; exact Int.floor_le _
  have h2 : x / s < (i : ℚ) + 1 := by rw [← h]; exact Int.lt_floor_add_one _
  rw [le_div_iff₀ hs] at h1
  rw [div_lt_iff₀ hs] at h2
  constructor <;> linarith

/-- C15: for every chunk produced by `generateChunks (cloud, s)` with `s > 0`
the centre is `(cellIndex + 0.5) * s` on each axis for an integer cell index,
and every transformed point `T p` of the chunk lies in the half-open cube of
side `s` centred there: `centre - s / 2 <= T p < centre + s / 2` on each axis. -/
theorem C15_points_in_cell_cube (env : Env) (pc : PointCloud) (s : ℚ) (hs : 0 < s) :
    ∀ c ∈ (generateChunks env pc s).chunks,
      (∃ idx : IVec3,
        c.centerPosition = ⟨(idx.x + 1 / 2) * s, (idx.y + 1 / 2) * s, (idx.z + 1 / 2) * s⟩)
      ∧ ∀ p ∈ c.points,
          (c.centerPosition.x - s / 2
              ≤ (transformPoint (modelMatrix env pc.position pc.rotation pc.scale) p.position).x
            ∧ (transformPoint (modelMatrix env pc.position pc.rotation pc.scale) p.position).x
              < c.centerPosition.x + s / 2)
          ∧ (c.centerPosition.y - s / 2
              ≤ (transformPoint (modelMatrix env pc.position pc.rotation pc.scale) p.position).y
            ∧ (transformPoint (modelMatrix env pc.position pc.rotation pc.scale) p.position).y
              < c.centerPosition.y + s / 2)
          ∧ (c.centerPosition.z - s / 2
              ≤ (transformPoint (modelMatrix env pc.position pc.rotation pc.scale) p.position).z
            ∧ (transformPoint (modelMatrix env pc.position pc.rotation pc.scale) p.position).z
              < c.centerPosition.z + s / 2) := by
  intro c hc
  obtain ⟨e, he, hpts, hcen⟩ := generateChunks_chunk_mem env pc s c hc
  refine ⟨⟨e.1, hcen⟩, ?_⟩
  intro p hp
  rw [hpts] at hp
  have hkey := (buildChunkMap_entry _ _ _ e he).2 p hp
  have hx : ⌊(transformPoint (modelMatrix env pc.position pc.rotation pc.scale) p.position).x / s⌋
      = e.1.x := congrArg IVec3.x hkey
  have hy : ⌊(transformPoint (modelMatrix env pc.position pc.rotation pc.scale) p.position).y / s⌋
      = e.1.y := congrArg IVec3.y hkey
  have hz : ⌊(transformPoint (modelMatrix env pc.position pc.rotation pc.scale) p.position).z / s⌋
      = e.1.z := congrArg IVec3.z hkey
  rw [hcen]
  exact ⟨floor_cell _ s _ hs hx, floor_cell _ s _ hs hy, floor_cell _ s _ hs hz⟩

/-- Witness of C15 at the three-point example cloud with `s = 2`. -/
theorem C15_points_in_cell_cube_witness :
    (0 : ℚ) < 2 ∧ ∀ c ∈ (generateChunks refEnv exampleCloud 2).chunks,
      ∃ idx : IVec3,
        c.centerPosition = ⟨(idx.x + 1 / 2) * 2, (idx.y + 1 / 2) * 2, (idx.z + 1 / 2) * 2⟩ :=
  ⟨by norm_num, fun c hc =>
    (C15_points_in_cell_cube refEnv exampleCloud 2 (by norm_num) c hc).1⟩

/-! ### Bounding radius -/

theorem distSq_nonneg (a b : Vec3) : 0 ≤ distSq a b := by
  simp only [distSq, Vec3.dot, Vec3.sub]
  exact add_nonneg (add_nonneg (mul_self_nonneg _) (mul_self_nonneg _)) (mul_self_nonneg _)

theorem foldl_max_spec {α : Type} (f : α → ℚ) (l : List α) (acc : ℚ) :
    acc ≤ l.foldl (fun a p => max a (f p)) acc
      ∧ (∀ p ∈ l, f p ≤ l.foldl (fun a p => max a (f p)) acc)
      ∧ (l.foldl (fun a p => max a (f p)) acc = acc
          ∨ ∃ p ∈ l, f p = l.foldl (fun a p => max a (f p)) acc) := by
  induction l generalizing acc with
  | nil => simp
  | cons a rest ih =>
    obtain ⟨h1, h2, h3⟩ := ih (max acc (f a))
    rw [List.foldl_cons]
    refine ⟨(le_max_left _ _).trans h1, ?_, ?_⟩
    · intro p hp
      rcases List.mem_cons.mp hp with rfl | hp
      · exact (le_max_right _ _).trans h1
      · exact h2 p hp
    · rcases h3 with h3 | ⟨p, hp, h3⟩
      · rcases max_choice acc (f a) with hm | hm
        · left; rw [h3, hm]
        · right; exact ⟨a, List.mem_cons_self _ _, by rw [h3, hm]⟩
      · right; exact ⟨p, List.mem_cons_of_mem _ hp, h3⟩

/-- The value `maxDistSq` is the largest squared distance of a non-empty
point list to the centre. -/
theorem maxDistSq_spec (center : Vec3) (points : List PointCloudPoint) (hne : points ≠ []) :
    (∀ p ∈ points, distSq p.position center ≤ maxDistSq center points)
      ∧ ∃ p ∈ points, distSq p.position center = maxDistSq center points := by
  obtain ⟨h1, h2, h3⟩ := foldl_max_spec (fun p : PointCloudPoint => distSq p.position center) points 0
  have hdef : maxDistSq center points
      = points.foldl (fun a p => max a (distSq p.position center)) 0 := rfl
  rw [hdef]
  refine ⟨h2, ?_⟩
  rcases h3 with h3 | h3
  · obtain ⟨p, hp⟩ := List.exists_mem_of_ne_nil points hne
    refine ⟨p, hp, ?_⟩
    rw [h3]
    exact le_antisymm (h3 ▸ h2 p hp) (distSq_nonneg _ _)
  · exact h3

theorem generateChunks_chunk_radius (env : Env) (pc : PointCloud) (s : ℚ) (c : PointCloudChunk)
    (hc : c ∈ (generateChunks env pc s).chunks) :
    c.points ≠ [] ∧ c.boundingRadius = env.sqrt (maxDistSq c.centerPosition c.points) := by
  rw [generateChunks_chunks, List.mem_map] at hc
  obtain ⟨⟨i, e⟩, hie, rfl⟩ := hc
  exact ⟨(buildChunkMap_entry _ _ _ e (List.snd_mem_of_mem_enum hie)).1, rfl⟩

/-- C16: for every chunk produced by `generateChunks`, `boundingRadius` is the
square root of `M`, the largest squared Euclidean distance from the original,
untransformed position of one of the chunk's points to the chunk centre; where
the square root is exact (`sqrt M ^ 2 = M`), `boundingRadius ^ 2` is that
largest squared distance: every contained point's raw position is within
`boundingRadius` of the centre and at least one attains it. -/
theorem C16_bounding_radius_raw (env : Env) (pc : PointCloud) (s : ℚ) :
    ∀ c ∈ (generateChunks env pc s).chunks,
      0 ≤ c.boundingRadius
      ∧ ∃ M : ℚ, c.boundingRadius = env.sqrt M
          ∧ (∀ p ∈ c.points, distSq p.position c.centerPosition ≤ M)
          ∧ (∃ p ∈ c.points, distSq p.position c.centerPosition = M)
          ∧ (env.sqrt M ^ 2 = M →
              c.boundingRadius ^ 2 = M
              ∧ (∀ p ∈ c.points, distSq p.position c.centerPosition ≤ c.boundingRadius ^ 2)
              ∧ ∃ p ∈ c.points, distSq p.position c.centerPosition = c.boundingRadius ^ 2) := by
  intro c hc
  obtain ⟨hne, hr⟩ := generateChunks_chunk_radius env pc s c hc
  obtain ⟨hle, hmax⟩ := maxDistSq_spec c.centerPosition c.points hne
  refine ⟨hr ▸ env.sqrt_nonneg _, maxDistSq c.centerPosition c.points, hr, hle, hmax, ?_⟩
  intro hexact
  rw [hr, hexact]
  exact ⟨rfl, hle, hmax⟩

theorem unitOffsetCloud_chunks :
    (generateChunks refEnv unitOffsetCloud 10).chunks
      = [makeChunk refEnv 10 0 (⟨0, 0, 0⟩, unitOffsetCloud.points)] := by
  have hmap : buildChunkMap (modelMatrix refEnv unitOffsetCloud.position unitOffsetCloud.rotation
      unitOffsetCloud.scale) 10 unitOffsetCloud.points = [(⟨0, 0, 0⟩, unitOffsetCloud.points)] := by
    decide!
  rw [generateChunks_chunks, hmap]
  rfl

theorem refSqrt_one : refSqrt 1 = 1 := by
  have h : ⌊(1 : ℚ) * 2 ^ 48⌋.toNat = 2 ^ 24 * 2 ^ 24 := by decide!
  unfold refSqrt
  rw [h, Nat.sqrt_eq]
  norm_num

theorem unitOffsetCloud_distSq :
    distSq (⟨5, 5, 6⟩ : Vec3) (chunkCenter ⟨0, 0, 0⟩ 10) = 1 := by
  decide!

/-- Witness of C16: the chunk of the cloud whose point is one unit off the
cell centre; the largest squared distance is 1, the square root is exact
there, and the bounding radius is 1. -/
theorem C16_bounding_radius_raw_witness :
    ∃ c ∈ (generateChunks refEnv unitOffsetCloud 10).chunks,
      refEnv.sqrt 1 ^ 2 = 1 ∧ c.boundingRadius ^ 2 = 1
      ∧ (∀ p ∈ c.points, distSq p.position c.centerPosition ≤ c.boundingRadius ^ 2)
      ∧ ∃ p ∈ c.points, distSq p.position c.centerPosition = c.boundingRadius ^ 2 := by
  have hmem : makeChunk refEnv 10 0 (⟨0, 0, 0⟩, unitOffsetCloud.points)
      ∈ (generateChunks refEnv unitOffsetCloud 10).chunks := by
    rw [unitOffsetCloud_chunks]
    exact List.mem_singleton_self _
  have hsq : refEnv.sqrt 1 ^ 2 = 1 := by
    rw [show refEnv.sqrt 1 = refSqrt 1 from rfl, refSqrt_one]
    norm_num
  obtain ⟨_, M, _, _, ⟨p, hp, hpM⟩, hexact⟩ :=
    C16_bounding_radius_raw refEnv unitOffsetCloud 10 _ hmem
  have hp' : p = ⟨⟨5, 5, 6⟩, 1, ⟨1, 1, 1⟩⟩ := List.mem_singleton.mp hp
  have hM : M = 1 := by
    rw [← hpM, hp']
    exact unitOffsetCloud_distSq
  rw [hM] at hexact
  obtain ⟨h1, h2, h3⟩ := hexact hsq
  exact ⟨_, hmem, hsq, h1, h2, h3⟩

theorem shiftedCentreCloud_chunkMap :
    buildChunkMap (modelMatrix refEnv shiftedCentreCloud.position shiftedCentreCloud.rotation
      shiftedCentreCloud.scale) 10 shiftedCentreCloud.points
      = [(⟨0, 0, 0⟩, shiftedCentreCloud.points)] := by
  decide!

theorem shiftedCentreCloud_maxDistSq :
    maxDistSq (chunkCenter ⟨0, 0, 0⟩ 10) shiftedCentreCloud.points = 0 := by
  decide!

/-- C17, at the failing input: the cloud is moved by one unit along X and its
only stored point is `(5, 5, 5)`; the chunk has centre `(5, 5, 5)` and bounding
radius 0, while the transformed point `(6, 5, 5)` is at squared distance 1 from
the centre. -/
theorem C17_radius_ignores_transform :
    (generateChunks refEnv shiftedCentreCloud 10).chunks.map
        (fun c => (c.points.map (fun p => p.position), c.centerPosition, c.boundingRadius))
        = [([⟨5, 5, 5⟩], ⟨5, 5, 5⟩, 0)]
      ∧ transformPoint
          (modelMatrix refEnv shiftedCentreCloud.position shiftedCentreCloud.rotation
            shiftedCentreCloud.scale) ⟨5, 5, 5⟩ = ⟨6, 5, 5⟩
      ∧ distSq ⟨6, 5, 5⟩ ⟨5, 5, 5⟩ = 1
      ∧ (0 : ℚ) ^ 2 < 1 := by
  refine ⟨?_, by decide!, by decide!, by norm_num⟩
  rw [generateChunks_chunks, shiftedCentreCloud_chunkMap]
  simp only [List.enum_cons, List.enum_nil, List.enumFrom_cons, List.enumFrom_nil,
    List.map_cons, List.map_nil, makeChunk, generateLODLevels, shiftedCentreCloud_maxDistSq,
    refEnv.sqrt_zero]
  decide!

/-! ### Stored intensity and field ranges -/

/-- Record `i` of the exported bytes is the encoding of point `i`. -/
theorem exportToBinary_record (env : Env) (pc : PointCloud) (i : Nat) (h : i < pc.points.length) :
    ((BINARY_MAGIC_NUMBER ++ le32 (pc.points.length % 2 ^ 32)
        ++ pc.points.flatMap (encodePoint (modelMatrix env pc.position pc.rotation pc.scale))).drop
          (8 + 19 * i)).take 19
      = encodePoint (modelMatrix env pc.position pc.rotation pc.scale) (pc.points.get ⟨i, h⟩) := by
  have hdrop : (BINARY_MAGIC_NUMBER ++ le32 (pc.points.length % 2 ^ 32)
      ++ pc.points.flatMap (encodePoint (modelMatrix env pc.position pc.rotation pc.scale))).drop
        (8 + 19 * i)
      = (pc.points.drop i).flatMap
          (encodePoint (modelMatrix env pc.position pc.rotation pc.scale)) := by
    rw [← records_drop, Nat.mul_comm i 19, ← List.drop_drop]
    rfl
  rw [hdrop, List.drop_eq_getElem_cons h, List.flatMap_cons, List.take_append_eq_append_take,
    encodePoint_length, Nat.sub_self, List.take_zero, List.append_nil,
    List.take_of_length_le (encodePoint_length _ _).le]
  rfl

theorem slice_of_record (bytes : List Nat) (off a n : Nat) (h : a + n ≤ 19) :
    (bytes.drop (off + a)).take n = (((bytes.drop off).take 19).drop a).take n := by
  rw [List.drop_take, List.take_take, List.drop_drop, Nat.min_eq_left (by omega), Nat.add_comm]

theorem encodePoint_intensity (transform : Mat4) (p : PointCloudPoint) :
    ((encodePoint transform p).drop 12).take 4
      = le32 (toU32 (roundFloat (p.intensity * 1000))) := by
  simp [encodePoint, vec3Bytes, f32Bytes, le32]

/-- The stored intensity of a point with intensity in `[0, 1]`: the integer
part of the `float` product, which is the integer part of the exact product or
one more. -/
theorem toU32_of_unit (x : ℚ) (h0 : 0 ≤ x) (h1 : x ≤ 1) :
    toU32 (roundFloat (x * 1000)) = ⌊roundFloat (x * 1000)⌋.toNat
      ∧ ((⌊roundFloat (x * 1000)⌋.toNat : ℕ) : ℚ) ≤ roundFloat (x * 1000)
      ∧ roundFloat (x * 1000) < ((⌊roundFloat (x * 1000)⌋.toNat : ℕ) : ℚ) + 1
      ∧ ⌊x * 1000⌋.toNat ≤ ⌊roundFloat (x * 1000)⌋.toNat
      ∧ ⌊roundFloat (x * 1000)⌋.toNat ≤ ⌊x * 1000⌋.toNat + 1
      ∧ ⌊roundFloat (x * 1000)⌋.toNat ≤ 1000 := by
  have hq : 0 ≤ x * 1000 := by linarith
  have hr : 0 ≤ roundFloat (x * 1000) := roundFloat_nonneg _ hq
  have hr1 : roundFloat (x * 1000) ≤ 1000 := by
    have h := roundFloat_mono (x * 1000) ((1000 : ℕ) : ℚ) hq (by push_cast; linarith)
    rwa [roundFloat_natCast 1000 (by norm_num), Nat.cast_ofNat] at h
  have hfl : 0 ≤ ⌊roundFloat (x * 1000)⌋ := Int.floor_nonneg.mpr hr
  have hcast : ((⌊roundFloat (x * 1000)⌋.toNat : ℕ) : ℚ) = (⌊roundFloat (x * 1000)⌋ : ℚ) := by
    rw [← Int.cast_natCast, Int.toNat_of_nonneg hfl]
  have hle : (⌊roundFloat (x * 1000)⌋ : ℚ) ≤ roundFloat (x * 1000) := Int.floor_le _
  have hlt : roundFloat (x * 1000) < (⌊roundFloat (x * 1000)⌋ : ℚ) + 1 := Int.lt_floor_add_one _
  have hbound : ⌊roundFloat (x * 1000)⌋.toNat ≤ 1000 := by
    have : ((⌊roundFloat (x * 1000)⌋.toNat : ℕ) : ℚ) ≤ (1000 : ℕ) := by
      rw [hcast]; push_cast; linarith
    exact_mod_cast this
  obtain ⟨hlo, hhi⟩ := toSize_roundFloat (x * 1000) hq (by norm_num; linarith)
  refine ⟨?_, by rw [hcast]; exact hle, by rw [hcast]; exact hlt, hlo, hhi, hbound⟩
  unfold toU32 toSize
  exact Nat.mod_eq_of_lt (by omega)

theorem decodePoint_intensity (data : List Nat) :
    (decodePoint data).intensity = (fromLe32 ((data.drop 12).take 4) : ℚ) / 1000 := rfl

/-- C18 fails: for intensity `0.0007f` the stored value is 0, the integer part
of the product 0.7, and not 1, the nearest integer. -/
theorem C18_round_counterexample :
    faintCloud.points.map (fun p => p.intensity) = [3006477 / 4294967296]
      ∧ ((0 : ℚ) ≤ 3006477 / 4294967296 ∧ (3006477 : ℚ) / 4294967296 ≤ 1)
      ∧ (exportToBinary refEnv faintCloud true).map
          (fun bytes => fromLe32 ((bytes.drop (8 + 12)).take 4)) = some 0
      ∧ roundNearest (3006477 / 4294967296 * 1000) = 1
      ∧ roundNearest (roundFloat (3006477 / 4294967296 * 1000)) = 1 := by
  refine ⟨rfl, ⟨by norm_num, by norm_num⟩, ?_, by decide!, by decide!⟩
  rw [exportToBinary_eq]
  decide!

/-- C18 as amended: for every point with intensity in `[0, 1]`,
`exportToBinary` stores in the record's intensity field the 32-bit integer part
(not the nearest integer) of the `float` product `intensity * 1000`; this is
the integer part of the exact product or, when the `float` product rounds up to
the next integer, one more; and `loadFromBinary` decodes a stored value `v` as
`v / 1000`. -/
theorem C18_intensity_truncated (env : Env) (pc : PointCloud) (i : Nat)
    (h : i < pc.points.length)
    (h0 : 0 ≤ (pc.points.get ⟨i, h⟩).intensity) (h1 : (pc.points.get ⟨i, h⟩).intensity ≤ 1) :
    (∃ bytes, exportToBinary env pc true = some bytes
        ∧ (bytes.drop (8 + 19 * i + 12)).take 4
            = le32 ⌊roundFloat ((pc.points.get ⟨i, h⟩).intensity * 1000)⌋.toNat
        ∧ fromLe32 ((bytes.drop (8 + 19 * i + 12)).take 4)
            = ⌊roundFloat ((pc.points.get ⟨i, h⟩).intensity * 1000)⌋.toNat)
      ∧ ((⌊roundFloat ((pc.points.get ⟨i, h⟩).intensity * 1000)⌋.toNat : ℕ) : ℚ)
          ≤ roundFloat ((pc.points.get ⟨i, h⟩).intensity * 1000)
      ∧ roundFloat ((pc.points.get ⟨i, h⟩).intensity * 1000)
          < ((⌊roundFloat ((pc.points.get ⟨i, h⟩).intensity * 1000)⌋.toNat : ℕ) : ℚ) + 1
      ∧ ⌊(pc.points.get ⟨i, h⟩).intensity * 1000⌋.toNat
          ≤ ⌊roundFloat ((pc.points.get ⟨i, h⟩).intensity * 1000)⌋.toNat
      ∧ ⌊roundFloat ((pc.points.get ⟨i, h⟩).intensity * 1000)⌋.toNat
          ≤ ⌊(pc.points.get ⟨i, h⟩).intensity * 1000⌋.toNat + 1
      ∧ ∀ data : List Nat,
          (decodePoint data).intensity = (fromLe32 ((data.drop 12).take 4) : ℚ) / 1000 := by
  obtain ⟨hu, hle, hlt, hlo, hhi, hb⟩ := toU32_of_unit _ h0 h1
  have hfield : ((BINARY_MAGIC_NUMBER ++ le32 (pc.points.length % 2 ^ 32)
      ++ pc.points.flatMap (encodePoint (modelMatrix env pc.position pc.rotation pc.scale))).drop
        (8 + 19 * i + 12)).take 4
      = le32 ⌊roundFloat ((pc.points.get ⟨i, h⟩).intensity * 1000)⌋.toNat := by
    rw [slice_of_record _ (8 + 19 * i) 12 4 (by norm_num), exportToBinary_record env pc i h,
      encodePoint_intensity, hu]
  refine ⟨⟨_, exportToBinary_eq env pc, hfield, ?_⟩, hle, hlt, hlo, hhi, decodePoint_intensity⟩
  rw [hfield]
  exact fromLe32_le32 _ (by omega)

theorem halfPercentCloud_stored :
    ⌊roundFloat ((5368709 : ℚ) / 1073741824 * 1000)⌋.toNat = 5
      ∧ ⌊(5368709 : ℚ) / 1073741824 * 1000⌋.toNat = 4 := by
  decide!

/-- Witness of the amended C18 at the cloud whose point has intensity `0.005f`:
the exact product is a little below 5, the `float` product is 5, and the stored
value is 5. -/
theorem C18_intensity_truncated_witness :
    ∃ h : 0 < halfPercentCloud.points.length,
      (0 : ℚ) ≤ (halfPercentCloud.points.get ⟨0, h⟩).intensity
      ∧ (halfPercentCloud.points.get ⟨0, h⟩).intensity ≤ 1
      ∧ (halfPercentCloud.points.get ⟨0, h⟩).intensity = 5368709 / 1073741824
      ∧ ⌊(5368709 : ℚ) / 1073741824 * 1000⌋.toNat = 4
      ∧ ∃ bytes, exportToBinary refEnv halfPercentCloud true = some bytes
          ∧ fromLe32 ((bytes.drop (8 + 19 * 0 + 12)).take 4) = 5 :=
  ⟨by decide, by decide!, by decide!, rfl, halfPercentCloud_stored.2,
    (C18_intensity_truncated refEnv halfPercentCloud 0 (by decide) (by decide!) (by decide!)).1.imp
      (fun _ hb => ⟨hb.1, hb.2.2.trans halfPercentCloud_stored.1⟩)⟩

theorem loadFromBinary_of_loop (env : Env) (uninit : List Nat) (fuel : Nat) (bytes : List Nat)
    (hmagic : readInto uninit 4 bytes = BINARY_MAGIC_NUMBER) :
    loadFromBinary env uninit fuel (some bytes) =
      (readLoop fuel (fromLe32 (readInto (uninit.drop 4) 4 (bytes.drop 4))) (bytes.drop 8) 0 []).map
        (fun points => finishLoad env
          { PointCloud.empty with
            points := points, position := ⟨0, 0, 0⟩, rotation := ⟨0, 0, 0⟩, scale := ⟨1, 1, 1⟩ }) := by
  simp only [loadFromBinary, hmagic, ne_eq, not_true_eq_false, if_false]
  cases readLoop fuel (fromLe32 (readInto (uninit.drop 4) 4 (bytes.drop 4))) (bytes.drop 8) 0 [] <;> rfl

theorem loadFromBinary_points_mem (env : Env) (uninit : List Nat) (fuel : Nat) (bytes : List Nat)
    (loaded : PointCloud) (h : loadFromBinary env uninit fuel (some bytes) = some loaded)
    (q : PointCloudPoint) (hq : q ∈ loaded.points) :
    ∃ numPoints, ∃ points,
      readLoop fuel numPoints (bytes.drop 8) 0 [] = some points ∧ q ∈ points := by
  by_cases hmagic : readInto uninit 4 bytes = BINARY_MAGIC_NUMBER
  · rw [loadFromBinary_of_loop env uninit fuel bytes hmagic] at h
    cases hloop : readLoop fuel (fromLe32 (readInto (uninit.drop 4) 4 (bytes.drop 4)))
      (bytes.drop 8) 0 [] with
    | none => rw [hloop] at h; cases h
    | some points =>
      rw [hloop] at h
      simp only [Option.map_some', Option.some.injEq] at h
      subst h
      exact ⟨_, points, hloop, hq⟩
  · simp only [loadFromBinary, ne_eq, hmagic, not_false_eq_true, if_true, Option.some.injEq] at h
    subst h
    cases hq

theorem getD_lt (data : List Nat) (i : Nat) (h : ∀ b ∈ data, b < 256) : data.getD i 0 < 256 := by
  rw [List.getD_eq_getElem?_getD]
  cases hi : data[i]? with
  | none => simp
  | some b =>
    simp only [Option.getD_some]
    exact h b (List.getElem?_mem hi)

/-- A decoded record has non-negative intensity and colour channels in `[0, 1]`. -/
theorem decodePoint_range (data : List Nat) (h : ∀ b ∈ data, b < 256) :
    0 ≤ (decodePoint data).intensity
      ∧ (0 ≤ (decodePoint data).color.x ∧ (decodePoint data).color.x ≤ 1)
      ∧ (0 ≤ (decodePoint data).color.y ∧ (decodePoint data).color.y ≤ 1)
      ∧ (0 ≤ (decodePoint data).color.z ∧ (decodePoint data).color.z ≤ 1) := by
  have hsub : ∀ b ∈ (data.drop 12).drop 4, b < 256 :=
    fun b hb => h b (List.mem_of_mem_drop (List.mem_of_mem_drop hb))
  have h0 := getD_lt _ 0 hsub
  have h1 := getD_lt _ 1 hsub
  have h2 := getD_lt _ 2 hsub
  have c0 : (((data.drop 12).drop 4).getD 0 0 : ℚ) ≤ 255 := by exact_mod_cast Nat.lt_succ_iff.mp h0
  have c1 : (((data.drop 12).drop 4).getD 1 0 : ℚ) ≤ 255 := by exact_mod_cast Nat.lt_succ_iff.mp h1
  have c2 : (((data.drop 12).drop 4).getD 2 0 : ℚ) ≤ 255 := by exact_mod_cast Nat.lt_succ_iff.mp h2
  simp only [decodePoint, Vec3.divScalar]
  refine ⟨by positivity, ⟨by positivity, ?_⟩, ⟨by positivity, ?_⟩, ⟨by positivity, ?_⟩⟩
  · rw [div_le_one (by norm_num)]; exact c0
  · rw [div_le_one (by norm_num)]; exact c1
  · rw [div_le_one (by norm_num)]; exact c2

theorem processBinaryChunk_mem (n : Nat) (data : List Nat) (q : PointCloudPoint)
    (hq : q ∈ processBinaryChunk n data) : ∃ i, q = decodePoint (data.drop (19 * i)) := by
  rw [processBinaryChunk_stride, List.mem_map] at hq
  obtain ⟨i, _, rfl⟩ := hq
  exact ⟨i, rfl⟩

theorem readLoop_mem (fuel numPoints : Nat) (rest : List Nat) (total : Nat)
    (acc points : List PointCloudPoint)
    (h : readLoop fuel numPoints rest total acc = some points) (q : PointCloudPoint)
    (hq : q ∈ points) :
    q ∈ acc ∨ ∃ data : List Nat, (∀ b ∈ data, b ∈ rest) ∧ q = decodePoint data := by
  induction fuel generalizing rest total acc with
  | zero =>
    rw [readLoop] at h
    split at h
    · cases h
    · simp only [Option.some.injEq] at h
      subst h
      exact Or.inl hq
  | succ fuel ih =>
    rw [readLoop] at h
    split at h
    · simp only at h
      split at h
      · rcases ih _ _ _ h with hacc | ⟨data, hdata, rfl⟩
        · rcases List.mem_append.mp hacc with hacc | hnew
          · exact Or.inl hacc
          · obtain ⟨i, rfl⟩ := processBinaryChunk_mem _ _ _ hnew
            exact Or.inr ⟨_, fun b hb => List.mem_of_mem_take (List.mem_of_mem_drop hb), rfl⟩
        · exact Or.inr ⟨data, fun b hb => List.mem_of_mem_drop (hdata b hb), rfl⟩
      · exact ih _ _ _ h
    · simp only [Option.some.injEq] at h
      subst h
      exact Or.inl hq

theorem processLines_mem (env : Env) (k c : Nat) (lines : List (List Char)) (q : PointCloudPoint)
    (hq : q ∈ processLines env k c lines) :
    ∃ line ∈ lines, ∃ f, env.sscanf line = some f ∧ q = pointOfFields f := by
  rw [processLines_eq, List.mem_filterMap] at hq
  obtain ⟨e, he, hparse⟩ := hq
  have hline : e.2 ∈ lines := List.snd_mem_of_mem_enumFrom (List.mem_of_mem_filter he)
  unfold parseLine at hparse
  split at hparse
  · cases hparse
  · cases hscan : env.sscanf e.2 with
    | none => rw [hscan] at hparse; cases hparse
    | some f =>
      rw [hscan] at hparse
      simp only [Option.map_some', Option.some.injEq] at hparse
      exact ⟨e.2, hline, f, hscan, hparse.symm⟩

theorem channel_range (r : Int) : (0 ≤ (r : ℚ) / 255 ∧ (r : ℚ) / 255 ≤ 1) ↔ (0 ≤ r ∧ r ≤ 255) := by
  rw [div_le_one (by norm_num), div_nonneg_iff]
  constructor
  · rintro ⟨h1 | h1, h2⟩
    · exact ⟨by exact_mod_cast h1.1, by exact_mod_cast h2⟩
    · norm_num at h1
  · rintro ⟨h1, h2⟩
    exact ⟨Or.inl ⟨by exact_mod_cast h1, by norm_num⟩, by exact_mod_cast h2⟩

theorem loadPointCloudFile_points_mem (env : Env) (content : List Char) (k : Nat)
    (q : PointCloudPoint) (hq : q ∈ (loadPointCloudFile env (some content) k).points) :
    ∃ f : ScanFields, q = pointOfFields f := by
  rw [loadPointCloudFile_points, List.mem_flatMap] at hq
  obtain ⟨block, _, hq⟩ := hq
  obtain ⟨_, _, f, _, hf⟩ := processLines_mem env k 0 (getLines block) q hq
  exact ⟨f, hf⟩

theorem brightContainer_load :
    loadFromBinary refEnv [] 1 (some brightContainer)
      = some (finishLoad refEnv
          { PointCloud.empty with
            points := [⟨⟨0, 0, 0⟩, 2, ⟨0, 0, 0⟩⟩],
            position := ⟨0, 0, 0⟩, rotation := ⟨0, 0, 0⟩, scale := ⟨1, 1, 1⟩ }) := by
  have hloop : readLoop 1 (fromLe32 (readInto (([] : List Nat).drop 4) 4 (brightContainer.drop 4)))
      (brightContainer.drop 8) 0 [] = some [⟨⟨0, 0, 0⟩, 2, ⟨0, 0, 0⟩⟩] := by
    decide!
  rw [loadFromBinary_of_loop refEnv [] 1 brightContainer (by decide), hloop]
  rfl

theorem brightLine_points :
    processChunk refEnv 1 brightLine = [pointOfFields ⟨0, 0, 0, 0, 300, 0, 0⟩] := by
  decide!

/-- C19 fails: the text line with red field 300 loads with a red channel of
300/255, above 1, and the binary record with stored intensity 2000 loads with
intensity 2, above 1. -/
theorem C19_range_counterexample :
    (loadPointCloudFile refEnv (some brightLine) 1).points.map (fun p => p.color.x) = [300 / 255]
      ∧ (1 : ℚ) < 300 / 255
      ∧ (∃ loaded, loadFromBinary refEnv [] 1 (some brightContainer) = some loaded
          ∧ loaded.points.map (fun p => p.intensity) = [2])
      ∧ (1 : ℚ) < 2 := by
  refine ⟨?_, by norm_num, ⟨_, brightContainer_load, rfl⟩, by norm_num⟩
  rw [loadPointCloudFile_single_block refEnv brightLine 1 (by decide), brightLine_points]
  simp [pointOfFields]

/-- C19 as amended: every point produced by `loadPointCloudFile` has intensity
exactly 1 and colour channels `r / 255`, `g / 255`, `b / 255` for the scanned
integers, each in `[0, 1]` exactly when its integer is in `0..255`; every
point produced by `loadFromBinary` has its three colour channels in `[0, 1]`
and a non-negative intensity, which is at most 1 exactly when the stored
32-bit value is at most 1000. -/
theorem C19_loaded_ranges (env : Env) (uninit : List Nat) (fuel : Nat) (content : List Char)
    (k : Nat) (bytes : List Nat) (loaded : PointCloud) (hbytes : ∀ b ∈ bytes, b < 256)
    (hload : loadFromBinary env uninit fuel (some bytes) = some loaded) :
    (∀ q ∈ (loadPointCloudFile env (some content) k).points,
        q.intensity = 1
        ∧ ∃ f : ScanFields,
            q.color = ⟨(f.r : ℚ) / 255, (f.g : ℚ) / 255, (f.b : ℚ) / 255⟩
            ∧ ((0 ≤ q.color.x ∧ q.color.x ≤ 1) ↔ (0 ≤ f.r ∧ f.r ≤ 255))
            ∧ ((0 ≤ q.color.y ∧ q.color.y ≤ 1) ↔ (0 ≤ f.g ∧ f.g ≤ 255))
            ∧ ((0 ≤ q.color.z ∧ q.color.z ≤ 1) ↔ (0 ≤ f.b ∧ f.b ≤ 255)))
      ∧ (∀ q ∈ loaded.points,
          0 ≤ q.intensity
          ∧ (0 ≤ q.color.x ∧ q.color.x ≤ 1) ∧ (0 ≤ q.color.y ∧ q.color.y ≤ 1)
          ∧ (0 ≤ q.color.z ∧ q.color.z ≤ 1))
      ∧ ∀ data : List Nat,
          (decodePoint data).intensity ≤ 1 ↔ fromLe32 ((data.drop 12).take 4) ≤ 1000 := by
  refine ⟨?_, ?_, ?_⟩
  · intro q hq
    obtain ⟨f, rfl⟩ := loadPointCloudFile_points_mem env content k q hq
    exact ⟨rfl, f, rfl, channel_range f.r, channel_range f.g, channel_range f.b⟩
  · intro q hq
    obtain ⟨numPoints, points, hloop, hqp⟩ :=
      loadFromBinary_points_mem env uninit fuel bytes loaded hload q hq
    rcases readLoop_mem fuel numPoints (bytes.drop 8) 0 [] points hloop q hqp with h | h
    · cases h
    · obtain ⟨data, hdata, rfl⟩ := h
      exact decodePoint_range data (fun b hb => hbytes b (List.mem_of_mem_drop (hdata b hb)))
  · intro data
    rw [decodePoint_intensity, div_le_one (by norm_num)]
    exact_mod_cast Iff.rfl

/-- Witness of the amended C19: the container with stored intensity 2000. -/
theorem C19_loaded_ranges_witness :
    (∀ b ∈ brightContainer, b < 256)
      ∧ ∃ loaded, loadFromBinary refEnv [] 1 (some brightContainer) = some loaded
          ∧ ∀ q ∈ loaded.points,
              0 ≤ q.intensity
              ∧ (0 ≤ q.color.x ∧ q.color.x ≤ 1) ∧ (0 ≤ q.color.y ∧ q.color.y ≤ 1)
              ∧ (0 ≤ q.color.z ∧ q.color.z ≤ 1) :=
  ⟨by decide, _, brightContainer_load,
    (C19_loaded_ranges refEnv [] 1 brightLine 1 brightContainer _ (by decide)
      brightContainer_load).2.1⟩

/-! ### One transform for both exports and the partition -/

/-- The matrix the three functions build step by step is the product
translate * rotateX * rotateY * rotateZ * scale. -/
theorem modelMatrix_eq_specTransform (env : Env) (position rotation scale : Vec3) :
    modelMatrix env position rotation scale = specTransform env position rotation scale := by
  simp only [modelMatrix, specTransform, Mat4.translate, Mat4.rotate, Mat4.scale, Mat4.identity,
    Mat4.mul, Mat4.mulVec, translationMatrix, rotationXMatrix, rotationYMatrix, rotationZMatrix,
    scaleMatrix, Vec4.smul, Vec4.add, Vec3.mulScalar, Mat4.mk.injEq, Vec4.mk.injEq]
  refine ⟨⟨?_, ?_, ?_, ?_⟩, ⟨?_, ?_, ?_, ?_⟩, ⟨?_, ?_, ?_, ?_⟩, ⟨?_, ?_, ?_, ?_⟩⟩ <;> ring

theorem encodePoint_position (transform : Mat4) (p : PointCloudPoint) :
    (encodePoint transform p).take 12 = vec3Bytes (transformPoint transform p.position) := by
  simp [encodePoint, vec3Bytes, f32Bytes, le32]

theorem encodePoint_attributes (transform : Mat4) (p : PointCloudPoint) :
    ((encodePoint transform p).drop 12).take 7
      = le32 (toU32 (roundFloat (p.intensity * 1000)))
          ++ [toU8 (roundFloat (p.color.x * 255)), toU8 (roundFloat (p.color.y * 255)),
              toU8 (roundFloat (p.color.z * 255))] := by
  simp [encodePoint, vec3Bytes, f32Bytes, le32]

/-- The position and the attribute bytes of record `i` of the exported file. -/
theorem exportToBinary_fields (env : Env) (pc : PointCloud) (i : Nat) (h : i < pc.points.length) :
    ∃ bytes, exportToBinary env pc true = some bytes
      ∧ (bytes.drop (8 + 19 * i)).take 12
          = vec3Bytes (transformPoint (modelMatrix env pc.position pc.rotation pc.scale)
              (pc.points.get ⟨i, h⟩).position)
      ∧ (bytes.drop (8 + 19 * i + 12)).take 7
          = le32 (toU32 (roundFloat ((pc.points.get ⟨i, h⟩).intensity * 1000)))
              ++ [toU8 (roundFloat ((pc.points.get ⟨i, h⟩).color.x * 255)),
                  toU8 (roundFloat ((pc.points.get ⟨i, h⟩).color.y * 255)),
                  toU8 (roundFloat ((pc.points.get ⟨i, h⟩).color.z * 255))] := by
  refine ⟨_, exportToBinary_eq env pc, ?_, ?_⟩
  · have h0 := slice_of_record (BINARY_MAGIC_NUMBER ++ le32 (pc.points.length % 2 ^ 32)
      ++ pc.points.flatMap (encodePoint (modelMatrix env pc.position pc.rotation pc.scale)))
      (8 + 19 * i) 0 12 (by norm_num)
    rw [Nat.add_zero, List.drop_zero] at h0
    rw [h0, exportToBinary_record env pc i h, encodePoint_position]
  · rw [slice_of_record _ (8 + 19 * i) 12 7 (by norm_num), exportToBinary_record env pc i h,
      encodePoint_attributes]

theorem exportToXYZ_eq (env : Env) (pc : PointCloud) :
    exportToXYZ env pc true
      = some (pc.points.map (xyzLine (modelMatrix env pc.position pc.rotation pc.scale))) := rfl

theorem xyzLine_position (transform : Mat4) (p : PointCloudPoint) :
    (⟨(xyzLine transform p).x, (xyzLine transform p).y, (xyzLine transform p).z⟩ : Vec3)
      = transformPoint transform p.position := rfl

theorem chunkIndexOf_eq (transform : Mat4) (s : ℚ) (p : PointCloudPoint) :
    chunkIndexOf transform s p = ((transformPoint transform p.position).divScalar s).floor := rfl

theorem xyzLine_attributes (transform : Mat4) (p : PointCloudPoint) :
    ((xyzLine transform p).intensity, (xyzLine transform p).r, (xyzLine transform p).g,
        (xyzLine transform p).b)
      = (toInt (roundFloat (p.intensity * 1000)), toInt (roundFloat (p.color.x * 255)),
          toInt (roundFloat (p.color.y * 255)), toInt (roundFloat (p.color.z * 255))) := rfl

/-- C20: `exportToXYZ`, `exportToBinary` and `generateChunks` use one and the
same transform of `(position, rotation, scale)`, the product
translate * rotateX * rotateY * rotateZ * scale; the position either export
writes for a point is that transform applied to the point, the same position
whose cell `generateChunks` stores the point in; and the intensity and colour
written do not depend on the transform. -/
theorem C20_same_transform (env : Env) (pc : PointCloud) (s : ℚ) :
    modelMatrix env pc.position pc.rotation pc.scale
        = specTransform env pc.position pc.rotation pc.scale
      ∧ (exportToXYZ env pc true).map (fun lines => lines.map (fun l => (⟨l.x, l.y, l.z⟩ : Vec3)))
          = some (pc.points.map (fun p =>
              transformPoint (specTransform env pc.position pc.rotation pc.scale) p.position))
      ∧ (∀ i, ∀ h : i < pc.points.length,
          ∃ bytes, exportToBinary env pc true = some bytes
            ∧ (bytes.drop (8 + 19 * i)).take 12
                = vec3Bytes (transformPoint (specTransform env pc.position pc.rotation pc.scale)
                    (pc.points.get ⟨i, h⟩).position))
      ∧ (∀ c ∈ (generateChunks env pc s).chunks, ∀ p ∈ c.points,
          c.centerPosition
            = chunkCenter
                ((transformPoint (specTransform env pc.position pc.rotation pc.scale)
                  p.position).divScalar s).floor s)
      ∧ (∀ pc' : PointCloud, pc'.points = pc.points →
          (exportToXYZ env pc' true).map
              (fun lines => lines.map (fun l => (l.intensity, l.r, l.g, l.b)))
            = (exportToXYZ env pc true).map
                (fun lines => lines.map (fun l => (l.intensity, l.r, l.g, l.b))))
      ∧ (∀ pc' : PointCloud, pc'.points = pc.points →
          ∀ i, i < pc.points.length →
            ∃ bytes bytes', exportToBinary env pc true = some bytes
              ∧ exportToBinary env pc' true = some bytes'
              ∧ (bytes'.drop (8 + 19 * i + 12)).take 7 = (bytes.drop (8 + 19 * i + 12)).take 7) := by
  have hT := modelMatrix_eq_specTransform env pc.position pc.rotation pc.scale
  refine ⟨hT, ?_, ?_, ?_, ?_, ?_⟩
  · rw [exportToXYZ_eq, ← hT]
    generalize modelMatrix env pc.position pc.rotation pc.scale = T
    simp only [Option.map_some', List.map_map, Function.comp_def, xyzLine_position]
  · intro i h
    obtain ⟨bytes, hb, hpos, -⟩ := exportToBinary_fields env pc i h
    rw [hT] at hpos
    exact ⟨bytes, hb, hpos⟩
  · intro c hc p hp
    obtain ⟨e, he, hpts, hcen⟩ := generateChunks_chunk_mem env pc s c hc
    rw [hpts] at hp
    have hkey := (buildChunkMap_entry _ _ _ e he).2 p hp
    rw [hcen, ← hkey, ← hT, chunkIndexOf_eq]
  · intro pc' hpts
    rw [exportToXYZ_eq, exportToXYZ_eq, hpts]
    generalize modelMatrix env pc.position pc.rotation pc.scale = T
    generalize modelMatrix env pc'.position pc'.rotation pc'.scale = T'
    simp only [Option.map_some', List.map_map, Function.comp_def, xyzLine_attributes]
  · intro pc' hpts i hi
    have hi' : i < pc'.points.length := by rw [hpts]; exact hi
    obtain ⟨bytes, hb, -, hattr⟩ := exportToBinary_fields env pc i hi
    obtain ⟨bytes', hb', -, hattr'⟩ := exportToBinary_fields env pc' i hi'
    refine ⟨bytes, bytes', hb, hb', ?_⟩
    rw [hattr, hattr']
    simp only [List.get_eq_getElem, hpts]

/-! ### Rebuild and outline geometry -/

theorem generateChunks_chunkData (env : Env) (pc : PointCloud) (s : ℚ) :
    (generateChunks env pc s).chunks.map chunkData =
      (buildChunkMap (modelMatrix env pc.position pc.rotation pc.scale) s pc.points).map
        (fun e => (e.2, chunkCenter e.1 s, env.sqrt (maxDistSq (chunkCenter e.1 s) e.2))) := by
  rw [generateChunks_chunks, List.map_map]
  conv_rhs => rw [← List.enum_map_snd (buildChunkMap _ s pc.points), List.map_map]
  rfl

theorem modelMatrix_withShuffle (env : Env) (sh : Nat → Shuffle) (position rotation scale : Vec3) :
    modelMatrix { env with shuffle := sh } position rotation scale
      = modelMatrix env position rotation scale := rfl

theorem generateChunks_outline (env : Env) (pc : PointCloud) (s : ℚ) :
    (generateChunks env pc s).chunkOutlineVertices =
      ((generateChunks env pc s).chunks.map chunkData).flatMap (fun d => chunkOutline d.2.1 s) := by
  rw [List.flatMap_def, List.map_map]
  rfl

theorem generateChunks_chunkSize (env : Env) (pc : PointCloud) (s : ℚ) :
    (generateChunks env pc s).chunkSize = s := rfl

/-- C21: `generateChunks` is a destructive, deterministic rebuild: two clouds
with the same points and transform, partitioned with the same `chunkSize`
(whatever chunks, outline and `chunkSize` they held before, and whatever the
random sampling returns), end with the same chunks (points, centre and
bounding radius of each), the same outline and `chunkSize` field; calling
`generateChunks` a second time with the same `chunkSize` gives the same
chunks as calling it once. -/
theorem C21_deterministic_rebuild (env : Env) (sh : Nat → Shuffle) (pc pc' : PointCloud) (s : ℚ)
    (hpts : pc'.points = pc.points) (hpos : pc'.position = pc.position)
    (hrot : pc'.rotation = pc.rotation) (hscale : pc'.scale = pc.scale) :
    (generateChunks { env with shuffle := sh } pc' s).chunks.map chunkData
        = (generateChunks env pc s).chunks.map chunkData
      ∧ (generateChunks { env with shuffle := sh } pc' s).chunkOutlineVertices
          = (generateChunks env pc s).chunkOutlineVertices
      ∧ (generateChunks { env with shuffle := sh } pc' s).chunkSize = s
      ∧ (generateChunks env pc s).chunkSize = s
      ∧ (generateChunks { env with shuffle := sh } (generateChunks env pc s) s).chunks.map chunkData
          = (generateChunks env pc s).chunks.map chunkData := by
  have hsame : ∀ q q' : PointCloud, q'.points = q.points → q'.position = q.position →
      q'.rotation = q.rotation → q'.scale = q.scale →
      (generateChunks { env with shuffle := sh } q' s).chunks.map chunkData
        = (generateChunks env q s).chunks.map chunkData := by
    intro q q' h1 h2 h3 h4
    rw [generateChunks_chunkData, generateChunks_chunkData, modelMatrix_withShuffle, h1, h2, h3, h4]
  refine ⟨hsame pc pc' hpts hpos hrot hscale, ?_, rfl, rfl, ?_⟩
  · rw [generateChunks_outline, generateChunks_outline, hsame pc pc' hpts hpos hrot hscale]
  · exact hsame pc (generateChunks env pc s) rfl rfl rfl rfl

/-- Witness of C21: the example cloud, fresh and with stale chunks, under two
different outcomes of the random sampling. -/
theorem C21_deterministic_rebuild_witness :
    exampleCloudStale.points = exampleCloud.points
      ∧ exampleCloudStale.chunks ≠ exampleCloud.chunks
      ∧ (generateChunks { refEnv with shuffle := fun _ => identityShuffle } exampleCloudStale 2).chunks.map
            chunkData
          = (generateChunks refEnv exampleCloud 2).chunks.map chunkData
      ∧ (generateChunks { refEnv with shuffle := fun _ => identityShuffle } exampleCloudStale 2).chunkSize
          = 2 :=
  ⟨rfl, by simp [exampleCloudStale, exampleCloud, PointCloud.empty],
    (C21_deterministic_rebuild refEnv (fun _ => identityShuffle) exampleCloud exampleCloudStale 2
      rfl rfl rfl rfl).1,
    (C21_deterministic_rebuild refEnv (fun _ => identityShuffle) exampleCloud exampleCloudStale 2
      rfl rfl rfl rfl).2.2.1⟩

theorem chunkOutline_eq_corners (c : Vec3) (s : ℚ) :
    chunkOutline c s = outlineCorners.map (corner c s) := by
  simp [chunkOutline, outlineCorners, corner, Vec3.sub, Vec3.add, Vec3.splat]

theorem segments_map_corner (c : Vec3) (s : ℚ) (l : List (Bool × Bool × Bool)) :
    segments (l.map (corner c s))
      = (cornerPairs l).map (fun e => (corner c s e.1, corner c s e.2)) := by
  induction l using cornerPairs.induct with
  | case1 a b rest ih => simp [segments, cornerPairs, ih]
  | case2 l h =>
    match l, h with
    | [], _ => rfl
    | [a], _ => rfl
    | a :: b :: rest, h => exact absurd rfl (h a b rest)

theorem corner_x_eq (c : Vec3) (s : ℚ) (hs : 0 < s) (a b : Bool × Bool × Bool) :
    (corner c s a).x = (corner c s b).x ↔ a.1 = b.1 := by
  obtain ⟨a1, a2, a3⟩ := a
  obtain ⟨b1, b2, b3⟩ := b
  cases a1 <;> cases b1 <;> simp [corner] <;> intro h <;> linarith

theorem corner_y_eq (c : Vec3) (s : ℚ) (hs : 0 < s) (a b : Bool × Bool × Bool) :
    (corner c s a).y = (corner c s b).y ↔ a.2.1 = b.2.1 := by
  obtain ⟨a1, a2, a3⟩ := a
  obtain ⟨b1, b2, b3⟩ := b
  cases a2 <;> cases b2 <;> simp [corner] <;> intro h <;> linarith

theorem corner_z_eq (c : Vec3) (s : ℚ) (hs : 0 < s) (a b : Bool × Bool × Bool) :
    (corner c s a).z = (corner c s b).z ↔ a.2.2 = b.2.2 := by
  obtain ⟨a1, a2, a3⟩ := a
  obtain ⟨b1, b2, b3⟩ := b
  cases a3 <;> cases b3 <;> simp [corner] <;> intro h <;> linarith

theorem corner_inj (c : Vec3) (s : ℚ) (hs : 0 < s) (a b : Bool × Bool × Bool)
    (h : corner c s a = corner c s b) : a = b := by
  have hx := (corner_x_eq c s hs a b).mp (congrArg Vec3.x h)
  have hy := (corner_y_eq c s hs a b).mp (congrArg Vec3.y h)
  have hz := (corner_z_eq c s hs a b).mp (congrArg Vec3.z h)
  exact Prod.ext hx (Prod.ext hy hz)

theorem diffCount_corner (c : Vec3) (s : ℚ) (hs : 0 < s) (a b : Bool × Bool × Bool) :
    diffCount (corner c s a) (corner c s b) = bitDiff a b := by
  simp only [diffCount, bitDiff, corner_x_eq c s hs, corner_y_eq c s hs, corner_z_eq c s hs]

theorem cornerPairs_edges :
    ∀ e ∈ cornerPairs outlineCorners, bitDiff e.1 e.2 = 1 := by
  decide

theorem cornerPairs_distinct :
    (cornerPairs outlineCorners).Pairwise (fun e f => e ≠ f ∧ e ≠ (f.2, f.1)) := by
  decide

theorem cornerPairs_complete :
    ∀ a b : Bool × Bool × Bool, bitDiff a b = 1 →
      (a, b) ∈ cornerPairs outlineCorners ∨ (b, a) ∈ cornerPairs outlineCorners := by
  decide

theorem flatMap_slice {α β : Type} (f : α → List β) (n : Nat) (hlen : ∀ a, (f a).length = n)
    (l : List α) (i : Nat) (h : i < l.length) :
    ((l.flatMap f).drop (n * i)).take n = f (l.get ⟨i, h⟩) := by
  induction l generalizing i with
  | nil => cases h
  | cons a rest ih =>
    cases i with
    | zero =>
      rw [Nat.mul_zero, List.drop_zero, List.flatMap_cons, List.take_append_eq_append_take, hlen,
        Nat.sub_self, List.take_zero, List.append_nil, List.take_of_length_le (hlen a).le]
      rfl
    | succ i =>
      have hi : i < rest.length := Nat.lt_of_succ_lt_succ h
      have hdrop : (f a).drop (n * (i + 1)) = [] :=
        List.drop_of_length_le (by rw [hlen, Nat.mul_succ]; omega)
      rw [List.flatMap_cons, List.drop_append_eq_append_drop, hdrop, List.nil_append, hlen,
        show n * (i + 1) - n = n * i by rw [Nat.mul_succ]; omega, ih i hi]
      rfl

/-- C22: for every chunk centre `c` and every `chunkSize s > 0` the 24
vertices emitted for the chunk form 12 segments that are exactly the 12
distinct edges of the axis-aligned cube of side `s` centred at `c`: every
endpoint has each coordinate equal to `c - s / 2` or `c + s / 2`, the two
endpoints of a segment differ in exactly one coordinate, no edge is emitted
twice (in either direction), and every edge of the cube is emitted; chunk `i`
of a cloud owns the vertices `24 * i .. 24 * i + 23` of the outline. -/
theorem C22_outline_cube_edges (c : Vec3) (s : ℚ) (hs : 0 < s) :
    (chunkOutline c s).length = 24
      ∧ (segments (chunkOutline c s)).length = 12
      ∧ (∀ v ∈ chunkOutline c s,
          (v.x = c.x - s / 2 ∨ v.x = c.x + s / 2) ∧ (v.y = c.y - s / 2 ∨ v.y = c.y + s / 2)
            ∧ (v.z = c.z - s / 2 ∨ v.z = c.z + s / 2))
      ∧ (∀ e ∈ segments (chunkOutline c s), diffCount e.1 e.2 = 1)
      ∧ (segments (chunkOutline c s)).Pairwise (fun e f => e ≠ f ∧ e ≠ (f.2, f.1))
      ∧ (∀ a b : Bool × Bool × Bool, diffCount (corner c s a) (corner c s b) = 1 →
          (corner c s a, corner c s b) ∈ segments (chunkOutline c s)
            ∨ (corner c s b, corner c s a) ∈ segments (chunkOutline c s))
      ∧ ∀ (pc : PointCloud) (i : Nat) (h : i < pc.chunks.length),
          (((generateChunkOutlineVertices pc).chunkOutlineVertices).drop (24 * i)).take 24
            = chunkOutline (pc.chunks.get ⟨i, h⟩).centerPosition pc.chunkSize := by
  have hseg := segments_map_corner c s outlineCorners
  rw [← chunkOutline_eq_corners] at hseg
  refine ⟨rfl, ?_, ?_, ?_, ?_, ?_, ?_⟩
  · rw [hseg, List.length_map]
    rfl
  · intro v hv
    rw [chunkOutline_eq_corners, List.mem_map] at hv
    obtain ⟨⟨b1, b2, b3⟩, -, rfl⟩ := hv
    cases b1 <;> cases b2 <;> cases b3 <;> simp [corner]
  · intro e he
    rw [hseg, List.mem_map] at he
    obtain ⟨p, hp, rfl⟩ := he
    rw [diffCount_corner c s hs]
    exact cornerPairs_edges p hp
  · rw [hseg, List.pairwise_map]
    refine cornerPairs_distinct.imp ?_
    intro e f hef
    refine ⟨fun h => hef.1 ?_, fun h => hef.2 ?_⟩
    · exact Prod.ext (corner_inj c s hs _ _ (congrArg Prod.fst h))
        (corner_inj c s hs _ _ (congrArg Prod.snd h))
    · exact Prod.ext (corner_inj c s hs _ _ (congrArg Prod.fst h))
        (corner_inj c s hs _ _ (congrArg Prod.snd h))
  · intro a b hab
    rw [diffCount_corner c s hs] at hab
    rw [hseg]
    rcases cornerPairs_complete a b hab with h | h
    · exact Or.inl (List.mem_map.mpr ⟨(a, b), h, rfl⟩)
    · exact Or.inr (List.mem_map.mpr ⟨(b, a), h, rfl⟩)
  · intro pc i h
    exact flatMap_slice (fun chunk : PointCloudChunk => chunkOutline chunk.centerPosition pc.chunkSize)
      24 (fun _ => rfl) pc.chunks i h

/-- Witness of C22: the cube of side 10 centred at `(5, 5, 5)`. -/
theorem C22_outline_cube_edges_witness :
    (0 : ℚ) < 10
      ∧ (segments (chunkOutline ⟨5, 5, 5⟩ 10)).length = 12
      ∧ (∀ e ∈ segments (chunkOutline ⟨5, 5, 5⟩ 10), diffCount e.1 e.2 = 1)
      ∧ (segments (chunkOutline ⟨5, 5, 5⟩ 10)).Pairwise (fun e f => e ≠ f ∧ e ≠ (f.2, f.1)) :=
  ⟨by norm_num, (C22_outline_cube_edges ⟨5, 5, 5⟩ 10 (by norm_num)).2.1,
    (C22_outline_cube_edges ⟨5, 5, 5⟩ 10 (by norm_num)).2.2.2.1,
    (C22_outline_cube_edges ⟨5, 5, 5⟩ 10 (by norm_num)).2.2.2.2.1⟩

/-! ### Voxel grid and level quotas -/

theorem clampInt_range (v : Int) : 0 ≤ clampInt v 0 7 ∧ clampInt v 0 7 ≤ 7 := by
  unfold clampInt
  omega

theorem clamp_index_lt (x y z : Int) :
    (clampInt x 0 7 + clampInt y 0 7 * 8 + clampInt z 0 7 * 8 * 8).toNat < 512 := by
  have hx := clampInt_range x
  have hy := clampInt_range y
  have hz := clampInt_range z
  omega

theorem gridIndex_eq (mn mx : Vec3) (p : PointCloudPoint) :
    gridIndex mn mx p =
      (axisBin mn.x mx.x p.position.x + axisBin mn.y mx.y p.position.y * 8
        + axisBin mn.z mx.z p.position.z * 8 * 8).toNat := rfl

theorem axisBin_range (lo hi v : ℚ) : 0 ≤ axisBin lo hi v ∧ axisBin lo hi v ≤ 7 :=
  clampInt_range _

theorem gridIndex_lt (mn mx : Vec3) (p : PointCloudPoint) : gridIndex mn mx p < gridCells := by
  rw [gridIndex_eq]
  exact clamp_index_lt _ _ _

theorem axisBin_max (lo hi : ℚ) (h : lo < hi) : axisBin lo hi hi = 7 := by
  unfold axisBin
  have hne : hi - lo ≠ 0 := sub_ne_zero.mpr (ne_of_gt h)
  rw [div_self hne]
  decide!

theorem axisBin_flat (lo v : ℚ) : axisBin lo lo v = 0 := by
  unfold axisBin
  rw [sub_self, div_zero]
  decide!

theorem axisBin_min (lo hi : ℚ) : axisBin lo hi lo = 0 := by
  unfold axisBin
  rw [sub_self, zero_div]
  decide!

theorem pushAt_length {α : Type} (g : List (List α)) (i : Nat) (p : α) :
    (pushAt g i p).length = g.length := by
  induction g generalizing i with
  | nil => rfl
  | cons c cs ih =>
    cases i with
    | zero => rfl
    | succ i => simp [pushAt, ih]

theorem pushAt_flatten {α : Type} (g : List (List α)) (i : Nat) (p : α) (h : i < g.length) :
    (pushAt g i p).flatten.Perm (g.flatten ++ [p]) := by
  induction g generalizing i with
  | nil => simp at h
  | cons c cs ih =>
    cases i with
    | zero =>
      simp only [pushAt, List.flatten_cons, List.append_assoc]
      exact List.Perm.append_left c List.perm_append_comm
    | succ i =>
      simp only [pushAt, List.flatten_cons, List.append_assoc]
      exact List.Perm.append_left c (ih i (by simpa using h))

theorem pushAt_getD {α : Type} (g : List (List α)) (i c : Nat) (p : α) (h : i < g.length) :
    (pushAt g i p).getD c [] = if c = i then g.getD c [] ++ [p] else g.getD c [] := by
  induction g generalizing i c with
  | nil => simp at h
  | cons a cs ih =>
    cases i with
    | zero =>
      cases c with
      | zero => simp [pushAt]
      | succ c => simp [pushAt]
    | succ i =>
      cases c with
      | zero => simp [pushAt]
      | succ c =>
        have := ih i c (by simpa using h)
        simpa [pushAt] using this

/-- Filling a grid of `n` cells with a cell function `f` that stays below `n`. -/
theorem foldl_pushAt {α : Type} (f : α → Nat) (n : Nat) (hf : ∀ p, f p < n) (l : List α) :
    (l.foldl (fun grid p => pushAt grid (f p) p) (List.replicate n [])).length = n
      ∧ (l.foldl (fun grid p => pushAt grid (f p) p) (List.replicate n [])).flatten.Perm l
      ∧ ∀ c, (l.foldl (fun grid p => pushAt grid (f p) p) (List.replicate n [])).getD c []
          = l.filter (fun p => f p = c) := by
  induction l using List.reverseRecOn with
  | nil =>
    refine ⟨by simp, by simp, ?_⟩
    intro c
    simp [List.getD_eq_getElem?_getD, List.getElem?_replicate]
    split <;> rfl
  | append_singleton l p ih =>
    obtain ⟨hlen, hperm, hget⟩ := ih
    rw [List.foldl_append]
    simp only [List.foldl_cons, List.foldl_nil]
    have hlt : f p < (l.foldl (fun grid p => pushAt grid (f p) p) (List.replicate n [])).length := by
      rw [hlen]
      exact hf p
    refine ⟨by rw [pushAt_length, hlen], ?_, ?_⟩
    · exact (pushAt_flatten _ _ _ hlt).trans (List.Perm.append_right [p] hperm)
    · intro c
      rw [pushAt_getD _ _ _ _ hlt, hget, List.filter_append]
      by_cases hc : c = f p
      · rw [if_pos hc]
        simp [hc]
      · rw [if_neg hc]
        have : ¬ f p = c := fun h => hc h.symm
        simp [this]

theorem buildGrid_length (points : List PointCloudPoint) :
    (buildGrid points).length = gridCells :=
  (foldl_pushAt _ gridCells (fun p => gridIndex_lt _ _ p) points).1

theorem buildGrid_flatten (points : List PointCloudPoint) :
    (buildGrid points).flatten.Perm points :=
  (foldl_pushAt _ gridCells (fun p => gridIndex_lt _ _ p) points).2.1

theorem buildGrid_getD (points : List PointCloudPoint) (c : Nat) :
    (buildGrid points).getD c [] =
      points.filter (fun p => gridIndex (chunkBounds points).1 (chunkBounds points).2 p = c) :=
  (foldl_pushAt _ gridCells (fun p => gridIndex_lt _ _ p) points).2.2 c

theorem range_flatMap_getD {α : Type} (l : List (List α)) :
    (List.range l.length).flatMap (fun c => l.getD c []) = l.flatten := by
  induction l with
  | nil => rfl
  | cons a rest ih =>
    rw [List.length_cons, List.range_succ_eq_map, List.flatMap_cons, List.flatMap_map]
    simp only [List.getD_cons_zero, List.flatten_cons]
    congr 1

theorem range_map_getD_length {α : Type} (l : List (List α)) :
    ((List.range l.length).map (fun c => (l.getD c []).length)).sum = l.flatten.length := by
  rw [← range_flatMap_getD, List.length_flatMap]
  rfl

theorem lodLevelPoints_of_gt (rng : Shuffle) (thresholds : List Nat)
    (points : List PointCloudPoint) (grid lodPoints : List (List PointCloudPoint)) (level : Nat)
    (h : ¬ points.length ≤ thresholds.getD level 0) :
    lodLevelPoints rng thresholds points grid lodPoints level =
      (List.range gridCells).flatMap (fun cell =>
        selectCell rng level cell (grid.getD cell [])
          (cellQuota (min (thresholds.getD level 0) ((lodPoints.getD (level - 1) []).length / 2))
            cell)) := by
  unfold lodLevelPoints
  rw [if_neg h]
  rfl

/-- Level `L` of `lodPointLists` is the loop body run on a list of levels whose
entry `L - 1` is the level computed before. -/
theorem lodPointLists_level (rng : Shuffle) (chunk : PointCloudChunk) (L : Nat)
    (h1 : 1 ≤ L) (h4 : L ≤ 4) :
    ∃ lod : List (List PointCloudPoint),
      (lodPointLists rng chunk).getD L [] =
          lodLevelPoints rng (lodThresholds chunk.boundingRadius) chunk.points
            (buildGrid chunk.points) lod L
        ∧ lod.getD (L - 1) [] = (lodPointLists rng chunk).getD (L - 1) [] := by
  obtain ⟨l1, l2, l3, l4, hl, e1, e2, e3, e4⟩ := lodPointLists_eq rng chunk
  rw [hl]
  interval_cases L
  · exact ⟨_, e1, rfl⟩
  · exact ⟨_, e2, rfl⟩
  · exact ⟨_, e3, rfl⟩
  · exact ⟨_, e4, rfl⟩

theorem lodPointCounts_getD (rng : Shuffle) (chunk : PointCloudChunk) (k : Nat) :
    (generateLODLevels rng chunk).lodPointCounts.getD k 0
      = ((lodPointLists rng chunk).getD k []).length := by
  simp only [generateLODLevels, List.getD_eq_getElem?_getD, List.getElem?_map]
  cases (lodPointLists rng chunk)[k]? <;> rfl

theorem lodVBOs_getD (rng : Shuffle) (chunk : PointCloudChunk) (k : Nat) :
    (generateLODLevels rng chunk).lodVBOs.getD k none
      = if ((lodPointLists rng chunk).getD k []).isEmpty then none
        else some ((lodPointLists rng chunk).getD k []) := by
  simp only [generateLODLevels, List.getD_eq_getElem?_getD, List.getElem?_map]
  cases (lodPointLists rng chunk)[k]? <;> rfl

/-- C23: for every chunk with `n` points and every level `L` in `1..4` whose
threshold (the integer part of the `float` product of `600000`, `100000`,
`50000`, `30000` and the bounding radius) is at least `n`, the level's point list is the chunk's whole
point list, its count is `n`, and the uploaded buffer holds the whole list. -/
theorem C23_level_is_full_chunk (rng : Shuffle) (chunk : PointCloudChunk) (L : Nat)
    (h1 : 1 ≤ L) (h4 : L ≤ 4)
    (hn : chunk.points.length ≤ (lodThresholds chunk.boundingRadius).getD L 0) :
    (lodThresholds chunk.boundingRadius).drop 1
        = [600000, 100000, 50000, 30000].map
            (fun m => toSize (roundFloat (m * chunk.boundingRadius)))
      ∧ (lodPointLists rng chunk).getD L [] = chunk.points
      ∧ (lodPointLists rng chunk).getD L [] = (lodPointLists rng chunk).getD 0 []
      ∧ (generateLODLevels rng chunk).lodPointCounts.getD L 0 = chunk.points.length
      ∧ (generateLODLevels rng chunk).lodVBOs.getD L none
          = if chunk.points.isEmpty then none else some chunk.points := by
  obtain ⟨lod, hlod, -⟩ := lodPointLists_level rng chunk L h1 h4
  have hL : (lodPointLists rng chunk).getD L [] = chunk.points := by
    rw [hlod]
    exact lodLevelPoints_of_le _ _ _ _ _ _ hn
  have h0 : (lodPointLists rng chunk).getD 0 [] = chunk.points := by
    obtain ⟨l1, l2, l3, l4, hl, -⟩ := lodPointLists_eq rng chunk
    rw [hl]
    rfl
  refine ⟨rfl, hL, by rw [hL, h0], ?_, ?_⟩
  · rw [lodPointCounts_getD, hL]
  · rw [lodVBOs_getD, hL]

theorem lodThresholds_getD_four (r : ℚ) :
    (lodThresholds r).getD 4 0 = toSize (roundFloat (30000 * r)) := rfl

theorem offCentrePointChunk_threshold :
    offCentrePointChunk.points.length
      ≤ (lodThresholds offCentrePointChunk.boundingRadius).getD 4 0 := by
  have hlen : offCentrePointChunk.points.length = 1 := rfl
  rw [lodThresholds_getD_four, hlen, one_le_toSize]
  exact one_le_roundFloat _ (by norm_num [offCentrePointChunk])

/-- Witness of C23: level 4 of a one-point chunk of bounding radius 1. -/
theorem C23_level_is_full_chunk_witness :
    offCentrePointChunk.points.length
        ≤ (lodThresholds offCentrePointChunk.boundingRadius).getD 4 0
      ∧ (lodPointLists refShuffle offCentrePointChunk).getD 4 [] = offCentrePointChunk.points
      ∧ (generateLODLevels refShuffle offCentrePointChunk).lodPointCounts.getD 4 0 = 1 :=
  ⟨offCentrePointChunk_threshold,
    (C23_level_is_full_chunk refShuffle offCentrePointChunk 4 (by decide) (by decide)
      offCentrePointChunk_threshold).2.1,
    (C23_level_is_full_chunk refShuffle offCentrePointChunk 4 (by decide) (by decide)
      offCentrePointChunk_threshold).2.2.2.1⟩

/-- C24: for every chunk and level `L` in `1..4` whose threshold is below the
chunk's point count, the target is `min (t_L, lodPointCounts[L-1] / 2)`, voxel
cell `c` is sampled with the quota `target / 512 + (1 if c < target mod 512)`,
the 512 quotas add up to the target, the level's count is the sum over the cells
of `min (cell size, quota)`, and the count never exceeds the target. -/
theorem C24_level_quota (rng : Shuffle) (chunk : PointCloudChunk) (L : Nat)
    (h1 : 1 ≤ L) (h4 : L ≤ 4)
    (ht : (lodThresholds chunk.boundingRadius).getD L 0 < chunk.points.length) :
    let counts := (generateLODLevels rng chunk).lodPointCounts
    let target := min ((lodThresholds chunk.boundingRadius).getD L 0) (counts.getD (L - 1) 0 / 2)
    (lodPointLists rng chunk).getD L [] =
        (List.range 512).flatMap (fun c =>
          selectCell rng L c ((buildGrid chunk.points).getD c [])
            (target / 512 + (if c < target % 512 then 1 else 0)))
      ∧ ((List.range 512).map (fun c => target / 512 + (if c < target % 512 then 1 else 0))).sum
          = target
      ∧ counts.getD L 0 =
          ((List.range 512).map (fun c =>
            min ((buildGrid chunk.points).getD c []).length
              (target / 512 + (if c < target % 512 then 1 else 0)))).sum
      ∧ counts.getD L 0 ≤ target := by
  intro counts target
  obtain ⟨lod, hlod, hprev⟩ := lodPointLists_level rng chunk L h1 h4
  have hgt : ¬ chunk.points.length ≤ (lodThresholds chunk.boundingRadius).getD L 0 := by omega
  have htarget : target
      = min ((lodThresholds chunk.boundingRadius).getD L 0) ((lod.getD (L - 1) []).length / 2) := by
    show min _ (counts.getD (L - 1) 0 / 2) = _
    rw [lodPointCounts_getD, hprev]
  have hlist : (lodPointLists rng chunk).getD L [] =
      (List.range 512).flatMap (fun c =>
        selectCell rng L c ((buildGrid chunk.points).getD c [])
          (target / 512 + (if c < target % 512 then 1 else 0))) := by
    rw [hlod, lodLevelPoints_of_gt _ _ _ _ _ _ hgt, htarget]
    rfl
  have hcount : counts.getD L 0 =
      ((List.range 512).map (fun c =>
        min ((buildGrid chunk.points).getD c []).length
          (target / 512 + (if c < target % 512 then 1 else 0)))).sum := by
    show (generateLODLevels rng chunk).lodPointCounts.getD L 0 = _
    rw [lodPointCounts_getD, hlist]
    simp only [List.length_flatMap, Function.comp_def, selectCell_length]
  refine ⟨hlist, sum_quota_target target, hcount, ?_⟩
  rw [hcount]
  exact (list_sum_map_le _ _ _ (fun c _ => Nat.min_le_right _ _)).trans (sum_quota_target target).le

/-- Witness of C24: level 1 of a three-point chunk whose threshold is 2; the
target is `min (2, 3 / 2) = 1`. -/
theorem C24_level_quota_witness :
    (lodThresholds threePointChunk.boundingRadius).getD 1 0 < threePointChunk.points.length
      ∧ (generateLODLevels refShuffle threePointChunk).lodPointCounts.getD 1 0 ≤ 1 :=
  ⟨by decide!, by
    have h := (C24_level_quota refShuffle threePointChunk 1 (by decide) (by decide)
      (by decide!)).2.2.2
    have e : (generateLODLevels refShuffle threePointChunk).lodPointCounts.getD 0 0 = 3 := by
      rw [lodPointCounts_getD]
      obtain ⟨l1, l2, l3, l4, hl, -⟩ := lodPointLists_eq refShuffle threePointChunk
      rw [hl]
      rfl
    have t : (lodThresholds threePointChunk.boundingRadius).getD 1 0 = 2 := by decide!
    simp only [Nat.sub_self, e, t] at h
    exact h⟩

theorem subperm_append {α : Type} {a b c d : List α} (h1 : a.Subperm b) (h2 : c.Subperm d) :
    (a ++ c).Subperm (b ++ d) := by
  obtain ⟨a', pa, sa⟩ := h1
  obtain ⟨c', pc, sc⟩ := h2
  exact ⟨a' ++ c', pa.append pc, sa.append sc⟩

theorem subperm_filterMap {α β : Type} (f : α → Option β) {a b : List α} (h : a.Subperm b) :
    (a.filterMap f).Subperm (b.filterMap f) := by
  obtain ⟨a', pa, sa⟩ := h
  exact ⟨a'.filterMap f, pa.filterMap f, sa.filterMap f⟩

theorem subperm_flatMap {ι α : Type} (l : List ι) (f g : ι → List α)
    (h : ∀ i ∈ l, (f i).Subperm (g i)) : (l.flatMap f).Subperm (l.flatMap g) := by
  induction l with
  | nil => exact List.Subperm.refl _
  | cons a rest ih =>
    rw [List.flatMap_cons, List.flatMap_cons]
    exact subperm_append (h a (List.mem_cons_self _ _))
      (ih (fun i hi => h i (List.mem_cons_of_mem _ hi)))

theorem range_filterMap_getElem? {α : Type} (g : List α) :
    (List.range g.length).filterMap (fun i => g[i]?) = g := by
  induction g with
  | nil => rfl
  | cons a rest ih =>
    rw [List.length_cons, List.range_succ_eq_map, List.filterMap_cons]
    simp only [List.getElem?_cons_zero, List.filterMap_map]
    congr 1
    have e : ((fun i => (a :: rest)[i]?) ∘ Nat.succ) = (fun i => rest[i]?) := by
      funext i
      simp
    rw [e]
    exact ih

/-- The indices a cell draws: distinct, below the cell size, as many as the
quota. -/
theorem chosen_indices (rng : Shuffle) (level cell n q : Nat) :
    ((rng.run level cell (List.range n)).take q).Nodup
      ∧ (∀ i ∈ (rng.run level cell (List.range n)).take q, i < n)
      ∧ ((rng.run level cell (List.range n)).take q).length = min q n
      ∧ ((rng.run level cell (List.range n)).take q).Subperm (List.range n) := by
  have hp := rng.perm level cell (List.range n)
  refine ⟨?_, ?_, ?_, ?_⟩
  · exact (List.take_sublist _ _).nodup (hp.nodup_iff.mpr (List.nodup_range n))
  · intro i hi
    exact shuffle_index_lt rng level cell n i (List.mem_of_mem_take hi)
  · rw [List.length_take, hp.length_eq, List.length_range]
  · exact (List.take_sublist _ _).subperm.trans hp.subperm

theorem selectCell_subperm (rng : Shuffle) (level cell : Nat) (g : List PointCloudPoint)
    (q : Nat) : (selectCell rng level cell g q).Subperm g := by
  unfold selectCell
  split
  · exact List.Subperm.refl _
  · have h := subperm_filterMap (fun i => g[i]?) (chosen_indices rng level cell g.length q).2.2.2
    rw [range_filterMap_getElem?] at h
    exact h

theorem lodLevelPoints_subperm (rng : Shuffle) (thresholds : List Nat)
    (points : List PointCloudPoint) (lodPoints : List (List PointCloudPoint)) (level : Nat) :
    (lodLevelPoints rng thresholds points (buildGrid points) lodPoints level).Subperm points := by
  unfold lodLevelPoints
  split
  · exact List.Subperm.refl _
  · refine (subperm_flatMap _ _ (fun c => (buildGrid points).getD c [])
      (fun c _ => selectCell_subperm _ _ _ _ _)).trans ?_
    have h := range_flatMap_getD (buildGrid points)
    rw [buildGrid_length] at h
    rw [h]
    exact (buildGrid_flatten points).subperm

theorem lodPointLists_subperm (rng : Shuffle) (chunk : PointCloudChunk) (L : Nat) :
    ((lodPointLists rng chunk).getD L []).Subperm chunk.points := by
  obtain ⟨l1, l2, l3, l4, hl, e1, e2, e3, e4⟩ := lodPointLists_eq rng chunk
  have s1 : l1.Subperm chunk.points := e1 ▸ lodLevelPoints_subperm _ _ _ _ _
  have s2 : l2.Subperm chunk.points := e2 ▸ lodLevelPoints_subperm _ _ _ _ _
  have s3 : l3.Subperm chunk.points := e3 ▸ lodLevelPoints_subperm _ _ _ _ _
  have s4 : l4.Subperm chunk.points := e4 ▸ lodLevelPoints_subperm _ _ _ _ _
  rw [hl]
  match L with
  | 0 => exact List.Subperm.refl _
  | 1 => exact s1
  | 2 => exact s2
  | 3 => exact s3
  | 4 => exact s4
  | n + 5 => exact List.nil_subperm

/-- C25: for every chunk, every level and every outcome of the shuffle, the
level's point list is a sub-multiset of the chunk's point list, so no point
occurs more often in a level than in the chunk; the same holds for the uploaded
buffers; inside a voxel cell the chosen indices are distinct and in range, a
cell within its quota contributes all its points, and a larger cell contributes
the points at the chosen indices. -/
theorem C25_levels_are_submultisets (rng : Shuffle) (chunk : PointCloudChunk) :
    (∀ L, ((lodPointLists rng chunk).getD L []).Subperm chunk.points)
      ∧ (∀ L p, ((lodPointLists rng chunk).getD L []).count p ≤ chunk.points.count p)
      ∧ (∀ lst, some lst ∈ (generateLODLevels rng chunk).lodVBOs → lst.Subperm chunk.points)
      ∧ (∀ level cell (g : List PointCloudPoint) q, g.length ≤ q →
          selectCell rng level cell g q = g)
      ∧ (∀ level cell (g : List PointCloudPoint) q, q < g.length →
          ∃ idx : List Nat, idx.Nodup ∧ idx.length = q ∧ (∀ i ∈ idx, i < g.length)
            ∧ selectCell rng level cell g q = idx.filterMap (fun i => g[i]?)
            ∧ (selectCell rng level cell g q).length = q)
      ∧ (∀ level cell (g : List PointCloudPoint) q, (selectCell rng level cell g q).Subperm g) := by
  refine ⟨lodPointLists_subperm rng chunk, ?_, ?_, ?_, ?_, selectCell_subperm rng⟩
  · intro L p
    exact (lodPointLists_subperm rng chunk L).count_le p
  · intro lst hlst
    simp only [generateLODLevels, List.mem_map] at hlst
    obtain ⟨pts, hpts, hsome⟩ := hlst
    split at hsome
    · cases hsome
    · obtain ⟨k, hk, rfl⟩ := List.getElem_of_mem hpts
      have h := lodPointLists_subperm rng chunk k
      rw [List.getD_eq_getElem?_getD, List.getElem?_eq_getElem hk] at h
      cases hsome
      exact h
  · intro level cell g q h
    unfold selectCell
    rw [if_pos h]
  · intro level cell g q h
    obtain ⟨hnd, hlt, hlen, -⟩ := chosen_indices rng level cell g.length q
    refine ⟨_, hnd, ?_, hlt, ?_, ?_⟩
    · rw [hlen]
      exact Nat.min_eq_left h.le
    · unfold selectCell
      rw [if_neg (by omega)]
    · rw [selectCell_length]
      exact Nat.min_eq_right h.le

/-- C26: every point of a chunk goes to exactly one of the 512 voxel cells: the
cell index is below 512 for every bounding box and every point, each axis bin
lies in `0..7` (also for any integer the conversion may yield), a point on the
maximum face falls in bin 7 and a box of zero extent puts every point in bin 0,
the grid has 512 cells, cell `c` holds the points whose index is `c`, in order,
and the cell sizes add up to the chunk's point count. -/
theorem C26_voxel_assignment (chunk : PointCloudChunk) :
    (∀ mn mx p, gridIndex mn mx p < 512)
      ∧ (∀ mn mx p, gridIndex mn mx p =
            (axisBin mn.x mx.x p.position.x + axisBin mn.y mx.y p.position.y * 8
              + axisBin mn.z mx.z p.position.z * 8 * 8).toNat)
      ∧ (∀ lo hi v, 0 ≤ axisBin lo hi v ∧ axisBin lo hi v ≤ 7)
      ∧ (∀ x y z : Int, (clampInt x 0 7 + clampInt y 0 7 * 8 + clampInt z 0 7 * 8 * 8).toNat < 512)
      ∧ (∀ lo hi, lo < hi → axisBin lo hi hi = 7)
      ∧ (∀ lo v, axisBin lo lo v = 0)
      ∧ (buildGrid chunk.points).length = 512
      ∧ (∀ c, (buildGrid chunk.points).getD c [] =
            chunk.points.filter
              (fun p => gridIndex (chunkBounds chunk.points).1 (chunkBounds chunk.points).2 p = c))
      ∧ (∀ p ∈ chunk.points, ∀ c, p ∈ (buildGrid chunk.points).getD c [] ↔
            c = gridIndex (chunkBounds chunk.points).1 (chunkBounds chunk.points).2 p)
      ∧ (buildGrid chunk.points).flatten.Perm chunk.points
      ∧ ((buildGrid chunk.points).map List.length).sum = chunk.points.length := by
  refine ⟨gridIndex_lt, gridIndex_eq, axisBin_range, clamp_index_lt, axisBin_max, axisBin_flat,
    buildGrid_length _, buildGrid_getD _, ?_, buildGrid_flatten _, ?_⟩
  · intro p hp c
    rw [buildGrid_getD, List.mem_filter]
    simp only [decide_eq_true_eq]
    exact ⟨fun h => h.2.symm, fun h => ⟨hp, h.symm⟩⟩
  · rw [← List.length_flatten]
    exact (buildGrid_flatten _).length_eq

/-! ### Lines of a block and the intensity field -/

theorem processLines_append (env : Env) (k c : Nat) (pre post : List (List Char)) :
    processLines env k c (pre ++ post)
      = processLines env k c pre ++ processLines env k (c + pre.length) post := by
  induction pre generalizing c with
  | nil => rfl
  | cons line rest ih =>
    rw [List.cons_append, processLines, processLines, ih (c + 1), List.append_assoc,
      List.length_cons]
    congr 3
    omega

theorem processLines_malformed (env : Env) (k c : Nat) (line : List Char)
    (rest : List (List Char)) (h : env.sscanf line = none) :
    processLines env k c (line :: rest) = processLines env k (c + 1) rest := by
  rw [processLines, h]
  simp

theorem processLines_empty_line (env : Env) (k c : Nat) (rest : List (List Char)) :
    processLines env k c ([] :: rest) = processLines env k (c + 1) rest := by
  rw [processLines]
  simp

theorem parseLine_eq_some (env : Env) (line : List Char) (p : PointCloudPoint) :
    parseLine env line = some p ↔
      line ≠ [] ∧ ∃ f, env.sscanf line = some f ∧ p = pointOfFields f := by
  unfold parseLine
  by_cases hl : line = []
  · simp [hl]
  · rw [if_neg hl]
    cases env.sscanf line with
    | none => simp
    | some f =>
      simp only [Option.map_some', Option.some.injEq, ne_eq, hl, not_false_eq_true, true_and]
      constructor
      · intro h
        exact ⟨f, rfl, h.symm⟩
      · rintro ⟨g, hg, rfl⟩
        rw [hg]

/-- C27: for every read block and stride `k >= 1`, the points a worker produces
are, in line order, the records of the non-empty lines that scan as seven
fields among the lines whose zero-based index in the block is a multiple of
`k`; the index counts every line; a line that is empty or fails to scan yields
no point and the lines after it are handled as if it had been any other line. -/
theorem C27_worker_block_points (env : Env) (k : Nat) (_hk : 1 ≤ k) (block : List Char) :
    processChunk env k block
        = ((getLines block).enum.filter (fun e => e.1 % k = 0)).filterMap
            (fun e => parseLine env e.2)
      ∧ processChunk env k block = (everyKth k (getLines block)).filterMap (parseLine env)
      ∧ (∀ line p, parseLine env line = some p ↔
            line ≠ [] ∧ ∃ f, env.sscanf line = some f ∧ p = pointOfFields f)
      ∧ (∀ pre post, getLines block = pre ++ post →
            processChunk env k block
              = processLines env k 0 pre ++ processLines env k pre.length post)
      ∧ (∀ c line rest, env.sscanf line = none →
            processLines env k c (line :: rest) = processLines env k (c + 1) rest)
      ∧ (∀ c rest, processLines env k c ([] :: rest) = processLines env k (c + 1) rest) := by
  refine ⟨?_, processChunk_eq env k block, parseLine_eq_some env, ?_,
    fun c line rest h => processLines_malformed env k c line rest h,
    fun c rest => processLines_empty_line env k c rest⟩
  · unfold processChunk
    rw [processLines_eq]
    rfl
  · intro pre post h
    unfold processChunk
    rw [h, processLines_append, Nat.zero_add]

/-- Witness of C27: the block `valid, malformed, valid` with stride 1 yields
the two valid records. -/
theorem C27_worker_block_points_witness :
    1 ≤ 1
      ∧ processChunk refEnv 1 mixedFile =
          [pointOfFields ⟨1, 0, 0, 0, 0, 0, 0⟩, pointOfFields ⟨2, 0, 0, 0, 0, 0, 0⟩] :=
  ⟨by decide, by
    rw [(C27_worker_block_points refEnv 1 (by decide) mixedFile).2.1]
    decide!⟩

theorem everyKth_one {α : Type} (l : List α) : everyKth 1 l = l := by
  unfold everyKth
  simp [Nat.mod_one, List.enum_map_snd]

theorem processChunk_one (env : Env) (chunk : List Char) :
    processChunk env 1 chunk = (getLines chunk).filterMap (parseLine env) := by
  rw [processChunk_eq, everyKth_one]

theorem filterMap_replicate {α β : Type} (f : α → Option β) (a : α) (b : β) (h : f a = some b)
    (n : Nat) : (List.replicate n a).filterMap f = List.replicate n b := by
  induction n with
  | zero => rfl
  | succ n ih => rw [List.replicate_succ, List.filterMap_cons_some h, ih, List.replicate_succ]

theorem getLinesFrom_replicate (line : List Char) (h : '\n' ∉ line) (n : Nat) (rest : List Char) :
    getLinesFrom [] ((List.replicate n (line ++ ['\n'])).flatten ++ rest)
      = List.replicate n line ++ getLinesFrom [] rest := by
  induction n with
  | zero => simp
  | succ n ih =>
    rw [List.replicate_succ, List.flatten_cons, List.append_assoc, List.append_assoc,
      List.singleton_append, getLinesFrom_line _ _ _ h, ih, List.nil_append, List.replicate_succ,
      List.cons_append]

theorem stridedFile_points :
    (loadPointCloudFile refEnv (some stridedFile) 1).points
      = List.replicate 65537 (pointOfFields ⟨1, 0, 0, 0, 0, 0, 0⟩) := by
  have hnl : '\n' ∉ validLine := by decide
  have hp : parseLine refEnv validLine = some (pointOfFields ⟨1, 0, 0, 0, 0, 0, 0⟩) := by decide!
  have hsplit : stridedFile =
      (List.replicate 65536 (validLine ++ ['\n'])).flatten
        ++ (List.replicate 1 (validLine ++ ['\n'])).flatten := by
    unfold stridedFile
    rw [show (65537 : Nat) = 65536 + 1 by norm_num, List.replicate_add, List.flatten_append]
  have hlen : (List.replicate 65536 (validLine ++ ['\n'])).flatten.length = bufferSize := by
    rw [length_flatten_replicate]
    decide
  have hblocks := readBlocks_two _ (List.replicate 1 (validLine ++ ['\n'])).flatten hlen
    (by decide) (by decide)
  rw [loadPointCloudFile_points, hsplit, hblocks, List.flatMap_cons, List.flatMap_cons,
    List.flatMap_nil, List.append_nil, processChunk_one, processChunk_one,
    getLines_replicate _ hnl, getLines_replicate _ hnl, filterMap_replicate _ _ _ hp,
    filterMap_replicate _ _ _ hp, ← List.replicate_add]

theorem shiftedFile_lines :
    getLines shiftedFile = halfIntensityLine :: List.replicate 65536 validLine := by
  unfold getLines shiftedFile
  rw [List.append_assoc, List.singleton_append, getLinesFrom_line _ _ _ (by decide),
    List.nil_append]
  have h := getLinesFrom_replicate validLine (by decide) 65536 []
  have e : getLinesFrom [] [] = [] := rfl
  rw [e, List.append_nil, List.append_nil] at h
  rw [h]

theorem shiftedFile_points :
    (loadPointCloudFile refEnv (some shiftedFile) 1).points
      = List.replicate 65536 (pointOfFields ⟨1, 0, 0, 0, 0, 0, 0⟩) := by
  have hnl : '\n' ∉ validLine := by decide
  have hp : parseLine refEnv validLine = some (pointOfFields ⟨1, 0, 0, 0, 0, 0, 0⟩) := by decide!
  have hh : parseLine refEnv halfIntensityLine = some (pointOfFields ⟨1, 0, 0, 0, 0, 0, 0⟩) := by
    decide!
  have hcut : parseLine refEnv (validLine.take 14) = none := by decide!
  have hzero : parseLine refEnv ['0'] = none := by decide!
  have hsplit : shiftedFile =
      (halfIntensityLine ++ '\n' ::
          ((List.replicate 65534 (validLine ++ ['\n'])).flatten ++ validLine.take 14))
        ++ (['0'] ++ '\n' :: ((List.replicate 1 (validLine ++ ['\n'])).flatten ++ [])) := by
    unfold shiftedFile
    rw [show (65536 : Nat) = 65534 + 1 + 1 by norm_num, List.replicate_add, List.replicate_add,
      List.flatten_append, List.flatten_append]
    have e : (List.replicate 1 (validLine ++ ['\n'])).flatten = validLine.take 14 ++ ['0', '\n'] := by
      decide
    nth_rewrite 1 [e]
    simp only [List.append_assoc, List.singleton_append, List.cons_append, List.nil_append,
      List.append_nil]
  have hlen : (halfIntensityLine ++ '\n' ::
      ((List.replicate 65534 (validLine ++ ['\n'])).flatten ++ validLine.take 14)).length
        = bufferSize := by
    rw [List.length_append, List.length_cons, List.length_append, length_flatten_replicate]
    decide
  have hblocks := readBlocks_two _
    (['0'] ++ '\n' :: ((List.replicate 1 (validLine ++ ['\n'])).flatten ++ [])) hlen
    (by decide) (by decide)
  have hfirst : getLines (halfIntensityLine ++ '\n' ::
      ((List.replicate 65534 (validLine ++ ['\n'])).flatten ++ validLine.take 14))
        = halfIntensityLine :: (List.replicate 65534 validLine ++ [validLine.take 14]) := by
    unfold getLines
    rw [getLinesFrom_line _ _ _ (by decide), List.nil_append, getLinesFrom_replicate _ hnl]
    rfl
  have hsecond : getLines (['0'] ++ '\n' :: ((List.replicate 1 (validLine ++ ['\n'])).flatten ++ []))
      = ['0'] :: (List.replicate 1 validLine ++ []) := by
    unfold getLines
    rw [getLinesFrom_line _ _ _ (by decide), List.nil_append, getLinesFrom_replicate _ hnl]
    rfl
  rw [loadPointCloudFile_points, hsplit, hblocks, List.flatMap_cons, List.flatMap_cons,
    List.flatMap_nil, List.append_nil, processChunk_one, processChunk_one, hfirst, hsecond,
    List.filterMap_cons_some hh, List.filterMap_append, filterMap_replicate _ _ _ hp,
    List.filterMap_cons_none hcut, List.filterMap_nil, List.append_nil,
    List.filterMap_cons_none hzero, List.append_nil, filterMap_replicate _ _ _ hp,
    ← List.replicate_succ, ← List.replicate_add]

/-- C28, at the failing input: the file of 65537 lines `1.0 0 0 0 0 0 0` and
the same file with the intensity of its first line written `0.5` have pairwise
lines that scan to the same values apart from the intensity, yet the first
loads 65537 points and the second 65536 with stride 1: the two extra characters
move the 1 MiB block boundary into line 65535, and the loader hands the two
pieces of that line to different workers; neither piece scans as seven fields,
so a valid line of the input is lost. -/
theorem C28_block_boundary_cuts_line :
    getLines stridedFile = validLine :: List.replicate 65536 validLine
      ∧ getLines shiftedFile = halfIntensityLine :: List.replicate 65536 validLine
      ∧ refEnv.sscanf validLine = some ⟨1, 0, 0, 0, 0, 0, 0⟩
      ∧ refEnv.sscanf halfIntensityLine = some ⟨1, 0, 0, 1 / 2, 0, 0, 0⟩
      ∧ (loadPointCloudFile refEnv (some stridedFile) 1).points.length = 65537
      ∧ (loadPointCloudFile refEnv (some shiftedFile) 1).points.length = 65536
      ∧ (loadPointCloudFile refEnv (some stridedFile) 1).points
          ≠ (loadPointCloudFile refEnv (some shiftedFile) 1).points := by
  refine ⟨?_, shiftedFile_lines, validLine_scan, by decide!, ?_, ?_, ?_⟩
  · have h := getLines_replicate validLine (by decide) 65537
    rw [show (65537 : Nat) = 65536 + 1 by norm_num, List.replicate_succ] at h
    exact h
  · rw [stridedFile_points, List.length_replicate]
  · rw [shiftedFile_points, List.length_replicate]
  · intro h
    have hl := congrArg List.length h
    rw [stridedFile_points, shiftedFile_points, List.length_replicate, List.length_replicate] at hl
    exact absurd hl (by decide)

theorem pointOfFields_key (f g : ScanFields)
    (h : { f with intensity := 0 } = { g with intensity := 0 }) :
    pointOfFields f = pointOfFields g := by
  have e := congrArg pointOfFields h
  exact e

theorem processLines_congr (env : Env) (k c : Nat) (la lb : List (List Char))
    (h : la.map (lineKey env) = lb.map (lineKey env)) :
    processLines env k c la = processLines env k c lb := by
  induction la generalizing lb c with
  | nil =>
    cases lb with
    | nil => rfl
    | cons b rest => simp at h
  | cons a resta ih =>
    cases lb with
    | nil => simp at h
    | cons b restb =>
      rw [List.map_cons, List.map_cons, List.cons.injEq] at h
      obtain ⟨hkey, hrest⟩ := h
      simp only [lineKey, Prod.mk.injEq] at hkey
      obtain ⟨hempty, hscan⟩ := hkey
      have hne : a = [] ↔ b = [] := by
        rw [← List.isEmpty_iff, ← List.isEmpty_iff, hempty]
      rw [processLines, processLines, ih (c + 1) restb hrest]
      congr 1
      by_cases ha : a = []
      · have hb := hne.mp ha
        simp [ha, hb]
      · have hb : ¬ b = [] := fun e => ha (hne.mpr e)
        by_cases hc : c % k = 0
        · simp only [ne_eq, ha, hb, not_false_eq_true, hc, and_self, if_true]
          cases hsa : env.sscanf a with
          | none =>
            cases hsb : env.sscanf b with
            | none => rfl
            | some g => rw [hsa, hsb] at hscan; simp at hscan
          | some f =>
            cases hsb : env.sscanf b with
            | none => rw [hsa, hsb] at hscan; simp at hscan
            | some g =>
              rw [hsa, hsb] at hscan
              simp only [Option.map_some', Option.some.injEq] at hscan
              simp only [pointOfFields_key f g hscan]
        · simp [hc]

/-- Inside one read block the intensity field has no effect: the point built
from a valid line has the position `(x, y, z)`, the colour `(r/255, g/255,
b/255)` and the intensity 1 whatever the scanned intensity is, and two inputs
that each fit in one read block and whose lines agree pairwise in everything but
the intensity field load the same points, for every stride. -/
theorem intensity_ignored_in_one_block (env : Env) (k : Nat) (a b : List Char)
    (ha : a.length ≤ bufferSize) (hb : b.length ≤ bufferSize)
    (hlines : (getLines a).map (lineKey env) = (getLines b).map (lineKey env)) :
    (∀ f : ScanFields, pointOfFields f =
        { position := ⟨f.x, f.y, f.z⟩, intensity := 1,
          color := ⟨(f.r : ℚ) / 255, (f.g : ℚ) / 255, (f.b : ℚ) / 255⟩ })
      ∧ (∀ (f : ScanFields) (i : ℚ), pointOfFields { f with intensity := i } = pointOfFields f)
      ∧ (∀ line f, '\n' ∉ line → line ≠ [] → env.sscanf line = some f →
          processChunk env 1 (line ++ ['\n']) = [pointOfFields f])
      ∧ (loadPointCloudFile env (some a) k).points = (loadPointCloudFile env (some b) k).points := by
  refine ⟨fun _ => rfl, fun _ _ => rfl, ?_, ?_⟩
  · intro line f hnl hne hscan
    have h := processChunk_replicate env 1 0 line f hnl hne hscan (by decide)
    simpa using h
  · rw [loadPointCloudFile_single_block env a k ha, loadPointCloudFile_single_block env b k hb]
    exact processLines_congr env k 0 _ _ hlines

theorem intensity_ignored_one_line :
    (loadPointCloudFile refEnv (some (validLine ++ ['\n'])) 1).points
      = (loadPointCloudFile refEnv (some (halfIntensityLine ++ ['\n'])) 1).points :=
  (intensity_ignored_in_one_block refEnv 1 (validLine ++ ['\n']) (halfIntensityLine ++ ['\n'])
    (by decide) (by decide) (by decide!)).2.2.2

/-! ### Half diagonal and quantisation loss -/

theorem sq_le_half (d h : ℚ) (h1 : -h ≤ d) (h2 : d < h) : d * d ≤ h ^ 2 := by
  nlinarith [mul_nonneg (by linarith : (0 : ℚ) ≤ h - d) (by linarith : (0 : ℚ) ≤ h + d)]

/-- A point in the half-open cube of side `s` around `center` is within half
the diagonal of the cube from the centre. -/
theorem distSq_in_cube (p center : Vec3) (s : ℚ)
    (hx : center.x - s / 2 ≤ p.x ∧ p.x < center.x + s / 2)
    (hy : center.y - s / 2 ≤ p.y ∧ p.y < center.y + s / 2)
    (hz : center.z - s / 2 ≤ p.z ∧ p.z < center.z + s / 2) :
    distSq p center ≤ 3 * (s / 2) ^ 2 := by
  simp only [distSq, Vec3.dot, Vec3.sub]
  have ex := sq_le_half (p.x - center.x) (s / 2) (by linarith [hx.1]) (by linarith [hx.2])
  have ey := sq_le_half (p.y - center.y) (s / 2) (by linarith [hy.1]) (by linarith [hy.2])
  have ez := sq_le_half (p.z - center.z) (s / 2) (by linarith [hz.1]) (by linarith [hz.2])
  linarith

/-- C29: when the cloud's transform is the identity and `s > 0`, every chunk
of `generateChunks` has `boundingRadius = sqrt M` for the largest squared
distance `M` of one of its points to the centre, `M <= 3 * (s/2)^2`, and
wherever the square root does not exceed the exact one (`sqrt M ^ 2 <= M`),
`boundingRadius ^ 2 <= 3 * (s/2)^2`: the radius is at most half the cell
diagonal. -/
theorem C29_radius_within_half_diagonal (env : Env) (pc : PointCloud) (s : ℚ) (hs : 0 < s)
    (hpos : pc.position = ⟨0, 0, 0⟩) (hrot : pc.rotation = ⟨0, 0, 0⟩)
    (hscale : pc.scale = ⟨1, 1, 1⟩) :
    ∀ c ∈ (generateChunks env pc s).chunks,
      (∀ p ∈ c.points, distSq p.position c.centerPosition ≤ 3 * (s / 2) ^ 2)
      ∧ ∃ M : ℚ, c.boundingRadius = env.sqrt M
          ∧ (∃ p ∈ c.points, distSq p.position c.centerPosition = M)
          ∧ M ≤ 3 * (s / 2) ^ 2
          ∧ (env.sqrt M ^ 2 ≤ M → c.boundingRadius ^ 2 ≤ 3 * (s / 2) ^ 2) := by
  intro c hc
  obtain ⟨e, he, hpts, hcen⟩ := generateChunks_chunk_mem env pc s c hc
  obtain ⟨hne, hr⟩ := generateChunks_chunk_radius env pc s c hc
  obtain ⟨-, q, hq, hqM⟩ := maxDistSq_spec c.centerPosition c.points hne
  have hcube : ∀ p ∈ c.points, distSq p.position c.centerPosition ≤ 3 * (s / 2) ^ 2 := by
    intro p hp
    rw [hpts] at hp
    have hkey := (buildChunkMap_entry _ _ _ e he).2 p hp
    rw [hpos, hrot, hscale, modelMatrix_identity, chunkIndexOf_eq, transformPoint_identity] at hkey
    have hx : ⌊p.position.x / s⌋ = e.1.x := congrArg IVec3.x hkey
    have hy : ⌊p.position.y / s⌋ = e.1.y := congrArg IVec3.y hkey
    have hz : ⌊p.position.z / s⌋ = e.1.z := congrArg IVec3.z hkey
    rw [hcen]
    exact distSq_in_cube _ _ s (floor_cell _ s _ hs hx) (floor_cell _ s _ hs hy)
      (floor_cell _ s _ hs hz)
  have hM : maxDistSq c.centerPosition c.points ≤ 3 * (s / 2) ^ 2 := hqM ▸ hcube q hq
  refine ⟨hcube, maxDistSq c.centerPosition c.points, hr, ⟨q, hq, hqM⟩, hM, ?_⟩
  intro hsq
  rw [hr]
  exact hsq.trans hM

/-- Witness of C29: the chunk of the cloud whose point is one unit off the
centre of its cell of side 10; the bounding radius is 1 and half the diagonal
squared is 75. -/
theorem C29_radius_within_half_diagonal_witness :
    (0 : ℚ) < 10
      ∧ ∃ c ∈ (generateChunks refEnv unitOffsetCloud 10).chunks,
          c.boundingRadius ^ 2 ≤ 3 * ((10 : ℚ) / 2) ^ 2 := by
  have hmem : makeChunk refEnv 10 0 (⟨0, 0, 0⟩, unitOffsetCloud.points)
      ∈ (generateChunks refEnv unitOffsetCloud 10).chunks := by
    rw [unitOffsetCloud_chunks]
    exact List.mem_singleton_self _
  obtain ⟨_, M, _, ⟨p, hp, hpM⟩, _, hle⟩ :=
    C29_radius_within_half_diagonal refEnv unitOffsetCloud 10 (by norm_num) rfl rfl rfl _ hmem
  have hp' : p = ⟨⟨5, 5, 6⟩, 1, ⟨1, 1, 1⟩⟩ := List.mem_singleton.mp hp
  have hM : M = 1 := by
    rw [← hpM, hp']
    exact unitOffsetCloud_distSq
  rw [hM] at hle
  have hsq : refEnv.sqrt 1 ^ 2 ≤ 1 := by
    rw [show refEnv.sqrt 1 = refSqrt 1 from rfl, refSqrt_one]
    norm_num
  exact ⟨by norm_num, _, hmem, hle hsq⟩

end Engine
